import Mathlib

/-!
# Register access over the MPSSE SPI bridge (`loragw_spi.mpsse.c`)

A shallow embedding of `libloragw/src/loragw_spi.mpsse.c`.

* The constants of `loragw_spi.h` and `mpsse.h` are not part of the sources at
  hand; they are the fields of `Consts`, and every theorem holds for all their
  values unless it says otherwise.
* The MPSSE library is outside the repository.  It is modelled as a transport
  `T : Transport` that answers every call from the calls made before it, and
  as the list of calls made so far (the trace).
* `char` buffers hold raw bytes `0..255`; reading a `char` as a value gives the
  signed value, as with gcc on x86.
* C `int`s are `Int`; `uint8_t` and `uint16_t` arguments are `Nat`.
* A `NULL` pointer is `none`.
-/

namespace LoraSpi

/-! ## Constants of the absent headers -/

/-- Values of the macros the source takes from `loragw_spi.h` and `mpsse.h`. -/
structure Consts where
  /-- Status `LGW_SPI_SUCCESS` of `loragw_spi.h`. -/
  LGW_SPI_SUCCESS : Int
  /-- Status `LGW_SPI_ERROR` of `loragw_spi.h`. -/
  LGW_SPI_ERROR : Int
  /-- Mux mode `LGW_SPI_MUX_MODE1` of `loragw_spi.h`. -/
  LGW_SPI_MUX_MODE1 : Int
  /-- Largest transfer `LGW_BURST_CHUNK` of `loragw_spi.h`, a byte count. -/
  LGW_BURST_CHUNK : Nat
  /-- Status `MPSSE_OK` of `mpsse.h`. -/
  MPSSE_OK : Int

/-- The values the upstream headers give: success 0, error -1, mode1 1,
chunk 1024, MPSSE_OK 0. -/
def stdConsts : Consts :=
  ⟨0, -1, 1, 1024, 0⟩

/-- The upstream values with a chunk limit of 64 bytes. -/
def consts64 : Consts :=
  ⟨0, -1, 1, 64, 0⟩

/-- `READ_ACCESS` (line 39). -/
def READ_ACCESS : Nat := 0x00

/-- `WRITE_ACCESS` (line 40). -/
def WRITE_ACCESS : Nat := 0x80

/-! ## The MPSSE library as a transport -/

/-- The `struct mpsse_context` a handle points to: which adapter it is, and
its field `open`. -/
structure mpsse_context where
  /-- Identity of the context object. -/
  id : Nat
  /-- The field `open` of the structure. -/
  opened : Bool
deriving DecidableEq, Repr

/-- Names of `mpsse.h` that the source passes on unchanged. -/
inductive Sym where
  | SPI0
  | TEN_MHZ
  | MSB
  | HIGH
deriving DecidableEq, Repr

/-- `SPI_SPEED` (line 41). -/
def SPI_SPEED : Sym := Sym.TEN_MHZ

/-- `TRUE` (line 23). -/
def TRUE : Int := 1

/-- A call into the MPSSE library, with the arguments the library sees.  A
write carries the bytes it is given and the byte count; a read carries the
byte count. -/
inductive Call where
  | MPSSE (mode freq endianess : Sym)
  | SetCSIdle (ctx : mpsse_context) (idle : Sym)
  | FlushAfterRead (ctx : mpsse_context) (tf : Int)
  | Close (ctx : mpsse_context)
  | Start (ctx : mpsse_context)
  | FastWrite (ctx : mpsse_context) (data : List Nat) (size : Int)
  | FastRead (ctx : mpsse_context) (size : Int)
  | Stop (ctx : mpsse_context)
deriving DecidableEq, Repr

/-- What the library answers to one call: the returned status, the context
returned by `MPSSE`, and for a read the bytes delivered (`bytes j` is byte
`j`) and how many of them a failing read still stores (`got`). -/
structure Reply where
  /-- Returned status. -/
  status : Int
  /-- Context returned by `MPSSE`, `none` for `NULL`. -/
  ctx : Option mpsse_context
  /-- Byte `j` delivered by a read. -/
  bytes : Nat → Nat
  /-- Number of bytes a failing read stores before it gives up. -/
  got : Nat

/-- A transport answers a call from the calls made before it (oldest first)
and the call itself. -/
abbrev Transport := List Call → Call → Reply

/-- `Start(ctx)`: the status, and the trace with the call appended. -/
def Start (T : Transport) (tr : List Call) (ctx : mpsse_context) : Int × List Call :=
  ((T tr (Call.Start ctx)).status, tr ++ [Call.Start ctx])

/-- `Stop(ctx)`. -/
def Stop (T : Transport) (tr : List Call) (ctx : mpsse_context) : Int × List Call :=
  ((T tr (Call.Stop ctx)).status, tr ++ [Call.Stop ctx])

/-- `FastWrite(ctx, buf, size)`: the library is handed the first `size` bytes
at `buf`. -/
def FastWrite (T : Transport) (tr : List Call) (ctx : mpsse_context) (buf : List Nat)
    (size : Int) : Int × List Call :=
  let c := Call.FastWrite ctx (buf.take size.toNat) size
  ((T tr c).status, tr ++ [c])

/-- Bytes a read of `size` bytes stores at its buffer: all `size` bytes when it
succeeds, the first `got` of them at most when it fails. -/
def readBytes (K : Consts) (r : Reply) (size : Int) : List Nat :=
  if r.status = K.MPSSE_OK then (List.range size.toNat).map (fun j => r.bytes j % 256)
  else (List.range (min r.got size.toNat)).map (fun j => r.bytes j % 256)

/-- `FastRead(ctx, buf, size)`: the status, the trace, and the bytes stored at
`buf`. -/
def FastRead (K : Consts) (T : Transport) (tr : List Call) (ctx : mpsse_context)
    (size : Int) : Int × List Call × List Nat :=
  let c := Call.FastRead ctx size
  ((T tr c).status, tr ++ [c], readBytes K (T tr c) size)

/-! ## Bytes and buffers -/

/-- Storing an integer value in a `char` or `uint8_t` keeps its low 8 bits. -/
def toByte (v : Int) : Nat := (v % 256).toNat

/-- The value of a `char` holding raw byte `b` (signed `char`). -/
def charVal (b : Nat) : Int := if b < 128 then (b : Int) else (b : Int) - 256

/-- Storing `bytes` at `mem + off`; stores past the end of `mem` are dropped. -/
def storeAt (mem : List Nat) (off : Nat) (bytes : List Nat) : List Nat :=
  (mem.take off ++ bytes ++ mem.drop (off + bytes.length)).take mem.length

/-! ## The operations -/

/-- `lgw_spi_w` (lines 89-121): the returned status and the trace. -/
def lgw_spi_w (K : Consts) (T : Transport) (tr : List Call)
    (spi_target : Option mpsse_context)
    (spi_mux_mode spi_mux_target address data : Nat) : Int × List Call :=
  match spi_target with
  | none => (K.LGW_SPI_ERROR, tr)
  | some spi_device =>
    let out_buf : List Nat :=
      if (spi_mux_mode : Int) = K.LGW_SPI_MUX_MODE1 then
        [toByte spi_mux_target, toByte (WRITE_ACCESS ||| (address &&& 0x7F) : Nat), toByte data]
      else
        [toByte (WRITE_ACCESS ||| (address &&& 0x7F) : Nat), toByte data]
    let command_size : Int :=
      if (spi_mux_mode : Int) = K.LGW_SPI_MUX_MODE1 then 3 else 2
    let s1 := Start T tr spi_device
    if K.MPSSE_OK ≠ s1.1 then (K.LGW_SPI_ERROR, s1.2) else
    let s2 := FastWrite T s1.2 spi_device out_buf command_size
    if K.MPSSE_OK ≠ s2.1 then (K.LGW_SPI_ERROR, s2.2) else
    let s3 := Stop T s2.2 spi_device
    if K.MPSSE_OK ≠ s3.1 then (K.LGW_SPI_ERROR, s3.2) else
    (K.LGW_SPI_SUCCESS, s3.2)

/-- `lgw_spi_r` (lines 126-160): the returned status, the trace, and the byte
`data` points to afterwards (`none` when `data` is `NULL`). -/
def lgw_spi_r (K : Consts) (T : Transport) (tr : List Call)
    (spi_target : Option mpsse_context)
    (spi_mux_mode spi_mux_target address : Nat) (data : Option Nat) :
    Int × List Call × Option Nat :=
  match spi_target with
  | none => (K.LGW_SPI_ERROR, tr, data)
  | some spi_device =>
    match data with
    | none => (K.LGW_SPI_ERROR, tr, none)
    | some old =>
      let out_buf : List Nat :=
        if (spi_mux_mode : Int) = K.LGW_SPI_MUX_MODE1 then
          [toByte spi_mux_target, toByte (READ_ACCESS ||| (address &&& 0x7F) : Nat)]
        else
          [toByte (READ_ACCESS ||| (address &&& 0x7F) : Nat)]
      let command_size : Int :=
        if (spi_mux_mode : Int) = K.LGW_SPI_MUX_MODE1 then 2 else 1
      let s1 := Start T tr spi_device
      if K.MPSSE_OK ≠ s1.1 then (K.LGW_SPI_ERROR, s1.2, some old) else
      let s2 := FastWrite T s1.2 spi_device out_buf command_size
      if K.MPSSE_OK ≠ s2.1 then (K.LGW_SPI_ERROR, s2.2, some old) else
      let s3 := FastRead K T s2.2 spi_device 1
      let in_buf : List Nat := s3.2.2
      if K.MPSSE_OK ≠ s3.1 then (K.LGW_SPI_ERROR, s3.2.1, some old) else
      let s4 := Stop T s3.2.1 spi_device
      if K.MPSSE_OK ≠ s4.1 then (K.LGW_SPI_ERROR, s4.2, some old) else
      (K.LGW_SPI_SUCCESS, s4.2, some (toByte (charVal (in_buf.getD 0 0))))

/-- The chunk loop of `lgw_spi_wb` (lines 200-207), entered with the loop
counter `i`, the count `size_to_do` and the trace.  The first argument bounds
the number of iterations; `none` means the bound was reached with bytes still
to do.  The flag is `false` when `CHECK_ERROR` left the function from inside
the loop. -/
def wb_loop (K : Consts) (T : Transport) (spi_device : mpsse_context) (data : List Nat) :
    Nat → Int → Int → List Call → Option (Bool × List Call)
  | 0, _, size_to_do, tr => if size_to_do > 0 then none else some (true, tr)
  | fuel + 1, i, size_to_do, tr =>
    if size_to_do > 0 then
      let chunk_size : Int :=
        if size_to_do < (K.LGW_BURST_CHUNK : Int) then size_to_do else (K.LGW_BURST_CHUNK : Int)
      let offset : Int := i * (K.LGW_BURST_CHUNK : Int)
      let buf : List Nat := data.drop offset.toNat
      let s := FastWrite T tr spi_device buf chunk_size
      if K.MPSSE_OK ≠ s.1 then some (false, s.2) else
      wb_loop K T spi_device data fuel (i + 1) (size_to_do - chunk_size) s.2
    else some (true, tr)

/-- `lgw_spi_wb` (lines 165-212): the returned status and the trace, `none`
when the loop does not end within `fuel` iterations. -/
def lgw_spi_wb (K : Consts) (T : Transport) (fuel : Nat) (tr : List Call)
    (spi_target : Option mpsse_context)
    (spi_mux_mode spi_mux_target address : Nat) (data : Option (List Nat)) (size : Nat) :
    Option (Int × List Call) :=
  match spi_target with
  | none => some (K.LGW_SPI_ERROR, tr)
  | some spi_device =>
    match data with
    | none => some (K.LGW_SPI_ERROR, tr)
    | some mem =>
      if size = 0 then some (K.LGW_SPI_ERROR, tr) else
      let command : List Nat :=
        if (spi_mux_mode : Int) = K.LGW_SPI_MUX_MODE1 then
          [toByte spi_mux_target, toByte (WRITE_ACCESS ||| (address &&& 0x7F) : Nat)]
        else
          [toByte (WRITE_ACCESS ||| (address &&& 0x7F) : Nat)]
      let command_size : Int :=
        if (spi_mux_mode : Int) = K.LGW_SPI_MUX_MODE1 then 2 else 1
      let size_to_do : Int := (size : Int)
      let s1 := Start T tr spi_device
      if K.MPSSE_OK ≠ s1.1 then some (K.LGW_SPI_ERROR, s1.2) else
      let s2 := FastWrite T s1.2 spi_device command command_size
      if K.MPSSE_OK ≠ s2.1 then some (K.LGW_SPI_ERROR, s2.2) else
      match wb_loop K T spi_device mem fuel 0 size_to_do s2.2 with
      | none => none
      | some (false, tr3) => some (K.LGW_SPI_ERROR, tr3)
      | some (true, tr3) =>
        let s3 := Stop T tr3 spi_device
        if K.MPSSE_OK ≠ s3.1 then some (K.LGW_SPI_ERROR, s3.2) else
        some (K.LGW_SPI_SUCCESS, s3.2)

/-- State of the chunk loop of `lgw_spi_rb`: whether the loop ended without
`CHECK_ERROR` leaving the function, the trace, the memory at `data`, and the
stores made into it, oldest first, each as its offset and its bytes. -/
structure RbLoop where
  /-- Value `false` when `CHECK_ERROR` left the function from inside the loop. -/
  done : Bool
  /-- Calls made so far. -/
  trace : List Call
  /-- Memory at `data`. -/
  mem : List Nat
  /-- Stores into `data` so far: offset and bytes. -/
  stores : List (Nat × List Nat)

/-- The chunk loop of `lgw_spi_rb` (lines 252-259); see `wb_loop` for the
first argument. -/
def rb_loop (K : Consts) (T : Transport) (spi_device : mpsse_context) :
    Nat → Int → Int → List Call → List Nat → List (Nat × List Nat) → Option RbLoop
  | 0, _, size_to_do, tr, mem, st =>
    if size_to_do > 0 then none else some ⟨true, tr, mem, st⟩
  | fuel + 1, i, size_to_do, tr, mem, st =>
    if size_to_do > 0 then
      let chunk_size : Int :=
        if size_to_do < (K.LGW_BURST_CHUNK : Int) then size_to_do else (K.LGW_BURST_CHUNK : Int)
      let offset : Int := i * (K.LGW_BURST_CHUNK : Int)
      let s := FastRead K T tr spi_device chunk_size
      let mem1 := storeAt mem offset.toNat s.2.2
      let st1 := st ++ [(offset.toNat, s.2.2)]
      if K.MPSSE_OK ≠ s.1 then some ⟨false, s.2.1, mem1, st1⟩ else
      rb_loop K T spi_device fuel (i + 1) (size_to_do - chunk_size) s.2.1 mem1 st1
    else some ⟨true, tr, mem, st⟩

/-- Outcome of `lgw_spi_rb`. -/
structure RbRes where
  /-- Returned status. -/
  ret : Int
  /-- Calls made so far. -/
  trace : List Call
  /-- Memory at `data` afterwards, `none` when `data` is `NULL`. -/
  data : Option (List Nat)
  /-- Stores the call made into `data`, oldest first: offset and bytes. -/
  stores : List (Nat × List Nat)

/-- `lgw_spi_rb` (lines 217-264), `none` when the loop does not end within
`fuel` iterations. -/
def lgw_spi_rb (K : Consts) (T : Transport) (fuel : Nat) (tr : List Call)
    (spi_target : Option mpsse_context)
    (spi_mux_mode spi_mux_target address : Nat) (data : Option (List Nat)) (size : Nat) :
    Option RbRes :=
  match spi_target with
  | none => some ⟨K.LGW_SPI_ERROR, tr, data, []⟩
  | some spi_device =>
    match data with
    | none => some ⟨K.LGW_SPI_ERROR, tr, none, []⟩
    | some mem =>
      if size = 0 then some ⟨K.LGW_SPI_ERROR, tr, some mem, []⟩ else
      let command : List Nat :=
        if (spi_mux_mode : Int) = K.LGW_SPI_MUX_MODE1 then
          [toByte spi_mux_target, toByte (READ_ACCESS ||| (address &&& 0x7F) : Nat)]
        else
          [toByte (READ_ACCESS ||| (address &&& 0x7F) : Nat)]
      let command_size : Int :=
        if (spi_mux_mode : Int) = K.LGW_SPI_MUX_MODE1 then 2 else 1
      let size_to_do : Int := (size : Int)
      let s1 := Start T tr spi_device
      if K.MPSSE_OK ≠ s1.1 then some ⟨K.LGW_SPI_ERROR, s1.2, some mem, []⟩ else
      let s2 := FastWrite T s1.2 spi_device command command_size
      if K.MPSSE_OK ≠ s2.1 then some ⟨K.LGW_SPI_ERROR, s2.2, some mem, []⟩ else
      match rb_loop K T spi_device fuel 0 size_to_do s2.2 mem [] with
      | none => none
      | some ⟨false, tr3, mem3, st3⟩ => some ⟨K.LGW_SPI_ERROR, tr3, some mem3, st3⟩
      | some ⟨true, tr3, mem3, st3⟩ =>
        let s3 := Stop T tr3 spi_device
        if K.MPSSE_OK ≠ s3.1 then some ⟨K.LGW_SPI_ERROR, s3.2, some mem3, st3⟩ else
        some ⟨K.LGW_SPI_SUCCESS, s3.2, some mem3, st3⟩

/-- `MPSSE(mode, freq, endianess)`: the returned context and the trace. -/
def MPSSE (T : Transport) (tr : List Call) (mode freq endianess : Sym) :
    Option mpsse_context × List Call :=
  ((T tr (Call.MPSSE mode freq endianess)).ctx, tr ++ [Call.MPSSE mode freq endianess])

/-- `SetCSIdle(ctx, idle)`. -/
def SetCSIdle (tr : List Call) (ctx : mpsse_context) (idle : Sym) : List Call :=
  tr ++ [Call.SetCSIdle ctx idle]

/-- `FlushAfterRead(ctx, tf)`. -/
def FlushAfterRead (tr : List Call) (ctx : mpsse_context) (tf : Int) : List Call :=
  tr ++ [Call.FlushAfterRead ctx tf]

/-- `Close(ctx)`. -/
def Close (tr : List Call) (ctx : mpsse_context) : List Call :=
  tr ++ [Call.Close ctx]

/-- `lgw_spi_open` (lines 46-69).  The argument is the slot `spi_target_ptr`
points to (`none` when the pointer is `NULL`; the slot itself may hold `NULL`).
Returns the status, the trace and the slot afterwards. -/
def lgw_spi_open (K : Consts) (T : Transport) (tr : List Call)
    (spi_target_ptr : Option (Option mpsse_context)) :
    Int × List Call × Option (Option mpsse_context) :=
  match spi_target_ptr with
  | none => (K.LGW_SPI_ERROR, tr, none)
  | some slot =>
    let m := MPSSE T tr Sym.SPI0 SPI_SPEED Sym.MSB
    match m.1 with
    | none => (K.LGW_SPI_ERROR, m.2, some slot)
    | some spi_device =>
      if !spi_device.opened then (K.LGW_SPI_ERROR, m.2, some slot) else
      let tr2 := SetCSIdle m.2 spi_device Sym.HIGH
      let tr3 := FlushAfterRead tr2 spi_device TRUE
      (K.LGW_SPI_SUCCESS, tr3, some (some spi_device))

/-- `lgw_spi_close` (lines 74-84): the status and the trace. -/
def lgw_spi_close (K : Consts) (tr : List Call) (spi_target : Option mpsse_context) :
    Int × List Call :=
  match spi_target with
  | none => (K.LGW_SPI_ERROR, tr)
  | some spi_device =>
    let tr1 := Close tr spi_device
    (K.LGW_SPI_SUCCESS, tr1)

/-- A transport on which every call succeeds. -/
def AllOk (K : Consts) (T : Transport) : Prop :=
  ∀ (h : List Call) (c : Call), (T h c).status = K.MPSSE_OK

/-- The mock used in the examples: every call succeeds, reads deliver byte
`r`, and `MPSSE` returns no context. -/
def mockT (r : Nat) : Transport :=
  fun _ _ => ⟨0, none, fun _ => r, 0⟩

/-- The context used in the examples. -/
def ctx0 : mpsse_context := ⟨0, true⟩

/-- A transport on which every call succeeds and every read delivers zeros. -/
def okT (K : Consts) : Transport :=
  fun _ _ => ⟨K.MPSSE_OK, none, fun _ => 0, 0⟩

/-! ## Definitions used to state and prove the theorems -/

/-- Number of chunks of at most `C` bytes that `S` bytes need: `S / C` rounded
up. -/
def nchunks (C S : Nat) : Nat := (S + C - 1) / C

/-- Size of chunk `k` when `S` bytes go out in chunks of `C`. -/
def chunkLen (C S k : Nat) : Nat := min C (S - k * C)

/-- Making the calls `cs` one after the other until one fails: whether all
succeeded, and the trace. -/
def runCalls (K : Consts) (T : Transport) : List Call → List Call → Bool × List Call
  | tr, [] => (true, tr)
  | tr, c :: cs =>
    if K.MPSSE_OK ≠ (T tr c).status then (false, tr ++ [c]) else runCalls K T (tr ++ [c]) cs

/-- The status an operation returns after `runCalls`. -/
def retOf (K : Consts) (r : Bool × List Call) : Int × List Call :=
  (if r.1 then K.LGW_SPI_SUCCESS else K.LGW_SPI_ERROR, r.2)

/-- The frame `lgw_spi_w` assembles in `out_buf`, and `command_size`. -/
def w_frame (K : Consts) (m t a d : Nat) : List Nat × Int :=
  if (m : Int) = K.LGW_SPI_MUX_MODE1 then
    ([toByte t, toByte (WRITE_ACCESS ||| (a &&& 0x7F) : Nat), toByte d], 3)
  else ([toByte (WRITE_ACCESS ||| (a &&& 0x7F) : Nat), toByte d], 2)

/-- The frame `lgw_spi_r` and `lgw_spi_rb` assemble, and `command_size`. -/
def r_frame (K : Consts) (m t a : Nat) : List Nat × Int :=
  if (m : Int) = K.LGW_SPI_MUX_MODE1 then
    ([toByte t, toByte (READ_ACCESS ||| (a &&& 0x7F) : Nat)], 2)
  else ([toByte (READ_ACCESS ||| (a &&& 0x7F) : Nat)], 1)

/-- The header `lgw_spi_wb` assembles in `command`, and `command_size`. -/
def wb_frame (K : Consts) (m t a : Nat) : List Nat × Int :=
  if (m : Int) = K.LGW_SPI_MUX_MODE1 then
    ([toByte t, toByte (WRITE_ACCESS ||| (a &&& 0x7F) : Nat)], 2)
  else ([toByte (WRITE_ACCESS ||| (a &&& 0x7F) : Nat)], 1)

/-- The write call that hands over a whole frame. -/
def frameCall (dev : mpsse_context) (f : List Nat × Int) : Call :=
  Call.FastWrite dev (f.1.take f.2.toNat) f.2

/-- The calls of `lgw_spi_w` when none fails. -/
def w_calls (K : Consts) (dev : mpsse_context) (m t a d : Nat) : List Call :=
  [Call.Start dev, frameCall dev (w_frame K m t a d), Call.Stop dev]

/-- The calls of `lgw_spi_r` when none fails. -/
def r_calls (K : Consts) (dev : mpsse_context) (m t a : Nat) : List Call :=
  [Call.Start dev, frameCall dev (r_frame K m t a), Call.FastRead dev 1, Call.Stop dev]

/-- The write call of chunk `k` of `lgw_spi_wb`. -/
def wbChunk (C : Nat) (dev : mpsse_context) (mem : List Nat) (S k : Nat) : Call :=
  Call.FastWrite dev ((mem.drop (k * C)).take (chunkLen C S k)) (chunkLen C S k : Nat)

/-- The read call of chunk `k` of `lgw_spi_rb`. -/
def rbChunk (C : Nat) (dev : mpsse_context) (S k : Nat) : Call :=
  Call.FastRead dev (chunkLen C S k : Nat)

/-- The calls of `lgw_spi_wb` when none fails. -/
def wb_calls (K : Consts) (dev : mpsse_context) (m t a : Nat) (mem : List Nat) (S : Nat) :
    List Call :=
  Call.Start dev :: frameCall dev (wb_frame K m t a) ::
    ((List.range (nchunks K.LGW_BURST_CHUNK S)).map (wbChunk K.LGW_BURST_CHUNK dev mem S)
      ++ [Call.Stop dev])

/-- The calls of `lgw_spi_rb` when none fails. -/
def rb_calls (K : Consts) (dev : mpsse_context) (m t a : Nat) (S : Nat) : List Call :=
  Call.Start dev :: frameCall dev (r_frame K m t a) ::
    ((List.range (nchunks K.LGW_BURST_CHUNK S)).map (rbChunk K.LGW_BURST_CHUNK dev S)
      ++ [Call.Stop dev])

/-- The byte `lgw_spi_r` stores through `data` when it succeeds. -/
def r_value (K : Consts) (T : Transport) (tr : List Call) (dev : mpsse_context)
    (m t a : Nat) : Nat :=
  toByte (charVal ((readBytes K
    (T (tr ++ [Call.Start dev, frameCall dev (r_frame K m t a)]) (Call.FastRead dev 1)) 1).getD 0 0))

/-- Making the reads `cs` (offset into `data` and size) one after the other
until one fails, each storing its bytes at its offset. -/
def runReads (K : Consts) (T : Transport) (dev : mpsse_context) :
    List (Nat × Int) → List Call → List Nat → List (Nat × List Nat) → RbLoop
  | [], tr, mem, st => ⟨true, tr, mem, st⟩
  | p :: cs, tr, mem, st =>
    let s := FastRead K T tr dev p.2
    if K.MPSSE_OK ≠ s.1 then ⟨false, s.2.1, storeAt mem p.1 s.2.2, st ++ [(p.1, s.2.2)]⟩
    else runReads K T dev cs s.2.1 (storeAt mem p.1 s.2.2) (st ++ [(p.1, s.2.2)])

/-- Offset and size of chunk `k` of `lgw_spi_rb`. -/
def rbSlot (C S k : Nat) : Nat × Int := (k * C, (chunkLen C S k : Nat))

/-- What `lgw_spi_rb` does once its arguments are accepted, with the loop
written as `runReads`. -/
def rb_run (K : Consts) (T : Transport) (tr : List Call) (dev : mpsse_context)
    (m t a : Nat) (mem : List Nat) (S : Nat) : RbRes :=
  let hdr := frameCall dev (r_frame K m t a)
  if K.MPSSE_OK ≠ (T tr (Call.Start dev)).status then
    ⟨K.LGW_SPI_ERROR, tr ++ [Call.Start dev], some mem, []⟩
  else if K.MPSSE_OK ≠ (T (tr ++ [Call.Start dev]) hdr).status then
    ⟨K.LGW_SPI_ERROR, tr ++ [Call.Start dev] ++ [hdr], some mem, []⟩
  else
    let r := runReads K T dev
      ((List.range (nchunks K.LGW_BURST_CHUNK S)).map (rbSlot K.LGW_BURST_CHUNK S))
      (tr ++ [Call.Start dev] ++ [hdr]) mem []
    if r.done then
      if K.MPSSE_OK ≠ (T r.trace (Call.Stop dev)).status then
        ⟨K.LGW_SPI_ERROR, r.trace ++ [Call.Stop dev], some r.mem, r.stores⟩
      else ⟨K.LGW_SPI_SUCCESS, r.trace ++ [Call.Stop dev], some r.mem, r.stores⟩
    else ⟨K.LGW_SPI_ERROR, r.trace, some r.mem, r.stores⟩

/-- The byte counts of the write and read calls in a list of calls, in
order. -/
def transferSizes : List Call → List Int
  | [] => []
  | Call.FastWrite _ _ n :: cs => n :: transferSizes cs
  | Call.FastRead _ n :: cs => n :: transferSizes cs
  | Call.MPSSE _ _ _ :: cs => transferSizes cs
  | Call.SetCSIdle _ _ :: cs => transferSizes cs
  | Call.FlushAfterRead _ _ :: cs => transferSizes cs
  | Call.Close _ :: cs => transferSizes cs
  | Call.Start _ :: cs => transferSizes cs
  | Call.Stop _ :: cs => transferSizes cs

/-- The chunk sizes of a burst of `S` bytes with chunk limit `C`. -/
def chunkSizes (C S : Nat) : List Int :=
  (List.range (nchunks C S)).map (fun k => ((chunkLen C S k : Nat) : Int))

/-- The upstream values with a chunk limit of 2 bytes. -/
def consts2 : Consts :=
  ⟨0, -1, 1, 2, 0⟩

/-- The bytes `mem[k*C .. min((k+1)*C, S))`. -/
def slice (C S : Nat) (mem : List Nat) (k : Nat) : List Nat :=
  (mem.take (min ((k + 1) * C) S)).drop (k * C)

/-- The bytes chunk read `k` of a burst of `S` bytes stores, when `pre` are the
calls made before the first chunk read. -/
def rbBytes (K : Consts) (T : Transport) (dev : mpsse_context) (S : Nat) (pre : List Call)
    (k : Nat) : List Nat :=
  readBytes K
    (T (pre ++ (List.range k).map (rbChunk K.LGW_BURST_CHUNK dev S))
      (rbChunk K.LGW_BURST_CHUNK dev S k))
    ((chunkLen K.LGW_BURST_CHUNK S k : Nat) : Int)

/-- Whether a store (offset and bytes) writes index `j`. -/
def covers (j : Nat) (p : Nat × List Nat) : Bool :=
  decide (p.1 ≤ j ∧ j < p.1 + p.2.length)

/-- A mock on which every call succeeds and the read made as call number `n`
delivers the bytes `10 * n`, `10 * n + 1`, ... -/
def seqT : Transport :=
  fun h _ => ⟨0, none, fun j => 10 * h.length + j, 0⟩

/-- The calls an operation added to the trace `tr`, given the trace `after`
it returned. -/
def newCalls (tr after : List Call) : List Call :=
  after.drop tr.length

/-- A mock on which the call made as call number `n` fails and every other
call succeeds. -/
def failAt (n : Nat) : Transport :=
  fun h _ => ⟨if h.length = n then -1 else 0, none, fun _ => 0, 0⟩

/-- The calls `lgw_spi_w` makes when no call fails. -/
def w_ideal (K : Consts) (dev : mpsse_context) (m t a d : Nat) : List Call :=
  (lgw_spi_w K (okT K) [] (some dev) m t a d).2

/-- The calls `lgw_spi_r` makes when no call fails. -/
def r_ideal (K : Consts) (dev : mpsse_context) (m t a : Nat) : List Call :=
  (lgw_spi_r K (okT K) [] (some dev) m t a (some 0)).2.1

/-- The calls `lgw_spi_wb` makes when no call fails. -/
def wb_ideal (K : Consts) (fuel : Nat) (dev : mpsse_context) (m t a : Nat) (mem : List Nat)
    (S : Nat) : List Call :=
  ((lgw_spi_wb K (okT K) fuel [] (some dev) m t a (some mem) S).map Prod.snd).getD []

/-- The calls `lgw_spi_rb` makes when no call fails. -/
def rb_ideal (K : Consts) (fuel : Nat) (dev : mpsse_context) (m t a : Nat) (mem : List Nat)
    (S : Nat) : List Call :=
  ((lgw_spi_rb K (okT K) fuel [] (some dev) m t a (some mem) S).map RbRes.trace).getD []

/-- When the calls `cs` are made in order after the calls `tr`, call `i` is the
first that fails: each earlier call succeeds and call `i` does not. -/
def FirstFail (K : Consts) (T : Transport) (tr cs : List Call) (i : Nat) : Prop :=
  (∀ j c, j < i → cs[j]? = some c → (T (tr ++ cs.take j) c).status = K.MPSSE_OK) ∧
  (∃ c, cs[i]? = some c ∧ (T (tr ++ cs.take i) c).status ≠ K.MPSSE_OK)

/-- Whether a call is a data transfer, a write or a read. -/
def isTransfer : Call → Bool
  | Call.FastWrite _ _ _ => true
  | Call.FastRead _ _ => true
  | _ => false

/-- A mock on which the call made as call number `n` fails and every other
call succeeds; the read made as call number `i` delivers the bytes `10 * i`,
`10 * i + 1`, ..., and a failing read still stores one byte. -/
def seqFailT (n : Nat) : Transport :=
  fun h _ => ⟨if h.length = n then -1 else 0, none, fun j => 10 * h.length + j, 1⟩

/-- A mock on which every call succeeds and `MPSSE` returns `c`. -/
def openT (c : Option mpsse_context) : Transport :=
  fun _ _ => ⟨0, c, fun _ => 0, 0⟩

/-- A caller that makes `n` calls of `lgw_spi_r` in a row with the same handle,
mux mode, mux target and address, each on the trace and the byte the call
before left.  For each call it lists the status, the calls added and the byte
behind `data`. -/
def r_seq (K : Consts) (T : Transport) (dev : mpsse_context) (m t a : Nat) :
    Nat → List Call → Option Nat → List (Int × List Call × Option Nat)
  | 0, _, _ => []
  | n + 1, tr, data =>
    ((lgw_spi_r K T tr (some dev) m t a data).1,
      newCalls tr (lgw_spi_r K T tr (some dev) m t a data).2.1,
      (lgw_spi_r K T tr (some dev) m t a data).2.2) ::
      r_seq K T dev m t a n (lgw_spi_r K T tr (some dev) m t a data).2.1
        (lgw_spi_r K T tr (some dev) m t a data).2.2

/-- The `int` variables of the chunk loop at the start of one iteration, after
`chunk_size` and `offset` are computed. -/
structure LoopIter where
  /-- The loop counter `i`. -/
  i : Int
  /-- The count `size_to_do` on entry. -/
  size_to_do : Int
  /-- The computed `chunk_size`. -/
  chunk_size : Int
  /-- The computed `offset`. -/
  offset : Int
deriving DecidableEq, Repr

/-- The iterations of the chunk loop of `lgw_spi_wb` (lines 200-207) and of
`lgw_spi_rb` (lines 252-259, the same arithmetic), with the transfer left out
and taken to succeed: entered with the loop counter `i` and the count
`size_to_do`, and cut off after as many iterations as the first argument
says. -/
def loop_iters (K : Consts) : Nat → Int → Int → List LoopIter
  | 0, _, _ => []
  | fuel + 1, i, size_to_do =>
    if size_to_do > 0 then
      let chunk_size : Int :=
        if size_to_do < (K.LGW_BURST_CHUNK : Int) then size_to_do else (K.LGW_BURST_CHUNK : Int)
      let offset : Int := i * (K.LGW_BURST_CHUNK : Int)
      ⟨i, size_to_do, chunk_size, offset⟩ ::
        loop_iters K fuel (i + 1) (size_to_do - chunk_size)
    else []

/-- The loop variables at iteration `j` of a burst of `S` bytes, in closed
form. -/
def iterAt (C S j : Nat) : LoopIter :=
  ⟨(j : Int), ((S - j * C : Nat) : Int), ((chunkLen C S j : Nat) : Int), (j : Int) * (C : Int)⟩

/-- A value that fits a 32-bit signed `int`. -/
def inInt32 (x : Int) : Prop := -2147483648 ≤ x ∧ x ≤ 2147483647

/-! ## Lemmas -/

theorem toByte_of_lt {v : Nat} (h : v < 256) : toByte (v : Int) = v := by
  unfold toByte
  omega

theorem toByte_charVal {b : Nat} (h : b < 256) : toByte (charVal b) = b := by
  unfold toByte charVal
  split <;> omega

theorem access_lt (x a : Nat) (hx : x < 256) : x ||| (a &&& 0x7F) < 256 := by
  have h1 : a &&& 0x7F < 2 ^ 8 := Nat.and_lt_two_pow a (by norm_num)
  have h2 : x < 2 ^ 8 := by simpa using hx
  simpa using Nat.or_lt_two_pow h2 h1

theorem runCalls_append (K : Consts) (T : Transport) (cs ds : List Call) :
    ∀ tr : List Call, runCalls K T tr (cs ++ ds) =
      if (runCalls K T tr cs).1 then runCalls K T (runCalls K T tr cs).2 ds
      else runCalls K T tr cs := by
  induction cs with
  | nil => intro tr; simp [runCalls]
  | cons c cs ih =>
    intro tr
    simp only [List.cons_append, runCalls]
    by_cases h : K.MPSSE_OK ≠ (T tr c).status
    · simp [h]
    · simp only [h, if_false]
      exact ih _

theorem runCalls_allOk (K : Consts) (T : Transport) (hok : AllOk K T) (cs : List Call) :
    ∀ tr : List Call, runCalls K T tr cs = (true, tr ++ cs) := by
  induction cs with
  | nil => intro tr; simp [runCalls]
  | cons c cs ih =>
    intro tr
    simp only [runCalls, hok tr c, ne_eq, not_true_eq_false, if_false]
    rw [ih]
    simp

/-- When call `i` of `cs` is the first to fail, `runCalls` stops right after
it. -/
theorem runCalls_fail (K : Consts) (T : Transport) (cs : List Call) :
    ∀ (tr : List Call) (i : Nat) (c : Call), cs[i]? = some c →
      (∀ j c', j < i → cs[j]? = some c' → (T (tr ++ cs.take j) c').status = K.MPSSE_OK) →
      (T (tr ++ cs.take i) c).status ≠ K.MPSSE_OK →
      runCalls K T tr cs = (false, tr ++ cs.take (i + 1)) := by
  induction cs with
  | nil => intro tr i c hc; simp at hc
  | cons d cs ih =>
    intro tr i c hc hpre hfail
    cases i with
    | zero =>
      simp only [List.getElem?_cons_zero, Option.some.injEq] at hc
      subst hc
      simp only [List.take_zero, List.append_nil] at hfail
      simp [runCalls, Ne.symm hfail]
    | succ i =>
      simp only [List.getElem?_cons_succ] at hc
      have h0 : (T tr d).status = K.MPSSE_OK := by
        simpa using hpre 0 d (Nat.succ_pos i) (by simp)
      simp only [runCalls, h0, ne_eq, not_true_eq_false, if_false]
      rw [ih (tr ++ [d]) i c hc]
      · simp
      · intro j c' hj hc'
        have := hpre (j + 1) c' (by omega) (by simpa using hc')
        simpa using this
      · simpa using hfail

theorem lgw_spi_w_eq (K : Consts) (T : Transport) (tr : List Call) (dev : mpsse_context)
    (m t a d : Nat) :
    lgw_spi_w K T tr (some dev) m t a d = retOf K (runCalls K T tr (w_calls K dev m t a d)) := by
  unfold lgw_spi_w w_calls retOf frameCall w_frame Start FastWrite Stop
  by_cases hm : (m : Int) = K.LGW_SPI_MUX_MODE1 <;>
  by_cases h1 : K.MPSSE_OK = (T tr (Call.Start dev)).status <;>
  simp [runCalls, hm, h1] <;>
  split <;> simp_all <;> split <;> simp_all

theorem lgw_spi_r_eq (K : Consts) (T : Transport) (tr : List Call) (dev : mpsse_context)
    (m t a old : Nat) :
    lgw_spi_r K T tr (some dev) m t a (some old) =
      ((retOf K (runCalls K T tr (r_calls K dev m t a))).1,
       (runCalls K T tr (r_calls K dev m t a)).2,
       if (runCalls K T tr (r_calls K dev m t a)).1 then some (r_value K T tr dev m t a)
       else some old) := by
  unfold r_value lgw_spi_r r_calls retOf frameCall r_frame Start FastWrite Stop FastRead
  by_cases hm : (m : Int) = K.LGW_SPI_MUX_MODE1 <;>
  by_cases h1 : K.MPSSE_OK = (T tr (Call.Start dev)).status <;>
  simp [runCalls, hm, h1, frameCall] <;>
  split <;> simp_all <;> split <;> simp_all <;> split <;> simp_all

theorem lt_nchunks_iff {C : Nat} (hC : 1 ≤ C) (S k : Nat) : k < nchunks C S ↔ k * C < S := by
  unfold nchunks
  rw [Nat.lt_iff_add_one_le, Nat.le_div_iff_mul_le (by omega), Nat.add_mul]
  omega

theorem nchunks_sub_zero {C : Nat} (hC : 1 ≤ C) (S k : Nat) (h : ¬ k * C < S) :
    nchunks C S - k = 0 := by
  have := (lt_nchunks_iff hC S k).not.mpr h
  omega

theorem nchunks_sub_succ {C : Nat} (hC : 1 ≤ C) (S k : Nat) (h : k * C < S) :
    nchunks C S - k = (nchunks C S - (k + 1)) + 1 := by
  have := (lt_nchunks_iff hC S k).mpr h
  omega

/-- The loop of `lgw_spi_wb`, entered at chunk `k`, makes the chunk writes from
`k` on until one fails. -/
theorem wb_loop_eq (K : Consts) (T : Transport) (dev : mpsse_context) (mem : List Nat)
    (S : Nat) (hC : 1 ≤ K.LGW_BURST_CHUNK) :
    ∀ (fuel k : Nat) (tr : List Call), S - k * K.LGW_BURST_CHUNK ≤ fuel →
      wb_loop K T dev mem fuel (k : Int) ((S - k * K.LGW_BURST_CHUNK : Nat) : Int) tr =
        some (runCalls K T tr
          ((List.range' k (nchunks K.LGW_BURST_CHUNK S - k)).map
            (wbChunk K.LGW_BURST_CHUNK dev mem S))) := by
  intro fuel
  induction fuel with
  | zero =>
    intro k tr hf
    have h0 : S - k * K.LGW_BURST_CHUNK = 0 := by omega
    have hn : ¬ k * K.LGW_BURST_CHUNK < S := by omega
    simp [wb_loop, h0, nchunks_sub_zero hC S k hn, runCalls]
  | succ fuel ih =>
    intro k tr hf
    by_cases hlt : k * K.LGW_BURST_CHUNK < S
    · have hpos : ((S - k * K.LGW_BURST_CHUNK : Nat) : Int) > 0 := by omega
      have hchunk : (if ((S - k * K.LGW_BURST_CHUNK : Nat) : Int) < (K.LGW_BURST_CHUNK : Int)
          then ((S - k * K.LGW_BURST_CHUNK : Nat) : Int) else (K.LGW_BURST_CHUNK : Int))
          = ((chunkLen K.LGW_BURST_CHUNK S k : Nat) : Int) := by
        unfold chunkLen
        split <;> omega
      have hoff : ((k : Int) * (K.LGW_BURST_CHUNK : Int)).toNat = k * K.LGW_BURST_CHUNK := by
        rw [← Nat.cast_mul]; exact Int.toNat_natCast _
      have hnext : ((S - k * K.LGW_BURST_CHUNK : Nat) : Int)
          - ((chunkLen K.LGW_BURST_CHUNK S k : Nat) : Int)
          = ((S - (k + 1) * K.LGW_BURST_CHUNK : Nat) : Int) := by
        unfold chunkLen
        rw [Nat.add_mul]
        omega
      have hf' : S - (k + 1) * K.LGW_BURST_CHUNK ≤ fuel := by
        rw [Nat.add_mul]
        omega
      have hi : (k : Int) + 1 = ((k + 1 : Nat) : Int) := by push_cast; rfl
      rw [nchunks_sub_succ hC S k hlt, List.range'_succ, List.map_cons]
      simp only [wb_loop, hpos, if_true, hchunk, hoff, hnext, hi, FastWrite, Int.toNat_natCast]
      rw [ih (k + 1) _ hf']
      simp only [runCalls, wbChunk]
      split <;> rfl
    · have h0 : S - k * K.LGW_BURST_CHUNK = 0 := by omega
      simp [wb_loop, h0, nchunks_sub_zero hC S k hlt, runCalls]

theorem lgw_spi_wb_eq (K : Consts) (T : Transport) (fuel : Nat) (tr : List Call)
    (dev : mpsse_context) (m t a : Nat) (mem : List Nat) (S : Nat)
    (hC : 1 ≤ K.LGW_BURST_CHUNK) (hS : 1 ≤ S) (hfuel : S ≤ fuel) :
    lgw_spi_wb K T fuel tr (some dev) m t a (some mem) S =
      some (retOf K (runCalls K T tr (wb_calls K dev m t a mem S))) := by
  have hl := fun tr' => wb_loop_eq K T dev mem S hC fuel 0 tr' (by simpa using hfuel)
  simp only [Nat.cast_zero, Nat.zero_mul, Nat.sub_zero, ← List.range_eq_range'] at hl
  have hS0 : S ≠ 0 := by omega
  unfold lgw_spi_wb wb_calls
  simp only [hS0, if_false, hl, runCalls, Start, FastWrite]
  have hfc : frameCall dev (wb_frame K m t a) = Call.FastWrite dev
      (List.take (if (m : Int) = K.LGW_SPI_MUX_MODE1 then (2 : Int) else 1).toNat
        (if (m : Int) = K.LGW_SPI_MUX_MODE1 then
          [toByte t, toByte (WRITE_ACCESS ||| (a &&& 0x7F) : Nat)]
        else [toByte (WRITE_ACCESS ||| (a &&& 0x7F) : Nat)]))
      (if (m : Int) = K.LGW_SPI_MUX_MODE1 then 2 else 1) := by
    unfold frameCall wb_frame
    split <;> rfl
  rw [← hfc]
  by_cases h1 : K.MPSSE_OK = (T tr (Call.Start dev)).status
  · simp only [h1, ne_eq, not_true_eq_false, if_false]
    by_cases h2 : (T tr (Call.Start dev)).status
        = (T (tr ++ [Call.Start dev]) (frameCall dev (wb_frame K m t a))).status
    · simp only [h2, ne_eq, not_true_eq_false, if_false]
      rw [runCalls_append]
      generalize runCalls K T (tr ++ [Call.Start dev] ++ [frameCall dev (wb_frame K m t a)])
        (List.map (wbChunk K.LGW_BURST_CHUNK dev mem S)
          (List.range (nchunks K.LGW_BURST_CHUNK S))) = r
      obtain ⟨b, tr3⟩ := r
      cases b
      · simp [retOf]
      · simp only [runCalls, Stop, retOf, if_true, h1, h2]
        split <;> simp
    · simp [h2, retOf]
  · simp [h1, retOf]

/-- Under a transport on which every call succeeds, `lgw_spi_wb` makes all its
calls and succeeds. -/
theorem lgw_spi_wb_allOk (K : Consts) (T : Transport) (fuel : Nat) (tr : List Call)
    (dev : mpsse_context) (m t a : Nat) (mem : List Nat) (S : Nat)
    (hC : 1 ≤ K.LGW_BURST_CHUNK) (hS : 1 ≤ S) (hfuel : S ≤ fuel) (hok : AllOk K T) :
    lgw_spi_wb K T fuel tr (some dev) m t a (some mem) S =
      some (K.LGW_SPI_SUCCESS, tr ++ wb_calls K dev m t a mem S) := by
  rw [lgw_spi_wb_eq K T fuel tr dev m t a mem S hC hS hfuel, runCalls_allOk K T hok]
  rfl

/-- The loop of `lgw_spi_rb`, entered at chunk `k`, makes the chunk reads from
`k` on until one fails. -/
theorem rb_loop_eq (K : Consts) (T : Transport) (dev : mpsse_context)
    (S : Nat) (hC : 1 ≤ K.LGW_BURST_CHUNK) :
    ∀ (fuel k : Nat) (tr : List Call) (mem : List Nat) (st : List (Nat × List Nat)),
      S - k * K.LGW_BURST_CHUNK ≤ fuel →
      rb_loop K T dev fuel (k : Int) ((S - k * K.LGW_BURST_CHUNK : Nat) : Int) tr mem st =
        some (runReads K T dev
          ((List.range' k (nchunks K.LGW_BURST_CHUNK S - k)).map (rbSlot K.LGW_BURST_CHUNK S))
          tr mem st) := by
  intro fuel
  induction fuel with
  | zero =>
    intro k tr mem st hf
    have h0 : S - k * K.LGW_BURST_CHUNK = 0 := by omega
    have hn : ¬ k * K.LGW_BURST_CHUNK < S := by omega
    simp [rb_loop, h0, nchunks_sub_zero hC S k hn, runReads]
  | succ fuel ih =>
    intro k tr mem st hf
    by_cases hlt : k * K.LGW_BURST_CHUNK < S
    · have hpos : ((S - k * K.LGW_BURST_CHUNK : Nat) : Int) > 0 := by omega
      have hchunk : (if ((S - k * K.LGW_BURST_CHUNK : Nat) : Int) < (K.LGW_BURST_CHUNK : Int)
          then ((S - k * K.LGW_BURST_CHUNK : Nat) : Int) else (K.LGW_BURST_CHUNK : Int))
          = ((chunkLen K.LGW_BURST_CHUNK S k : Nat) : Int) := by
        unfold chunkLen
        split <;> omega
      have hoff : ((k : Int) * (K.LGW_BURST_CHUNK : Int)).toNat = k * K.LGW_BURST_CHUNK := by
        rw [← Nat.cast_mul]; exact Int.toNat_natCast _
      have hnext : ((S - k * K.LGW_BURST_CHUNK : Nat) : Int)
          - ((chunkLen K.LGW_BURST_CHUNK S k : Nat) : Int)
          = ((S - (k + 1) * K.LGW_BURST_CHUNK : Nat) : Int) := by
        unfold chunkLen
        rw [Nat.add_mul]
        omega
      have hf' : S - (k + 1) * K.LGW_BURST_CHUNK ≤ fuel := by
        rw [Nat.add_mul]
        omega
      have hi : (k : Int) + 1 = ((k + 1 : Nat) : Int) := by push_cast; rfl
      rw [nchunks_sub_succ hC S k hlt, List.range'_succ, List.map_cons]
      simp only [rb_loop, hpos, if_true, hchunk, hoff, hnext, hi]
      simp only [runReads, rbSlot]
      split
      · rfl
      · rw [ih (k + 1) _ _ _ hf']
    · have h0 : S - k * K.LGW_BURST_CHUNK = 0 := by omega
      simp [rb_loop, h0, nchunks_sub_zero hC S k hlt, runReads]

theorem runReads_trace (K : Consts) (T : Transport) (dev : mpsse_context)
    (cs : List (Nat × Int)) :
    ∀ (tr : List Call) (mem : List Nat) (st : List (Nat × List Nat)),
      ((runReads K T dev cs tr mem st).done, (runReads K T dev cs tr mem st).trace) =
        runCalls K T tr (cs.map (fun p => Call.FastRead dev p.2)) := by
  induction cs with
  | nil => intro tr mem st; rfl
  | cons p cs ih =>
    intro tr mem st
    simp only [runReads, FastRead, List.map_cons, runCalls]
    split
    · rfl
    · exact ih _ _ _

theorem lgw_spi_rb_eq (K : Consts) (T : Transport) (fuel : Nat) (tr : List Call)
    (dev : mpsse_context) (m t a : Nat) (mem : List Nat) (S : Nat)
    (hC : 1 ≤ K.LGW_BURST_CHUNK) (hS : 1 ≤ S) (hfuel : S ≤ fuel) :
    lgw_spi_rb K T fuel tr (some dev) m t a (some mem) S =
      some (rb_run K T tr dev m t a mem S) := by
  have hl := fun tr' mem' st' =>
    rb_loop_eq K T dev S hC fuel 0 tr' mem' st' (by simpa using hfuel)
  simp only [Nat.cast_zero, Nat.zero_mul, Nat.sub_zero, ← List.range_eq_range'] at hl
  have hS0 : S ≠ 0 := by omega
  unfold lgw_spi_rb rb_run
  simp only [hS0, if_false, hl, Start, FastWrite]
  have hfc : frameCall dev (r_frame K m t a) = Call.FastWrite dev
      (List.take (if (m : Int) = K.LGW_SPI_MUX_MODE1 then (2 : Int) else 1).toNat
        (if (m : Int) = K.LGW_SPI_MUX_MODE1 then
          [toByte t, toByte (READ_ACCESS ||| (a &&& 0x7F) : Nat)]
        else [toByte (READ_ACCESS ||| (a &&& 0x7F) : Nat)]))
      (if (m : Int) = K.LGW_SPI_MUX_MODE1 then 2 else 1) := by
    unfold frameCall r_frame
    split <;> rfl
  rw [← hfc]
  by_cases h1 : K.MPSSE_OK = (T tr (Call.Start dev)).status
  · simp only [h1, ne_eq, not_true_eq_false, if_false]
    by_cases h2 : (T tr (Call.Start dev)).status
        = (T (tr ++ [Call.Start dev]) (frameCall dev (r_frame K m t a))).status
    · simp only [h2, ne_eq, not_true_eq_false, if_false]
      generalize runReads K T dev
        (List.map (rbSlot K.LGW_BURST_CHUNK S) (List.range (nchunks K.LGW_BURST_CHUNK S)))
        (tr ++ [Call.Start dev] ++ [frameCall dev (r_frame K m t a)]) mem [] = r
      obtain ⟨b, tr3, mem3, st3⟩ := r
      cases b
      · simp
      · simp only [Stop, if_true]
        split <;> rfl
    · simp [h2]
  · simp [h1]

/-- Status and trace of `lgw_spi_rb`: its calls are made in order until one
fails. -/
theorem lgw_spi_rb_trace (K : Consts) (T : Transport) (fuel : Nat) (tr : List Call)
    (dev : mpsse_context) (m t a : Nat) (mem : List Nat) (S : Nat)
    (hC : 1 ≤ K.LGW_BURST_CHUNK) (hS : 1 ≤ S) (hfuel : S ≤ fuel) :
    (lgw_spi_rb K T fuel tr (some dev) m t a (some mem) S).map (fun r => (r.ret, r.trace)) =
      some (retOf K (runCalls K T tr (rb_calls K dev m t a S))) := by
  rw [lgw_spi_rb_eq K T fuel tr dev m t a mem S hC hS hfuel]
  simp only [Option.map_some', Option.some.injEq]
  unfold rb_run rb_calls
  simp only [runCalls]
  by_cases h1 : K.MPSSE_OK = (T tr (Call.Start dev)).status
  · simp only [h1, ne_eq, not_true_eq_false, if_false]
    by_cases h2 : (T tr (Call.Start dev)).status
        = (T (tr ++ [Call.Start dev]) (frameCall dev (r_frame K m t a))).status
    · simp only [h2, ne_eq, not_true_eq_false, if_false]
      rw [runCalls_append]
      have ht := runReads_trace K T dev
        (List.map (rbSlot K.LGW_BURST_CHUNK S) (List.range (nchunks K.LGW_BURST_CHUNK S)))
        (tr ++ [Call.Start dev] ++ [frameCall dev (r_frame K m t a)]) mem []
      have hmap : List.map (fun p => Call.FastRead dev p.2)
          (List.map (rbSlot K.LGW_BURST_CHUNK S) (List.range (nchunks K.LGW_BURST_CHUNK S)))
          = List.map (rbChunk K.LGW_BURST_CHUNK dev S)
              (List.range (nchunks K.LGW_BURST_CHUNK S)) := by
        rw [List.map_map]
        rfl
      rw [hmap] at ht
      rw [← ht]
      generalize runReads K T dev
        (List.map (rbSlot K.LGW_BURST_CHUNK S) (List.range (nchunks K.LGW_BURST_CHUNK S)))
        (tr ++ [Call.Start dev] ++ [frameCall dev (r_frame K m t a)]) mem [] = r
      obtain ⟨b, tr3, mem3, st3⟩ := r
      cases b
      · simp [retOf]
      · simp only [runCalls, retOf, if_true, h1, h2]
        split <;> simp
    · simp [h2, retOf]
  · simp [h1, retOf]

theorem transferSizes_append (l1 l2 : List Call) :
    transferSizes (l1 ++ l2) = transferSizes l1 ++ transferSizes l2 := by
  induction l1 with
  | nil => rfl
  | cons c cs ih => cases c <;> simp [transferSizes, ih]

theorem transferSizes_wbChunk (C : Nat) (dev : mpsse_context) (mem : List Nat) (S : Nat)
    (l : List Nat) :
    transferSizes (l.map (wbChunk C dev mem S)) = l.map (fun k => ((chunkLen C S k : Nat) : Int)) := by
  induction l with
  | nil => rfl
  | cons c cs ih => simp [transferSizes, wbChunk, ih]

theorem transferSizes_rbChunk (C : Nat) (dev : mpsse_context) (S : Nat) (l : List Nat) :
    transferSizes (l.map (rbChunk C dev S)) = l.map (fun k => ((chunkLen C S k : Nat) : Int)) := by
  induction l with
  | nil => rfl
  | cons c cs ih => simp [transferSizes, rbChunk, ih]

theorem nchunks_zero {C : Nat} (hC : 1 ≤ C) : nchunks C 0 = 0 := by
  unfold nchunks
  exact Nat.div_eq_of_lt (by omega)

/-- `nchunks C S` is `S / C` rounded up. -/
theorem nchunks_ceil {C : Nat} (hC : 1 ≤ C) (S : Nat) :
    S ≤ nchunks C S * C ∧ nchunks C S * C < S + C := by
  have h1 := (lt_nchunks_iff hC S (nchunks C S)).not.mp (lt_irrefl _)
  constructor
  · omega
  · by_cases h0 : nchunks C S = 0
    · rw [h0]; omega
    · have h2 := (lt_nchunks_iff hC S (nchunks C S - 1)).mp (by omega)
      have h3 : nchunks C S * C = (nchunks C S - 1) * C + C := by
        conv_lhs => rw [show nchunks C S = (nchunks C S - 1) + 1 by omega]
        rw [Nat.add_mul, Nat.one_mul]
      omega

theorem chunk_sum {C : Nat} (hC : 1 ≤ C) (S : Nat) :
    ∀ (cnt k : Nat), cnt = nchunks C S - k →
      ((List.range' k cnt).map (fun j => ((chunkLen C S j : Nat) : Int))).sum
        = ((S - k * C : Nat) : Int) := by
  intro cnt
  induction cnt with
  | zero =>
    intro k hk
    have : ¬ k * C < S := fun h => by
      have := (lt_nchunks_iff hC S k).mpr h
      omega
    simp
    omega
  | succ cnt ih =>
    intro k hk
    have hlt : k * C < S := (lt_nchunks_iff hC S k).mp (by omega)
    rw [List.range'_succ, List.map_cons, List.sum_cons, ih (k + 1) (by omega)]
    unfold chunkLen
    rw [Nat.add_mul]
    omega

theorem lgw_spi_rb_allOk_trace (K : Consts) (T : Transport) (fuel : Nat) (tr : List Call)
    (dev : mpsse_context) (m t a : Nat) (mem : List Nat) (S : Nat)
    (hC : 1 ≤ K.LGW_BURST_CHUNK) (hS : 1 ≤ S) (hfuel : S ≤ fuel) (hok : AllOk K T) :
    lgw_spi_rb K T fuel tr (some dev) m t a (some mem) S = some (rb_run K T tr dev m t a mem S) ∧
    (rb_run K T tr dev m t a mem S).ret = K.LGW_SPI_SUCCESS ∧
    (rb_run K T tr dev m t a mem S).trace = tr ++ rb_calls K dev m t a S := by
  have h1 := lgw_spi_rb_eq K T fuel tr dev m t a mem S hC hS hfuel
  have h2 := lgw_spi_rb_trace K T fuel tr dev m t a mem S hC hS hfuel
  rw [h1, runCalls_allOk K T hok] at h2
  simp only [Option.map_some', Option.some.injEq, retOf, if_true, Prod.mk.injEq] at h2
  exact ⟨h1, h2.1, h2.2⟩

theorem slice_eq (C S : Nat) (mem : List Nat) (k : Nat) :
    slice C S mem k = (mem.drop (k * C)).take (chunkLen C S k) := by
  unfold slice chunkLen
  rw [List.drop_take]
  congr 1
  rw [Nat.add_mul]
  omega

theorem slices_flatten {C : Nat} (hC : 1 ≤ C) (S : Nat) (mem : List Nat) :
    ∀ (cnt k : Nat), cnt = nchunks C S - k →
      ((List.range' k cnt).map (slice C S mem)).flatten = (mem.drop (k * C)).take (S - k * C) := by
  intro cnt
  induction cnt with
  | zero =>
    intro k hk
    have : ¬ k * C < S := fun h => by
      have := (lt_nchunks_iff hC S k).mpr h
      omega
    have h0 : S - k * C = 0 := by omega
    simp [h0]
  | succ cnt ih =>
    intro k hk
    have hlt : k * C < S := (lt_nchunks_iff hC S k).mp (by omega)
    rw [List.range'_succ, List.map_cons, List.flatten_cons, ih (k + 1) (by omega), slice_eq]
    have hsplit : S - k * C = chunkLen C S k + (S - (k + 1) * C) := by
      unfold chunkLen
      rw [Nat.add_mul]
      omega
    rw [hsplit, List.take_add, List.drop_drop]
    congr 1
    by_cases hfull : C ≤ S - k * C
    · have hc : chunkLen C S k = C := by unfold chunkLen; omega
      have he : (k + 1) * C = k * C + C := by rw [Nat.add_mul]; omega
      rw [hc, he]
    · have h0 : S - (k + 1) * C = 0 := by rw [Nat.add_mul]; omega
      simp [h0]

theorem runReads_allOk (K : Consts) (T : Transport) (dev : mpsse_context) (S : Nat)
    (hok : AllOk K T) (pre : List Call) :
    ∀ (cnt k : Nat) (mem : List Nat) (st : List (Nat × List Nat)),
      runReads K T dev ((List.range' k cnt).map (rbSlot K.LGW_BURST_CHUNK S))
          (pre ++ (List.range k).map (rbChunk K.LGW_BURST_CHUNK dev S)) mem st =
        ⟨true, pre ++ (List.range (k + cnt)).map (rbChunk K.LGW_BURST_CHUNK dev S),
          ((List.range' k cnt).map
            (fun j => (j * K.LGW_BURST_CHUNK, rbBytes K T dev S pre j))).foldl
              (fun m p => storeAt m p.1 p.2) mem,
          st ++ (List.range' k cnt).map
            (fun j => (j * K.LGW_BURST_CHUNK, rbBytes K T dev S pre j))⟩ := by
  intro cnt
  induction cnt with
  | zero => intro k mem st; simp [runReads]
  | succ cnt ih =>
    intro k mem st
    have htr : pre ++ (List.range k).map (rbChunk K.LGW_BURST_CHUNK dev S)
          ++ [Call.FastRead dev ((chunkLen K.LGW_BURST_CHUNK S k : Nat) : Int)]
        = pre ++ (List.range (k + 1)).map (rbChunk K.LGW_BURST_CHUNK dev S) := by
      simp [List.range_succ, rbChunk]
    have hk : k + 1 + cnt = k + (cnt + 1) := by omega
    rw [List.range'_succ, List.map_cons, List.map_cons, List.foldl_cons]
    simp only [runReads, FastRead, rbSlot, hok _ _, ne_eq, not_true_eq_false, if_false]
    rw [htr, ih (k + 1), hk]
    simp [rbBytes, rbChunk]

theorem storeAt_inbounds (mem : List Nat) (off : Nat) (bs : List Nat)
    (h : off + bs.length ≤ mem.length) :
    storeAt mem off bs = mem.take off ++ bs ++ mem.drop (off + bs.length) := by
  unfold storeAt
  apply List.take_of_length_le
  simp only [List.length_append, List.length_take, List.length_drop]
  omega

/-- The memory after the stores of chunks `k, k+1, ...`: the part before chunk
`k`, then the bytes of the chunks, then the part from `S` on. -/
theorem foldl_stores {C : Nat} (hC : 1 ≤ C) (S : Nat) (bytes : Nat → List Nat)
    (hb : ∀ j, (bytes j).length = chunkLen C S j) :
    ∀ (cnt k : Nat) (mem : List Nat), cnt = nchunks C S - k → S ≤ mem.length →
      ((List.range' k cnt).map (fun j => (j * C, bytes j))).foldl
          (fun m p => storeAt m p.1 p.2) mem
        = mem.take (min (k * C) S) ++ ((List.range' k cnt).map bytes).flatten ++ mem.drop S := by
  intro cnt
  induction cnt with
  | zero =>
    intro k mem hk _
    have : ¬ k * C < S := fun h => by
      have := (lt_nchunks_iff hC S k).mpr h
      omega
    have h0 : min (k * C) S = S := by omega
    simp [h0]
  | succ cnt ih =>
    intro k mem hk hlen
    have hlt : k * C < S := (lt_nchunks_iff hC S k).mp (by omega)
    have hmin : min (k * C) S = k * C := by omega
    have hnext : min ((k + 1) * C) S = k * C + chunkLen C S k := by
      unfold chunkLen
      rw [Nat.add_mul]
      omega
    have hin : k * C + (bytes k).length ≤ mem.length := by
      rw [hb]
      unfold chunkLen
      omega
    have hstore := storeAt_inbounds mem (k * C) (bytes k) hin
    have hlen1 : (storeAt mem (k * C) (bytes k)).length = mem.length := by
      rw [hstore]
      simp only [List.length_append, List.length_take, List.length_drop]
      omega
    rw [List.range'_succ, List.map_cons, List.map_cons, List.foldl_cons, List.flatten_cons]
    dsimp only
    rw [ih (k + 1) (storeAt mem (k * C) (bytes k)) (by omega) (by omega), hmin, hnext]
    have htake : (storeAt mem (k * C) (bytes k)).take (k * C + chunkLen C S k)
        = mem.take (k * C) ++ bytes k := by
      rw [hstore, List.append_assoc, ← List.append_assoc]
      apply List.take_left'
      simp only [List.length_append, List.length_take, hb]
      omega
    have hdrop : (storeAt mem (k * C) (bytes k)).drop S = mem.drop S := by
      have hS : S = (mem.take (k * C) ++ bytes k).length + (S - (k * C + chunkLen C S k)) := by
        simp only [List.length_append, List.length_take, hb]
        unfold chunkLen
        omega
      rw [hstore]
      conv_lhs => rw [hS]
      rw [List.drop_append, List.drop_drop, hb]
      congr 1
      unfold chunkLen
      omega
    rw [htake, hdrop]
    simp [List.append_assoc]

theorem flatten_inj_of_length (f g : Nat → List Nat) (hfg : ∀ j, (f j).length = (g j).length) :
    ∀ (cnt k : Nat),
      ((List.range' k cnt).map f).flatten = ((List.range' k cnt).map g).flatten →
      ∀ j, k ≤ j → j < k + cnt → f j = g j := by
  intro cnt
  induction cnt with
  | zero => intro k _ j h1 h2; omega
  | succ cnt ih =>
    intro k h j h1 h2
    rw [List.range'_succ, List.map_cons, List.map_cons, List.flatten_cons,
      List.flatten_cons] at h
    have := List.append_inj h (hfg k)
    by_cases hj : j = k
    · subst hj; exact this.1
    · exact ih (k + 1) this.2 j (by omega) (by omega)

theorem covers_chunk_iff {C : Nat} (hC : 1 ≤ C) (S j k : Nat) (hj : j < S) :
    (k * C ≤ j ∧ j < k * C + chunkLen C S k) ↔ k = j / C := by
  have h1 : j / C * C ≤ j := Nat.div_mul_le_self j C
  have h2 : j < j / C * C + C := by
    have hdm := Nat.div_add_mod j C
    have hmod := Nat.mod_lt j (show C > 0 by omega)
    have hcomm : C * (j / C) = j / C * C := Nat.mul_comm _ _
    omega
  constructor
  · rintro ⟨ha, hb⟩
    symm
    apply Nat.div_eq_of_lt_le ha
    rw [Nat.add_mul]
    unfold chunkLen at hb
    omega
  · rintro rfl
    unfold chunkLen
    omega

theorem stores_count {C : Nat} (hC : 1 ≤ C) (S : Nat) (bytes : Nat → List Nat)
    (hb : ∀ k, (bytes k).length = chunkLen C S k) (j : Nat) :
    (j < S → ((List.range (nchunks C S)).map (fun k => (k * C, bytes k))).countP (covers j) = 1) ∧
    (S ≤ j → ((List.range (nchunks C S)).map (fun k => (k * C, bytes k))).countP (covers j) = 0) := by
  constructor
  · intro hj
    rw [List.countP_map]
    have hcongr : List.countP (covers j ∘ fun k => (k * C, bytes k)) (List.range (nchunks C S))
        = List.countP (fun k => k == j / C) (List.range (nchunks C S)) := by
      apply List.countP_congr
      intro k _
      simp only [Function.comp, covers, hb, decide_eq_true_eq, beq_iff_eq]
      exact covers_chunk_iff hC S j k hj
    rw [hcongr]
    have hmem : j / C ∈ List.range (nchunks C S) := by
      rw [List.mem_range, lt_nchunks_iff hC]
      exact lt_of_le_of_lt (Nat.div_mul_le_self j C) hj
    exact List.count_eq_one_of_mem (List.nodup_range _) hmem
  · intro hj
    rw [List.countP_map, List.countP_eq_zero]
    intro k _
    simp only [Function.comp, covers, hb, decide_eq_true_eq]
    unfold chunkLen
    omega

theorem rbBytes_length (K : Consts) (T : Transport) (dev : mpsse_context) (S : Nat)
    (pre : List Call) (hok : AllOk K T) (k : Nat) :
    (rbBytes K T dev S pre k).length = chunkLen K.LGW_BURST_CHUNK S k := by
  simp [rbBytes, readBytes, hok _ _]

theorem runCalls_extends (K : Consts) (T : Transport) (cs : List Call) :
    ∀ tr : List Call, ∃ l, (runCalls K T tr cs).2 = tr ++ l := by
  induction cs with
  | nil => intro tr; exact ⟨[], by simp [runCalls]⟩
  | cons c cs ih =>
    intro tr
    simp only [runCalls]
    split
    · exact ⟨[c], rfl⟩
    · obtain ⟨l, hl⟩ := ih (tr ++ [c])
      exact ⟨c :: l, by rw [hl]; simp⟩

/-- When the first call succeeds, the second call is made. -/
theorem runCalls_second (K : Consts) (T : Transport) (tr : List Call) (c0 c1 : Call)
    (cs : List Call) (h0 : (T tr c0).status = K.MPSSE_OK) :
    (newCalls tr (runCalls K T tr (c0 :: c1 :: cs)).2)[1]? = some c1 := by
  simp only [runCalls, h0, ne_eq, not_true_eq_false, if_false, newCalls]
  split
  · simp
  · obtain ⟨l, hl⟩ := runCalls_extends K T cs (tr ++ [c0] ++ [c1])
    rw [hl]
    simp

theorem access_bits : ∀ x, x < 128 →
    (0x80 ||| x) &&& 0x7F = x ∧ (0x80 ||| x) &&& 0x80 = 0x80 ∧ x &&& 0x80 = 0
      ∧ x &&& 0x7F = x := by
  decide

theorem okT_allOk (K : Consts) : AllOk K (okT K) := fun _ _ => rfl

theorem w_ideal_eq (K : Consts) (dev : mpsse_context) (m t a d : Nat) :
    w_ideal K dev m t a d = w_calls K dev m t a d := by
  unfold w_ideal
  rw [lgw_spi_w_eq, runCalls_allOk K _ (okT_allOk K)]
  simp [retOf]

theorem r_ideal_eq (K : Consts) (dev : mpsse_context) (m t a : Nat) :
    r_ideal K dev m t a = r_calls K dev m t a := by
  unfold r_ideal
  rw [lgw_spi_r_eq, runCalls_allOk K _ (okT_allOk K)]
  simp

theorem wb_ideal_eq (K : Consts) (fuel : Nat) (dev : mpsse_context) (m t a : Nat)
    (mem : List Nat) (S : Nat) (hC : 1 ≤ K.LGW_BURST_CHUNK) (hS : 1 ≤ S) (hfuel : S ≤ fuel) :
    wb_ideal K fuel dev m t a mem S = wb_calls K dev m t a mem S := by
  unfold wb_ideal
  rw [lgw_spi_wb_allOk K _ fuel [] dev m t a mem S hC hS hfuel (okT_allOk K)]
  simp

theorem rb_ideal_eq (K : Consts) (fuel : Nat) (dev : mpsse_context) (m t a : Nat)
    (mem : List Nat) (S : Nat) (hC : 1 ≤ K.LGW_BURST_CHUNK) (hS : 1 ≤ S) (hfuel : S ≤ fuel) :
    rb_ideal K fuel dev m t a mem S = rb_calls K dev m t a S := by
  unfold rb_ideal
  obtain ⟨h1, _, h3⟩ :=
    lgw_spi_rb_allOk_trace K (okT K) fuel [] dev m t a mem S hC hS hfuel (okT_allOk K)
  rw [h1]
  simp [h3]

theorem runCalls_firstFail (K : Consts) (T : Transport) (tr cs : List Call) (i : Nat)
    (h : FirstFail K T tr cs i) : runCalls K T tr cs = (false, tr ++ cs.take (i + 1)) := by
  obtain ⟨hpre, c, hc, hfail⟩ := h
  exact runCalls_fail K T cs tr i c hc hpre hfail

/-- A proper prefix of calls that end in the only Stop holds no Stop. -/
theorem no_stop_take (body : List Call) (last : Call) (hb : ∀ x, Call.Stop x ∉ body)
    (i : Nat) (hi : i + 1 < (body ++ [last]).length) :
    ∀ x, Call.Stop x ∉ (body ++ [last]).take (i + 1) := by
  intro x hx
  have hle : i + 1 ≤ body.length := by
    simp only [List.length_append, List.length_singleton] at hi
    omega
  rw [List.take_append_of_le_length hle] at hx
  exact hb x (List.mem_of_mem_take hx)

theorem w_calls_no_stop (K : Consts) (dev : mpsse_context) (m t a d : Nat) (i : Nat)
    (hi : i + 1 < (w_calls K dev m t a d).length) :
    ∀ x, Call.Stop x ∉ (w_calls K dev m t a d).take (i + 1) := by
  have := no_stop_take [Call.Start dev, frameCall dev (w_frame K m t a d)] (Call.Stop dev)
    (by simp [frameCall]) i (by simpa [w_calls] using hi)
  simpa [w_calls] using this

theorem r_calls_no_stop (K : Consts) (dev : mpsse_context) (m t a : Nat) (i : Nat)
    (hi : i + 1 < (r_calls K dev m t a).length) :
    ∀ x, Call.Stop x ∉ (r_calls K dev m t a).take (i + 1) := by
  have := no_stop_take [Call.Start dev, frameCall dev (r_frame K m t a), Call.FastRead dev 1]
    (Call.Stop dev) (by simp [frameCall]) i (by simpa [r_calls] using hi)
  simpa [r_calls] using this

theorem wb_calls_no_stop (K : Consts) (dev : mpsse_context) (m t a : Nat) (mem : List Nat)
    (S : Nat) (i : Nat) (hi : i + 1 < (wb_calls K dev m t a mem S).length) :
    ∀ x, Call.Stop x ∉ (wb_calls K dev m t a mem S).take (i + 1) := by
  have hsplit : wb_calls K dev m t a mem S
      = (Call.Start dev :: frameCall dev (wb_frame K m t a) ::
          (List.range (nchunks K.LGW_BURST_CHUNK S)).map (wbChunk K.LGW_BURST_CHUNK dev mem S))
        ++ [Call.Stop dev] := by
    simp [wb_calls]
  rw [hsplit] at hi ⊢
  exact no_stop_take _ _ (by simp [frameCall, wbChunk]) i hi

theorem rb_calls_no_stop (K : Consts) (dev : mpsse_context) (m t a : Nat)
    (S : Nat) (i : Nat) (hi : i + 1 < (rb_calls K dev m t a S).length) :
    ∀ x, Call.Stop x ∉ (rb_calls K dev m t a S).take (i + 1) := by
  have hsplit : rb_calls K dev m t a S
      = (Call.Start dev :: frameCall dev (r_frame K m t a) ::
          (List.range (nchunks K.LGW_BURST_CHUNK S)).map (rbChunk K.LGW_BURST_CHUNK dev S))
        ++ [Call.Stop dev] := by
    simp [rb_calls]
  rw [hsplit] at hi ⊢
  exact no_stop_take _ _ (by simp [frameCall, rbChunk]) i hi

/-- On the mock `failAt i`, call `i` of any list of more than `i` calls made
from the empty trace is the first to fail. -/
theorem firstFail_failAt (K : Consts) (hK : K.MPSSE_OK = 0) (cs : List Call) (i : Nat)
    (hi : i < cs.length) : FirstFail K (failAt i) [] cs i := by
  constructor
  · intro j c hj _
    have hne : ¬ min j cs.length = i := by omega
    simp [failAt, hK, hne]
  · refine ⟨cs[i], by simp [hi], ?_⟩
    have he : min i cs.length = i := by omega
    simp [failAt, hK, he]

/-- When `runCalls` reports that every call succeeded, every call was made. -/
theorem runCalls_true (K : Consts) (T : Transport) (cs : List Call) :
    ∀ tr : List Call, (runCalls K T tr cs).1 = true → (runCalls K T tr cs).2 = tr ++ cs := by
  induction cs with
  | nil => intro tr _; simp [runCalls]
  | cons c cs ih =>
    intro tr h
    simp only [runCalls] at h ⊢
    split at h
    · simp at h
    · rename_i hc
      simp only [hc, if_false]
      rw [ih _ h]
      simp

/-- A result of `retOf` with the success status comes from a run without
failure. -/
theorem retOf_success (K : Consts) (hne : K.LGW_SPI_SUCCESS ≠ K.LGW_SPI_ERROR)
    (r : Bool × List Call) (h : (retOf K r).1 = K.LGW_SPI_SUCCESS) : r.1 = true := by
  unfold retOf at h
  cases hr : r.1
  · rw [hr] at h
    simp only [Bool.false_eq_true, if_false] at h
    exact absurd h.symm hne
  · rfl

theorem isTransfer_not_bracket (mid : List Call) (h : ∀ c ∈ mid, isTransfer c = true) :
    ∀ x, Call.Start x ∉ mid ∧ Call.Stop x ∉ mid := by
  intro x
  constructor
  · intro hx
    have := h _ hx
    simp [isTransfer] at this
  · intro hx
    have := h _ hx
    simp [isTransfer] at this

theorem runReads_append (K : Consts) (T : Transport) (dev : mpsse_context)
    (cs ds : List (Nat × Int)) :
    ∀ (tr : List Call) (mem : List Nat) (st : List (Nat × List Nat)),
      runReads K T dev (cs ++ ds) tr mem st =
        if (runReads K T dev cs tr mem st).done then
          runReads K T dev ds (runReads K T dev cs tr mem st).trace
            (runReads K T dev cs tr mem st).mem (runReads K T dev cs tr mem st).stores
        else runReads K T dev cs tr mem st := by
  induction cs with
  | nil => intro tr mem st; simp [runReads]
  | cons p cs ih =>
    intro tr mem st
    simp only [List.cons_append, runReads]
    split
    · simp
    · exact ih _ _ _

/-- The chunk reads `k .. k+cnt-1`, when each of them succeeds. -/
theorem runReads_ok (K : Consts) (T : Transport) (dev : mpsse_context) (S : Nat)
    (pre : List Call) :
    ∀ (cnt k : Nat) (mem : List Nat) (st : List (Nat × List Nat)),
      (∀ j, k ≤ j → j < k + cnt →
        (T (pre ++ (List.range j).map (rbChunk K.LGW_BURST_CHUNK dev S))
          (rbChunk K.LGW_BURST_CHUNK dev S j)).status = K.MPSSE_OK) →
      runReads K T dev ((List.range' k cnt).map (rbSlot K.LGW_BURST_CHUNK S))
          (pre ++ (List.range k).map (rbChunk K.LGW_BURST_CHUNK dev S)) mem st =
        ⟨true, pre ++ (List.range (k + cnt)).map (rbChunk K.LGW_BURST_CHUNK dev S),
          ((List.range' k cnt).map
            (fun j => (j * K.LGW_BURST_CHUNK, rbBytes K T dev S pre j))).foldl
              (fun m p => storeAt m p.1 p.2) mem,
          st ++ (List.range' k cnt).map
            (fun j => (j * K.LGW_BURST_CHUNK, rbBytes K T dev S pre j))⟩ := by
  intro cnt
  induction cnt with
  | zero => intro k mem st _; simp [runReads]
  | succ cnt ih =>
    intro k mem st hok
    have htr : pre ++ (List.range k).map (rbChunk K.LGW_BURST_CHUNK dev S)
          ++ [Call.FastRead dev ((chunkLen K.LGW_BURST_CHUNK S k : Nat) : Int)]
        = pre ++ (List.range (k + 1)).map (rbChunk K.LGW_BURST_CHUNK dev S) := by
      simp [List.range_succ, rbChunk]
    have hk : k + 1 + cnt = k + (cnt + 1) := by omega
    have h0 := hok k (le_refl _) (by omega)
    simp only [rbChunk] at h0
    rw [List.range'_succ, List.map_cons, List.map_cons, List.foldl_cons]
    simp only [runReads, FastRead, rbSlot, h0, ne_eq, not_true_eq_false, if_false]
    rw [htr, ih (k + 1) _ _ (fun j hj1 hj2 => hok j (by omega) (by omega)), hk]
    simp [rbBytes, rbChunk]

theorem readBytes_length_le (K : Consts) (r : Reply) (size : Int) :
    (readBytes K r size).length ≤ size.toNat := by
  unfold readBytes
  split
  · simp
  · simp

theorem flatten_length_const (B : Nat → List Nat) (C : Nat) :
    ∀ l : List Nat, (∀ j ∈ l, (B j).length = C) → ((l.map B).flatten).length = l.length * C := by
  intro l
  induction l with
  | nil => intro _; simp
  | cons x xs ih =>
    intro h
    rw [List.map_cons, List.flatten_cons, List.length_append, h x (List.mem_cons_self _ _),
      ih (fun j hj => h j (List.mem_cons_of_mem _ hj)), List.length_cons, Nat.add_mul]
    omega

/-- The memory after the stores of `cnt` full chunks from chunk `k` on. -/
theorem foldl_full_chunks (C : Nat) (B : Nat → List Nat) :
    ∀ (cnt k : Nat) (mem : List Nat), (∀ j, k ≤ j → j < k + cnt → (B j).length = C) →
      (k + cnt) * C ≤ mem.length →
      ((List.range' k cnt).map (fun j => (j * C, B j))).foldl (fun m p => storeAt m p.1 p.2) mem
        = mem.take (k * C) ++ ((List.range' k cnt).map B).flatten ++ mem.drop ((k + cnt) * C) := by
  intro cnt
  induction cnt with
  | zero => intro k mem _ _; simp
  | succ cnt ih =>
    intro k mem hB hlen
    have hBk : (B k).length = C := hB k (le_refl _) (by omega)
    have e1 : (k + (cnt + 1)) * C = k * C + C + cnt * C := by
      rw [Nat.add_mul, Nat.add_mul, Nat.one_mul]; omega
    have e2 : (k + 1 + cnt) * C = k * C + C + cnt * C := by
      rw [Nat.add_mul, Nat.add_mul, Nat.one_mul]
    have e3 : (k + 1) * C = k * C + C := by rw [Nat.add_mul, Nat.one_mul]
    have hin : k * C + (B k).length ≤ mem.length := by rw [hBk]; omega
    have hstore := storeAt_inbounds mem (k * C) (B k) hin
    have hlen1 : (storeAt mem (k * C) (B k)).length = mem.length := by
      rw [hstore]
      simp only [List.length_append, List.length_take, List.length_drop]
      omega
    rw [List.range'_succ, List.map_cons, List.map_cons, List.foldl_cons, List.flatten_cons]
    dsimp only
    rw [ih (k + 1) (storeAt mem (k * C) (B k)) (fun j h1 h2 => hB j (by omega) (by omega))
      (by rw [hlen1, e2]; omega)]
    have htake : (storeAt mem (k * C) (B k)).take ((k + 1) * C) = mem.take (k * C) ++ B k := by
      rw [hstore, List.append_assoc, ← List.append_assoc]
      apply List.take_left'
      simp only [List.length_append, List.length_take, hBk, e3]
      omega
    have hdrop : (storeAt mem (k * C) (B k)).drop ((k + 1 + cnt) * C)
        = mem.drop ((k + (cnt + 1)) * C) := by
      have hS : (k + 1 + cnt) * C = (mem.take (k * C) ++ B k).length + cnt * C := by
        simp only [List.length_append, List.length_take, hBk, e2]
        omega
      rw [hstore]
      conv_lhs => rw [hS]
      rw [List.drop_append, List.drop_drop, hBk, e1]
    rw [htake, hdrop]
    simp [List.append_assoc]

/-- The buffer of `lgw_spi_rb` after `k` full chunks were stored and a further
store of at most one chunk was made at offset `k * C`: the first `k * C` bytes
are the `k` chunks, and the bytes from the end of chunk `k` on are as
before. -/
theorem partial_stores {C : Nat} (S k : Nat) (mem : List Nat) (B : Nat → List Nat)
    (hklt : k * C < S) (hlen : S ≤ mem.length)
    (hB : ∀ j, j < k → (B j).length = C) (hb : (B k).length ≤ chunkLen C S k) :
    (storeAt (((List.range' 0 k).map (fun j => (j * C, B j))).foldl
        (fun m p => storeAt m p.1 p.2) mem) (k * C) (B k)).length = mem.length ∧
    (storeAt (((List.range' 0 k).map (fun j => (j * C, B j))).foldl
        (fun m p => storeAt m p.1 p.2) mem) (k * C) (B k)).take (k * C)
      = ((List.range k).map B).flatten ∧
    (storeAt (((List.range' 0 k).map (fun j => (j * C, B j))).foldl
        (fun m p => storeAt m p.1 p.2) mem) (k * C) (B k)).drop (min ((k + 1) * C) S)
      = mem.drop (min ((k + 1) * C) S) := by
  have hfold := foldl_full_chunks C B k 0 mem (fun j _ h2 => hB j (by omega))
    (by rw [Nat.zero_add]; omega)
  simp only [Nat.zero_mul, List.take_zero, List.nil_append, Nat.zero_add,
    ← List.range_eq_range'] at hfold
  have hF : (((List.range k).map B).flatten).length = k * C := by
    rw [flatten_length_const B C _ (fun j hj => hB j (List.mem_range.mp hj)), List.length_range]
  rw [← List.range_eq_range', hfold]
  generalize ((List.range k).map B).flatten = F at hF
  have hb' : (B k).length ≤ S - k * C := by
    unfold chunkLen at hb
    omega
  have hmk : (F ++ mem.drop (k * C)).length = mem.length := by
    simp only [List.length_append, List.length_drop, hF]
    omega
  have hstore := storeAt_inbounds (F ++ mem.drop (k * C)) (k * C) (B k) (by rw [hmk]; omega)
  have ht : (F ++ mem.drop (k * C)).take (k * C) = F := List.take_left' hF
  have hd : (F ++ mem.drop (k * C)).drop (k * C + (B k).length)
      = mem.drop (k * C + (B k).length) := by
    conv_lhs => rw [← hF]
    rw [List.drop_append, List.drop_drop, hF]
  rw [hstore, ht, hd]
  have he : min ((k + 1) * C) S = (F ++ B k).length + (min ((k + 1) * C) S - (k * C + (B k).length)) := by
    simp only [List.length_append, hF]
    unfold chunkLen at hb
    rw [Nat.add_mul, Nat.one_mul]
    omega
  refine ⟨?_, ?_, ?_⟩
  · simp only [List.length_append, List.length_drop, hF]
    omega
  · rw [List.append_assoc]
    exact List.take_left' hF
  · conv_lhs => rw [he]
    rw [List.drop_append, List.drop_drop]
    congr 1
    unfold chunkLen at hb
    rw [Nat.add_mul, Nat.one_mul]
    omega

theorem rb_calls_take (K : Consts) (dev : mpsse_context) (m t a S j : Nat)
    (hj : j ≤ nchunks K.LGW_BURST_CHUNK S) :
    (rb_calls K dev m t a S).take (j + 2)
      = Call.Start dev :: frameCall dev (r_frame K m t a) ::
          (List.range j).map (rbChunk K.LGW_BURST_CHUNK dev S) := by
  unfold rb_calls
  rw [List.take_succ_cons, List.take_succ_cons,
    List.take_append_of_le_length (by simpa using hj), ← List.map_take, List.take_range,
    Nat.min_eq_left hj]

theorem rb_calls_get (K : Consts) (dev : mpsse_context) (m t a S j : Nat)
    (hj : j < nchunks K.LGW_BURST_CHUNK S) :
    (rb_calls K dev m t a S)[j + 2]? = some (rbChunk K.LGW_BURST_CHUNK dev S j) := by
  unfold rb_calls
  rw [List.getElem?_cons_succ, List.getElem?_cons_succ,
    List.getElem?_append_left (by simpa using hj)]
  simp [List.getElem?_range hj]

/-- The chunk reads of `lgw_spi_rb` when reads `0 .. k-1` succeed and read `k`
fails. -/
theorem runReads_failAt (K : Consts) (T : Transport) (dev : mpsse_context) (S k : Nat)
    (pre : List Call) (mem : List Nat) (hk : k < nchunks K.LGW_BURST_CHUNK S)
    (hok : ∀ j, j < k →
      (T (pre ++ (List.range j).map (rbChunk K.LGW_BURST_CHUNK dev S))
        (rbChunk K.LGW_BURST_CHUNK dev S j)).status = K.MPSSE_OK)
    (hfail : (T (pre ++ (List.range k).map (rbChunk K.LGW_BURST_CHUNK dev S))
        (rbChunk K.LGW_BURST_CHUNK dev S k)).status ≠ K.MPSSE_OK) :
    runReads K T dev
        ((List.range (nchunks K.LGW_BURST_CHUNK S)).map (rbSlot K.LGW_BURST_CHUNK S))
        pre mem [] =
      ⟨false, pre ++ (List.range (k + 1)).map (rbChunk K.LGW_BURST_CHUNK dev S),
        storeAt (((List.range' 0 k).map
          (fun j => (j * K.LGW_BURST_CHUNK, rbBytes K T dev S pre j))).foldl
            (fun m p => storeAt m p.1 p.2) mem) (k * K.LGW_BURST_CHUNK)
          (rbBytes K T dev S pre k),
        (List.range' 0 k).map (fun j => (j * K.LGW_BURST_CHUNK, rbBytes K T dev S pre j))
          ++ [(k * K.LGW_BURST_CHUNK, rbBytes K T dev S pre k)]⟩ := by
  have hsplit : List.range (nchunks K.LGW_BURST_CHUNK S)
      = List.range' 0 k ++ (k :: List.range' (k + 1) (nchunks K.LGW_BURST_CHUNK S - (k + 1))) := by
    have h := List.range'_append_1 0 k (nchunks K.LGW_BURST_CHUNK S - k)
    rw [Nat.zero_add, Nat.sub_add_cancel (le_of_lt hk)] at h
    rw [List.range_eq_range', ← h, ← List.range'_succ]
    congr 2
    omega
  have h1 := runReads_ok K T dev S pre k 0 mem [] (fun j _ hj => hok j (by omega))
  simp only [List.range_zero, List.map_nil, List.append_nil, Nat.zero_add,
    List.nil_append] at h1
  have htr : pre ++ (List.range k).map (rbChunk K.LGW_BURST_CHUNK dev S)
        ++ [Call.FastRead dev ((chunkLen K.LGW_BURST_CHUNK S k : Nat) : Int)]
      = pre ++ (List.range (k + 1)).map (rbChunk K.LGW_BURST_CHUNK dev S) := by
    simp [List.range_succ, rbChunk]
  simp only [rbChunk] at hfail
  rw [hsplit, List.map_append, runReads_append, h1]
  simp only [if_true, List.map_cons, runReads, FastRead, rbSlot, ne_eq, Ne.symm hfail,
    not_false_eq_true, htr]
  simp [rbBytes, rbChunk]

/-- The outcome of `lgw_spi_rb` when Start, the header write and the chunk
reads `0 .. k-1` succeed and chunk read `k` fails. -/
theorem rb_run_failAt (K : Consts) (T : Transport) (tr : List Call) (dev : mpsse_context)
    (m t a : Nat) (mem : List Nat) (S k : Nat) (hk : k < nchunks K.LGW_BURST_CHUNK S)
    (hff : FirstFail K T tr (rb_calls K dev m t a S) (k + 2)) :
    rb_run K T tr dev m t a mem S =
      ⟨K.LGW_SPI_ERROR,
        tr ++ [Call.Start dev, frameCall dev (r_frame K m t a)]
          ++ (List.range (k + 1)).map (rbChunk K.LGW_BURST_CHUNK dev S),
        some (storeAt (((List.range' 0 k).map
          (fun j => (j * K.LGW_BURST_CHUNK,
            rbBytes K T dev S (tr ++ [Call.Start dev, frameCall dev (r_frame K m t a)]) j))).foldl
            (fun m p => storeAt m p.1 p.2) mem) (k * K.LGW_BURST_CHUNK)
          (rbBytes K T dev S (tr ++ [Call.Start dev, frameCall dev (r_frame K m t a)]) k)),
        (List.range' 0 k).map (fun j => (j * K.LGW_BURST_CHUNK,
            rbBytes K T dev S (tr ++ [Call.Start dev, frameCall dev (r_frame K m t a)]) j))
          ++ [(k * K.LGW_BURST_CHUNK,
            rbBytes K T dev S (tr ++ [Call.Start dev, frameCall dev (r_frame K m t a)]) k)]⟩ ∧
    (∀ j, j < k →
      (T (tr ++ [Call.Start dev, frameCall dev (r_frame K m t a)]
          ++ (List.range j).map (rbChunk K.LGW_BURST_CHUNK dev S))
        (rbChunk K.LGW_BURST_CHUNK dev S j)).status = K.MPSSE_OK) := by
  obtain ⟨hpre, c, hc, hfail⟩ := hff
  have hstart : (T tr (Call.Start dev)).status = K.MPSSE_OK := by
    have := hpre 0 (Call.Start dev) (by omega) (by simp [rb_calls])
    simpa using this
  have hhdr : (T (tr ++ [Call.Start dev]) (frameCall dev (r_frame K m t a))).status
      = K.MPSSE_OK := by
    have := hpre 1 (frameCall dev (r_frame K m t a)) (by omega) (by simp [rb_calls])
    simpa [rb_calls] using this
  have hreads : ∀ j, j < k →
      (T (tr ++ [Call.Start dev, frameCall dev (r_frame K m t a)]
          ++ (List.range j).map (rbChunk K.LGW_BURST_CHUNK dev S))
        (rbChunk K.LGW_BURST_CHUNK dev S j)).status = K.MPSSE_OK := by
    intro j hj
    have := hpre (j + 2) _ (by omega) (rb_calls_get K dev m t a S j (by omega))
    rw [rb_calls_take K dev m t a S j (by omega)] at this
    simpa using this
  have hfailk : (T (tr ++ [Call.Start dev, frameCall dev (r_frame K m t a)]
          ++ (List.range k).map (rbChunk K.LGW_BURST_CHUNK dev S))
        (rbChunk K.LGW_BURST_CHUNK dev S k)).status ≠ K.MPSSE_OK := by
    rw [rb_calls_get K dev m t a S k hk] at hc
    rw [rb_calls_take K dev m t a S k (le_of_lt hk), ← Option.some.inj hc] at hfail
    simpa using hfail
  refine ⟨?_, hreads⟩
  have hpre2 : tr ++ [Call.Start dev] ++ [frameCall dev (r_frame K m t a)]
      = tr ++ [Call.Start dev, frameCall dev (r_frame K m t a)] := by simp
  unfold rb_run
  simp only [hstart, hhdr, ne_eq, not_true_eq_false, if_false, hpre2]
  rw [runReads_failAt K T dev S k _ mem hk hreads hfailk]
  simp

/-- On the mock `seqFailT i`, call `i` of any list of more than `i` calls made
from the empty trace is the first to fail. -/
theorem firstFail_seqFailT (K : Consts) (hK : K.MPSSE_OK = 0) (cs : List Call) (i : Nat)
    (hi : i < cs.length) : FirstFail K (seqFailT i) [] cs i := by
  constructor
  · intro j c hj _
    have hne : ¬ min j cs.length = i := by omega
    simp [seqFailT, hK, hne]
  · refine ⟨cs[i], by simp [hi], ?_⟩
    have he : min i cs.length = i := by omega
    simp [seqFailT, hK, he]

theorem rbBytes_length_of_ok (K : Consts) (T : Transport) (dev : mpsse_context) (S : Nat)
    (pre : List Call) (k : Nat)
    (h : (T (pre ++ (List.range k).map (rbChunk K.LGW_BURST_CHUNK dev S))
      (rbChunk K.LGW_BURST_CHUNK dev S k)).status = K.MPSSE_OK) :
    (rbBytes K T dev S pre k).length = chunkLen K.LGW_BURST_CHUNK S k := by
  simp [rbBytes, readBytes, h]

theorem rbBytes_length_le (K : Consts) (T : Transport) (dev : mpsse_context) (S : Nat)
    (pre : List Call) (k : Nat) :
    (rbBytes K T dev S pre k).length ≤ chunkLen K.LGW_BURST_CHUNK S k := by
  have := readBytes_length_le K
    (T (pre ++ (List.range k).map (rbChunk K.LGW_BURST_CHUNK dev S))
      (rbChunk K.LGW_BURST_CHUNK dev S k)) ((chunkLen K.LGW_BURST_CHUNK S k : Nat) : Int)
  simpa [rbBytes] using this

theorem mask_mask (a : Nat) : (a &&& 0x7F) &&& 0x7F = a &&& 0x7F := by
  rw [Nat.and_assoc, Nat.and_self]

/-- One `lgw_spi_r` on a transport on which every call succeeds and reads
deliver `r`. -/
theorem lgw_spi_r_fixed (K : Consts) (T : Transport) (tr : List Call) (dev : mpsse_context)
    (m t a r old : Nat) (hr : r < 256) (hok : AllOk K T)
    (hrd : ∀ (h : List Call) (n : Int), (T h (Call.FastRead dev n)).bytes 0 = r) :
    lgw_spi_r K T tr (some dev) m t a (some old)
      = (K.LGW_SPI_SUCCESS, tr ++ r_calls K dev m t a, some r) := by
  have hv : r_value K T tr dev m t a = r := by
    unfold r_value readBytes
    simp [hok _ _, hrd, Nat.mod_eq_of_lt hr, toByte_charVal hr]
  rw [lgw_spi_r_eq, runCalls_allOk K T hok, hv]
  simp [retOf]

theorem loop_iters_eq (K : Consts) (S : Nat) (hC : 1 ≤ K.LGW_BURST_CHUNK) :
    ∀ (fuel k : Nat), S - k * K.LGW_BURST_CHUNK ≤ fuel →
      loop_iters K fuel (k : Int) ((S - k * K.LGW_BURST_CHUNK : Nat) : Int)
        = (List.range' k (nchunks K.LGW_BURST_CHUNK S - k)).map (iterAt K.LGW_BURST_CHUNK S) := by
  intro fuel
  induction fuel with
  | zero =>
    intro k hf
    have hn : ¬ k * K.LGW_BURST_CHUNK < S := by omega
    simp [loop_iters, nchunks_sub_zero hC S k hn]
  | succ fuel ih =>
    intro k hf
    by_cases hlt : k * K.LGW_BURST_CHUNK < S
    · have hpos : ((S - k * K.LGW_BURST_CHUNK : Nat) : Int) > 0 := by omega
      have hchunk : (if ((S - k * K.LGW_BURST_CHUNK : Nat) : Int) < (K.LGW_BURST_CHUNK : Int)
          then ((S - k * K.LGW_BURST_CHUNK : Nat) : Int) else (K.LGW_BURST_CHUNK : Int))
          = ((chunkLen K.LGW_BURST_CHUNK S k : Nat) : Int) := by
        unfold chunkLen
        split <;> omega
      have hnext : ((S - k * K.LGW_BURST_CHUNK : Nat) : Int)
          - ((chunkLen K.LGW_BURST_CHUNK S k : Nat) : Int)
          = ((S - (k + 1) * K.LGW_BURST_CHUNK : Nat) : Int) := by
        unfold chunkLen
        rw [Nat.add_mul]
        omega
      have hf' : S - (k + 1) * K.LGW_BURST_CHUNK ≤ fuel := by
        rw [Nat.add_mul]
        omega
      have hi : (k : Int) + 1 = ((k + 1 : Nat) : Int) := by push_cast; rfl
      rw [nchunks_sub_succ hC S k hlt, List.range'_succ, List.map_cons]
      simp only [loop_iters, hpos, if_true, hchunk, hnext, hi]
      rw [ih (k + 1) hf']
      rfl
    · have h0 : S - k * K.LGW_BURST_CHUNK = 0 := by omega
      have hnp : ¬ ((0 : Int) > 0) := by omega
      simp [loop_iters, h0, nchunks_sub_zero hC S k hlt]

theorem loop_iters_all (K : Consts) (fuel S : Nat) (hC : 1 ≤ K.LGW_BURST_CHUNK)
    (hfuel : S ≤ fuel) :
    loop_iters K fuel 0 (S : Int)
      = (List.range (nchunks K.LGW_BURST_CHUNK S)).map (iterAt K.LGW_BURST_CHUNK S) := by
  have h := loop_iters_eq K S hC fuel 0 (by simpa using hfuel)
  simpa [List.range_eq_range'] using h

theorem nchunks_le {C : Nat} (hC : 1 ≤ C) (S : Nat) : nchunks C S ≤ S := by
  by_cases h0 : nchunks C S = 0
  · omega
  · have h1 := (lt_nchunks_iff hC S (nchunks C S - 1)).mp (by omega)
    have h2 : nchunks C S - 1 ≤ (nchunks C S - 1) * C := Nat.le_mul_of_pos_right _ (by omega)
    omega

/-- The properties of the loop variables at iteration `j`. -/
theorem iterAt_props {C : Nat} (hC : 1 ≤ C) (S j : Nat) (hj : j < nchunks C S) :
    (iterAt C S j).offset = (iterAt C S j).i * (C : Int) ∧
    (iterAt C S j).offset = (S : Int) - (iterAt C S j).size_to_do ∧
    1 ≤ (iterAt C S j).chunk_size ∧
    (iterAt C S j).chunk_size ≤ (iterAt C S j).size_to_do ∧
    (iterAt C S j).chunk_size ≤ (C : Int) ∧
    0 ≤ (iterAt C S j).offset ∧
    (iterAt C S j).offset + (iterAt C S j).chunk_size ≤ (S : Int) ∧
    0 ≤ (iterAt C S j).size_to_do - (iterAt C S j).chunk_size ∧
    (iterAt C S j).size_to_do - (iterAt C S j).chunk_size < (iterAt C S j).size_to_do ∧
    (iterAt C S j).i < (S : Int) ∧ 0 ≤ (iterAt C S j).i := by
  have hlt : j * C < S := (lt_nchunks_iff hC S j).mp hj
  have hjC : ((j : Int) * (C : Int)) = ((j * C : Nat) : Int) := by push_cast; rfl
  have hjle : j ≤ j * C := Nat.le_mul_of_pos_right _ (by omega)
  simp only [iterAt, hjC]
  unfold chunkLen
  refine ⟨trivial, ?_, ?_, ?_, ?_, ?_, ?_, ?_, ?_, ?_, ?_⟩ <;> omega

theorem iters_get (C S p : Nat) (x : LoopIter)
    (h : ((List.range (nchunks C S)).map (iterAt C S))[p]? = some x) :
    p < nchunks C S ∧ x = iterAt C S p := by
  rw [List.getElem?_map] at h
  by_cases hp : p < nchunks C S
  · rw [List.getElem?_range hp] at h
    simp only [Option.map_some', Option.some.injEq] at h
    exact ⟨hp, h.symm⟩
  · rw [List.getElem?_eq_none (by simpa using hp)] at h
    simp at h

theorem iters_mem (C S : Nat) (x : LoopIter)
    (h : x ∈ (List.range (nchunks C S)).map (iterAt C S)) :
    ∃ j, j < nchunks C S ∧ x = iterAt C S j := by
  simp only [List.mem_map, List.mem_range] at h
  obtain ⟨j, hj, rfl⟩ := h
  exact ⟨j, hj, rfl⟩

/-! ## The claims -/

/-- C1: for a mux target `t` and a data byte `d` in `0..255`, any address `a`,
and a transport on which every call succeeds, `lgw_spi_w` returns success and
makes exactly the calls Start, one write, Stop; the write carries the 3 bytes
`[t, 0x80 | (a & 0x7F), d]` in mode MODE1 and the 2 bytes
`[0x80 | (a & 0x7F), d]` in any other mode (NONE). -/
theorem C1_lgw_spi_w_frame (K : Consts) (T : Transport) (tr : List Call)
    (dev : mpsse_context) (m t a d : Nat) (ht : t < 256) (hd : d < 256) (hok : AllOk K T) :
    ((m : Int) = K.LGW_SPI_MUX_MODE1 →
      lgw_spi_w K T tr (some dev) m t a d =
        (K.LGW_SPI_SUCCESS,
          tr ++ [Call.Start dev, Call.FastWrite dev [t, 0x80 ||| (a &&& 0x7F), d] 3,
            Call.Stop dev])) ∧
    ((m : Int) ≠ K.LGW_SPI_MUX_MODE1 →
      lgw_spi_w K T tr (some dev) m t a d =
        (K.LGW_SPI_SUCCESS,
          tr ++ [Call.Start dev, Call.FastWrite dev [0x80 ||| (a &&& 0x7F), d] 2,
            Call.Stop dev])) := by
  have hb : toByte ((WRITE_ACCESS ||| (a &&& 0x7F) : Nat) : Int) = 0x80 ||| (a &&& 0x7F) :=
    toByte_of_lt (access_lt 0x80 a (by norm_num))
  rw [lgw_spi_w_eq, runCalls_allOk K T hok]
  constructor
  · intro hm
    simp [retOf, w_calls, frameCall, w_frame, hm, hb, toByte_of_lt ht, toByte_of_lt hd]
  · intro hm
    simp [retOf, w_calls, frameCall, w_frame, hm, hb, toByte_of_lt hd]

/-- C1 at concrete inputs: mode NONE (0), address 0x10, data 0xAB puts
`[0x90, 0xAB]` on the bus; mode MODE1 (1), target 0x02 puts `[0x02, 0x90, 0xAB]`. -/
theorem C1_lgw_spi_w_frame_witness :
    (2 < 256 ∧ 0xAB < 256 ∧ AllOk stdConsts (mockT 0)) ∧
    lgw_spi_w stdConsts (mockT 0) [] (some ctx0) 0 2 0x10 0xAB =
      (0, [Call.Start ctx0, Call.FastWrite ctx0 [0x90, 0xAB] 2, Call.Stop ctx0]) ∧
    lgw_spi_w stdConsts (mockT 0) [] (some ctx0) 1 2 0x10 0xAB =
      (0, [Call.Start ctx0, Call.FastWrite ctx0 [0x02, 0x90, 0xAB] 3, Call.Stop ctx0]) :=
  ⟨⟨by decide, by decide, fun _ _ => rfl⟩,
    (C1_lgw_spi_w_frame stdConsts (mockT 0) [] ctx0 0 2 0x10 0xAB (by decide) (by decide)
      (fun _ _ => rfl)).2 (by decide),
    (C1_lgw_spi_w_frame stdConsts (mockT 0) [] ctx0 1 2 0x10 0xAB (by decide) (by decide)
      (fun _ _ => rfl)).1 (by decide)⟩

/-- C2: for a mux target `t` and a response byte `r` in `0..255`, any address
`a`, and a transport on which every call succeeds and whose reads deliver `r`,
`lgw_spi_r` returns success, stores exactly `r` through `data`, and makes
exactly the calls Start, one write, one read of 1 byte, Stop; the write
carries `[t, a & 0x7F]` in mode MODE1 and `[a & 0x7F]` in any other mode. -/
theorem C2_lgw_spi_r_frame (K : Consts) (T : Transport) (tr : List Call)
    (dev : mpsse_context) (m t a r old : Nat) (ht : t < 256) (hr : r < 256)
    (hok : AllOk K T) (hrd : ∀ (h : List Call) (n : Int), (T h (Call.FastRead dev n)).bytes 0 = r) :
    ((m : Int) = K.LGW_SPI_MUX_MODE1 →
      lgw_spi_r K T tr (some dev) m t a (some old) =
        (K.LGW_SPI_SUCCESS,
          tr ++ [Call.Start dev, Call.FastWrite dev [t, a &&& 0x7F] 2, Call.FastRead dev 1,
            Call.Stop dev],
          some r)) ∧
    ((m : Int) ≠ K.LGW_SPI_MUX_MODE1 →
      lgw_spi_r K T tr (some dev) m t a (some old) =
        (K.LGW_SPI_SUCCESS,
          tr ++ [Call.Start dev, Call.FastWrite dev [a &&& 0x7F] 1, Call.FastRead dev 1,
            Call.Stop dev],
          some r)) := by
  have hb : toByte ((READ_ACCESS ||| (a &&& 0x7F) : Nat) : Int) = a &&& 0x7F := by
    have := toByte_of_lt (access_lt 0x00 a (by norm_num))
    simpa [READ_ACCESS] using this
  have hv : r_value K T tr dev m t a = r := by
    unfold r_value readBytes
    simp [hok _ _, hrd, Nat.mod_eq_of_lt hr, toByte_charVal hr]
  rw [lgw_spi_r_eq, runCalls_allOk K T hok, hv]
  constructor
  · intro hm
    simp [retOf, r_calls, frameCall, r_frame, hm, hb, toByte_of_lt ht]
  · intro hm
    simp [retOf, r_calls, frameCall, r_frame, hm, hb]

/-- C2 at concrete inputs: mode MODE1 (1), target 0x01, address 0x05 and a mock
delivering 0x7F give the header `[0x01, 0x05]` and the value 0x7F; mode NONE
(0) and a mock delivering 0xC3 give the header `[0x05]` and the value 0xC3. -/
theorem C2_lgw_spi_r_frame_witness :
    (1 < 256 ∧ 0x7F < 256 ∧ 0xC3 < 256 ∧ AllOk stdConsts (mockT 0x7F) ∧
      AllOk stdConsts (mockT 0xC3)) ∧
    lgw_spi_r stdConsts (mockT 0x7F) [] (some ctx0) 1 1 0x05 (some 0) =
      (0, [Call.Start ctx0, Call.FastWrite ctx0 [0x01, 0x05] 2, Call.FastRead ctx0 1,
        Call.Stop ctx0], some 0x7F) ∧
    lgw_spi_r stdConsts (mockT 0xC3) [] (some ctx0) 0 1 0x05 (some 0) =
      (0, [Call.Start ctx0, Call.FastWrite ctx0 [0x05] 1, Call.FastRead ctx0 1,
        Call.Stop ctx0], some 0xC3) :=
  ⟨⟨by decide, by decide, by decide, fun _ _ => rfl, fun _ _ => rfl⟩,
    (C2_lgw_spi_r_frame stdConsts (mockT 0x7F) [] ctx0 1 1 0x05 0x7F 0 (by decide) (by decide)
      (fun _ _ => rfl) (fun _ _ => rfl)).1 (by decide),
    (C2_lgw_spi_r_frame stdConsts (mockT 0xC3) [] ctx0 0 1 0x05 0xC3 0 (by decide) (by decide)
      (fun _ _ => rfl) (fun _ _ => rfl)).2 (by decide)⟩

/-- C3: for every size `S` and chunk limit `C >= 1`, with a transport on which
every call succeeds, the transfers `lgw_spi_wb` and `lgw_spi_rb` make after the
header write are exactly `S / C` rounded up many, each of at most `C` bytes,
and their sizes sum to `S`. -/
theorem C3_chunking (K : Consts) (T : Transport) (fuel : Nat) (tr : List Call)
    (dev : mpsse_context) (m t a : Nat) (mem : List Nat) (S : Nat)
    (hC : 1 ≤ K.LGW_BURST_CHUNK) (hok : AllOk K T) (hfuel : S ≤ fuel) :
    ∃ (rw : Int × List Call) (rr : RbRes),
      lgw_spi_wb K T fuel tr (some dev) m t a (some mem) S = some rw ∧
      lgw_spi_rb K T fuel tr (some dev) m t a (some mem) S = some rr ∧
      (transferSizes (rw.2.drop tr.length)).drop 1 = chunkSizes K.LGW_BURST_CHUNK S ∧
      (transferSizes (rr.trace.drop tr.length)).drop 1 = chunkSizes K.LGW_BURST_CHUNK S ∧
      (chunkSizes K.LGW_BURST_CHUNK S).length = nchunks K.LGW_BURST_CHUNK S ∧
      (S ≤ nchunks K.LGW_BURST_CHUNK S * K.LGW_BURST_CHUNK ∧
        nchunks K.LGW_BURST_CHUNK S * K.LGW_BURST_CHUNK < S + K.LGW_BURST_CHUNK) ∧
      (∀ x ∈ chunkSizes K.LGW_BURST_CHUNK S, 0 ≤ x ∧ x ≤ (K.LGW_BURST_CHUNK : Int)) ∧
      (chunkSizes K.LGW_BURST_CHUNK S).sum = (S : Int) := by
  have hlen : (chunkSizes K.LGW_BURST_CHUNK S).length = nchunks K.LGW_BURST_CHUNK S := by
    simp [chunkSizes]
  have hle : ∀ x ∈ chunkSizes K.LGW_BURST_CHUNK S, 0 ≤ x ∧ x ≤ (K.LGW_BURST_CHUNK : Int) := by
    intro x hx
    simp only [chunkSizes, List.mem_map, List.mem_range] at hx
    obtain ⟨k, _, rfl⟩ := hx
    unfold chunkLen
    omega
  have hsum : (chunkSizes K.LGW_BURST_CHUNK S).sum = (S : Int) := by
    have := chunk_sum hC S (nchunks K.LGW_BURST_CHUNK S) 0 (by simp)
    simpa [chunkSizes, List.range_eq_range'] using this
  by_cases hS : S = 0
  · subst hS
    refine ⟨(K.LGW_SPI_ERROR, tr), ⟨K.LGW_SPI_ERROR, tr, some mem, []⟩, ?_, ?_, ?_, ?_,
      hlen, nchunks_ceil hC 0, hle, hsum⟩
    · simp [lgw_spi_wb]
    · simp [lgw_spi_rb]
    · simp [chunkSizes, nchunks_zero hC, transferSizes]
    · simp [chunkSizes, nchunks_zero hC, transferSizes]
  · have hS1 : 1 ≤ S := by omega
    obtain ⟨hr1, _, hr3⟩ := lgw_spi_rb_allOk_trace K T fuel tr dev m t a mem S hC hS1 hfuel hok
    refine ⟨_, _, lgw_spi_wb_allOk K T fuel tr dev m t a mem S hC hS1 hfuel hok, hr1, ?_, ?_,
      hlen, nchunks_ceil hC S, hle, hsum⟩
    · simp [wb_calls, frameCall, transferSizes, transferSizes_append, transferSizes_wbChunk,
        chunkSizes]
    · rw [hr3]
      simp [rb_calls, frameCall, transferSizes, transferSizes_append, transferSizes_rbChunk,
        chunkSizes]

set_option maxRecDepth 100000 in
/-- C3 at concrete inputs: 65 bytes with a chunk limit of 64 go out, and come
in, as two chunks of 64 and then 1 bytes. -/
theorem C3_chunking_witness :
    (1 ≤ consts64.LGW_BURST_CHUNK ∧ AllOk consts64 (mockT 0) ∧ 65 ≤ 65) ∧
    ∃ (rw : Int × List Call) (rr : RbRes),
      lgw_spi_wb consts64 (mockT 0) 65 [] (some ctx0) 0 0 0x20 (some (List.replicate 65 7)) 65
        = some rw ∧
      lgw_spi_rb consts64 (mockT 0) 65 [] (some ctx0) 0 0 0x20 (some (List.replicate 65 7)) 65
        = some rr ∧
      (transferSizes rw.2).drop 1 = [64, 1] ∧ (transferSizes rr.trace).drop 1 = [64, 1] ∧
      rw.2 = [Call.Start ctx0, Call.FastWrite ctx0 [0xA0] 1,
        Call.FastWrite ctx0 (List.replicate 64 7) 64, Call.FastWrite ctx0 [7] 1,
        Call.Stop ctx0] := by
  have hsz : chunkSizes consts64.LGW_BURST_CHUNK 65 = [64, 1] := by decide
  obtain ⟨rw, rr, h1, h2, h3, h4, _⟩ :=
    C3_chunking consts64 (mockT 0) 65 [] ctx0 0 0 0x20 (List.replicate 65 7) 65
      (by decide) (fun _ _ => rfl) (le_refl _)
  rw [hsz] at h3 h4
  refine ⟨⟨by decide, fun _ _ => rfl, le_refl _⟩, rw, rr, h1, h2, by simpa using h3,
    by simpa using h4, ?_⟩
  have h5 : lgw_spi_wb consts64 (mockT 0) 65 [] (some ctx0) 0 0 0x20
      (some (List.replicate 65 7)) 65 = some (0, [Call.Start ctx0, Call.FastWrite ctx0 [0xA0] 1,
        Call.FastWrite ctx0 (List.replicate 64 7) 64, Call.FastWrite ctx0 [7] 1,
        Call.Stop ctx0]) := by decide
  rw [h5] at h1
  cases h1
  rfl

/-- C4: for a payload `mem` of length `S >= 1` and chunk limit `C >= 1`, with a
transport on which every call succeeds, `lgw_spi_wb` succeeds and, between the
header write and Stop, makes one write per chunk `k = 0, 1, ...` in order; write
`k` carries exactly the bytes `mem[k*C .. min((k+1)*C, S))`, which are
`min(S - k*C, C)` many, and the bytes of all chunk writes, in the order issued,
are `mem`. -/
theorem C4_wb_chunk_bytes (K : Consts) (T : Transport) (fuel : Nat) (tr : List Call)
    (dev : mpsse_context) (m t a : Nat) (mem : List Nat) (S : Nat)
    (hC : 1 ≤ K.LGW_BURST_CHUNK) (hS : 1 ≤ S) (hlen : mem.length = S) (hok : AllOk K T)
    (hfuel : S ≤ fuel) :
    ∃ hdr : Call,
      lgw_spi_wb K T fuel tr (some dev) m t a (some mem) S =
        some (K.LGW_SPI_SUCCESS, tr ++ Call.Start dev :: hdr ::
          ((List.range (nchunks K.LGW_BURST_CHUNK S)).map
            (fun k => Call.FastWrite dev (slice K.LGW_BURST_CHUNK S mem k)
              ((min (S - k * K.LGW_BURST_CHUNK) K.LGW_BURST_CHUNK : Nat) : Int))
            ++ [Call.Stop dev])) ∧
      (∀ k, k < nchunks K.LGW_BURST_CHUNK S →
        (slice K.LGW_BURST_CHUNK S mem k).length
          = min (S - k * K.LGW_BURST_CHUNK) K.LGW_BURST_CHUNK) ∧
      ((List.range (nchunks K.LGW_BURST_CHUNK S)).map
        (slice K.LGW_BURST_CHUNK S mem)).flatten = mem := by
  refine ⟨frameCall dev (wb_frame K m t a), ?_, ?_, ?_⟩
  · rw [lgw_spi_wb_allOk K T fuel tr dev m t a mem S hC hS hfuel hok]
    have hmap : (List.range (nchunks K.LGW_BURST_CHUNK S)).map
          (wbChunk K.LGW_BURST_CHUNK dev mem S)
        = (List.range (nchunks K.LGW_BURST_CHUNK S)).map
          (fun k => Call.FastWrite dev (slice K.LGW_BURST_CHUNK S mem k)
            ((min (S - k * K.LGW_BURST_CHUNK) K.LGW_BURST_CHUNK : Nat) : Int)) := by
      apply List.map_congr_left
      intro k _
      rw [slice_eq]
      unfold wbChunk chunkLen
      rw [Nat.min_comm]
    unfold wb_calls
    rw [hmap]
  · intro k hk
    have hlt := (lt_nchunks_iff hC S k).mp hk
    rw [slice_eq, List.length_take, List.length_drop]
    unfold chunkLen
    omega
  · have := slices_flatten hC S mem (nchunks K.LGW_BURST_CHUNK S) 0 (by simp)
    simpa [List.range_eq_range', ← hlen] using this

/-- C4 at concrete inputs: the 3 bytes `[10, 20, 30]` with a chunk limit of 2 go
out as the chunks `[10, 20]` and `[30]`. -/
theorem C4_wb_chunk_bytes_witness :
    (1 ≤ consts2.LGW_BURST_CHUNK ∧ 1 ≤ 3 ∧ [10, 20, 30].length = 3 ∧ AllOk consts2 (mockT 0)
      ∧ 3 ≤ 3) ∧
    ∃ hdr : Call,
      lgw_spi_wb consts2 (mockT 0) 3 [] (some ctx0) 0 0 0x20 (some [10, 20, 30]) 3 =
        some (0, [Call.Start ctx0, hdr, Call.FastWrite ctx0 [10, 20] 2,
          Call.FastWrite ctx0 [30] 1, Call.Stop ctx0]) := by
  obtain ⟨hdr, h, _, _⟩ :=
    C4_wb_chunk_bytes consts2 (mockT 0) 3 [] ctx0 0 0 0x20 [10, 20, 30] 3
      (by decide) (by decide) rfl (fun _ _ => rfl) (le_refl _)
  refine ⟨⟨by decide, by decide, rfl, fun _ _ => rfl, le_refl _⟩, hdr, ?_⟩
  rw [h]
  rfl

/-- C5: for a size `S >= 1`, a buffer `mem` of at least `S` bytes and chunk
limit `C >= 1`, with a transport on which every call succeeds, `lgw_spi_rb`
returns success after Start, the header write, one read per chunk and Stop;
chunk read `k` stores its `min(S - k*C, C)` bytes at offset `k*C`, so that
afterwards `mem[k*C .. min((k+1)*C, S))` holds them and `mem[0..S)` is the
bytes of the successive chunk reads in order; every index below `S` is written
by exactly one store, no index from `S` on is written by any, and the bytes
from `S` on are unchanged. -/
theorem C5_rb_fills_data (K : Consts) (T : Transport) (fuel : Nat) (tr : List Call)
    (dev : mpsse_context) (m t a : Nat) (mem : List Nat) (S : Nat)
    (hC : 1 ≤ K.LGW_BURST_CHUNK) (hS : 1 ≤ S) (hlen : S ≤ mem.length) (hok : AllOk K T)
    (hfuel : S ≤ fuel) :
    ∃ (hdr : Call) (mem' : List Nat) (st : List (Nat × List Nat)),
      lgw_spi_rb K T fuel tr (some dev) m t a (some mem) S =
        some ⟨K.LGW_SPI_SUCCESS,
          tr ++ [Call.Start dev, hdr]
            ++ (List.range (nchunks K.LGW_BURST_CHUNK S)).map
                (fun k => Call.FastRead dev ((min (S - k * K.LGW_BURST_CHUNK) K.LGW_BURST_CHUNK : Nat) : Int))
            ++ [Call.Stop dev],
          some mem', st⟩ ∧
      st = (List.range (nchunks K.LGW_BURST_CHUNK S)).map
        (fun k => (k * K.LGW_BURST_CHUNK, rbBytes K T dev S (tr ++ [Call.Start dev, hdr]) k)) ∧
      (∀ k, k < nchunks K.LGW_BURST_CHUNK S →
        (rbBytes K T dev S (tr ++ [Call.Start dev, hdr]) k).length
          = min (S - k * K.LGW_BURST_CHUNK) K.LGW_BURST_CHUNK) ∧
      mem'.length = mem.length ∧
      mem'.take S = ((List.range (nchunks K.LGW_BURST_CHUNK S)).map
        (rbBytes K T dev S (tr ++ [Call.Start dev, hdr]))).flatten ∧
      (∀ k, k < nchunks K.LGW_BURST_CHUNK S →
        slice K.LGW_BURST_CHUNK S mem' k = rbBytes K T dev S (tr ++ [Call.Start dev, hdr]) k) ∧
      mem'.drop S = mem.drop S ∧
      (∀ j, j < S → st.countP (covers j) = 1) ∧
      (∀ j, S ≤ j → st.countP (covers j) = 0) := by
  have hpre : tr ++ [Call.Start dev] ++ [frameCall dev (r_frame K m t a)]
      = tr ++ [Call.Start dev, frameCall dev (r_frame K m t a)] := by simp
  have hbl := rbBytes_length K T dev S (tr ++ [Call.Start dev, frameCall dev (r_frame K m t a)]) hok
  have hrun := runReads_allOk K T dev S hok
    (tr ++ [Call.Start dev, frameCall dev (r_frame K m t a)])
    (nchunks K.LGW_BURST_CHUNK S) 0 mem []
  simp only [List.range_zero, List.map_nil, List.append_nil, Nat.zero_add, List.nil_append,
    ← List.range_eq_range'] at hrun
  have hfold := foldl_stores hC S
    (rbBytes K T dev S (tr ++ [Call.Start dev, frameCall dev (r_frame K m t a)])) hbl
    (nchunks K.LGW_BURST_CHUNK S) 0 mem (by simp) hlen
  simp only [Nat.zero_mul, Nat.zero_min, List.take_zero, List.nil_append,
    ← List.range_eq_range'] at hfold
  have hflen : ((List.range (nchunks K.LGW_BURST_CHUNK S)).map
      (rbBytes K T dev S (tr ++ [Call.Start dev, frameCall dev (r_frame K m t a)]))).flatten.length
      = S := by
    have h1 := slices_flatten hC S mem (nchunks K.LGW_BURST_CHUNK S) 0 (by simp)
    have h2 : ∀ l : List Nat, (List.map (List.length ∘ rbBytes K T dev S
          (tr ++ [Call.Start dev, frameCall dev (r_frame K m t a)])) l)
        = List.map (List.length ∘ slice K.LGW_BURST_CHUNK S mem) l := by
      intro l
      apply List.map_congr_left
      intro k _
      simp only [Function.comp, hbl, slice_eq, List.length_take, List.length_drop]
      unfold chunkLen
      have := Nat.le_trans (show k * K.LGW_BURST_CHUNK + (S - k * K.LGW_BURST_CHUNK) ≤
        max S (k * K.LGW_BURST_CHUNK) by omega) (show max S (k * K.LGW_BURST_CHUNK)
          ≤ max mem.length (k * K.LGW_BURST_CHUNK) by omega)
      omega
    have h3 := congrArg List.length h1
    simp only [List.length_flatten, List.map_map, Nat.zero_mul, List.drop_zero,
      Nat.sub_zero, List.length_take, ← List.range_eq_range'] at h3
    rw [List.length_flatten, List.map_map, h2, h3]
    omega
  generalize hM : ((List.range (nchunks K.LGW_BURST_CHUNK S)).map
      (fun j => (j * K.LGW_BURST_CHUNK,
        rbBytes K T dev S (tr ++ [Call.Start dev, frameCall dev (r_frame K m t a)]) j))).foldl
      (fun m p => storeAt m p.1 p.2) mem = M at hrun hfold
  generalize hB : rbBytes K T dev S (tr ++ [Call.Start dev, frameCall dev (r_frame K m t a)])
    = B at hrun hfold hflen hbl
  have hMlen : M.length = mem.length := by
    rw [hfold]
    simp only [List.length_append, hflen, List.length_drop]
    omega
  have hMtake : M.take S = ((List.range (nchunks K.LGW_BURST_CHUNK S)).map B).flatten := by
    rw [hfold]
    exact List.take_left' hflen
  refine ⟨frameCall dev (r_frame K m t a), M,
    (List.range (nchunks K.LGW_BURST_CHUNK S)).map (fun k => (k * K.LGW_BURST_CHUNK, B k)), ?_⟩
  simp only [hB]
  refine ⟨?_, trivial, ?_, hMlen, hMtake, ?_, ?_, ?_, ?_⟩
  · rw [lgw_spi_rb_eq K T fuel tr dev m t a mem S hC hS hfuel]
    unfold rb_run
    simp only [hok _ _, ne_eq, not_true_eq_false, if_false, hpre, hrun, if_true]
    have hmap : (List.range (nchunks K.LGW_BURST_CHUNK S)).map (rbChunk K.LGW_BURST_CHUNK dev S)
        = (List.range (nchunks K.LGW_BURST_CHUNK S)).map
          (fun k => Call.FastRead dev
            ((min (S - k * K.LGW_BURST_CHUNK) K.LGW_BURST_CHUNK : Nat) : Int)) := by
      apply List.map_congr_left
      intro k _
      unfold rbChunk chunkLen
      rw [Nat.min_comm]
    rw [hmap]
  · intro k _
    rw [hbl, chunkLen, Nat.min_comm]
  · intro k hk
    have hsl := slices_flatten hC S M (nchunks K.LGW_BURST_CHUNK S) 0 (by simp)
    rw [Nat.zero_mul, List.drop_zero, Nat.sub_zero, hMtake, List.range_eq_range'] at hsl
    refine flatten_inj_of_length _ _ ?_ _ 0 hsl k (Nat.zero_le _) (by omega)
    intro j
    rw [hbl, slice_eq, List.length_take, List.length_drop, hMlen]
    unfold chunkLen
    omega
  · rw [hfold]
    exact List.drop_left' hflen
  · intro j hj
    exact (stores_count hC S _ hbl j).1 hj
  · intro j hj
    exact (stores_count hC S _ hbl j).2 hj

/-- C5 at concrete inputs: 3 bytes with a chunk limit of 2 are read as the
chunks `[20, 21]` and `[30]`, stored at offsets 0 and 2 of a 4-byte buffer
whose last byte keeps its value 99. -/
theorem C5_rb_fills_data_witness :
    (1 ≤ consts2.LGW_BURST_CHUNK ∧ 1 ≤ 3 ∧ 3 ≤ [0, 0, 0, 99].length ∧ AllOk consts2 seqT
      ∧ 3 ≤ 3) ∧
    ∃ (hdr : Call) (mem' : List Nat) (st : List (Nat × List Nat)),
      lgw_spi_rb consts2 seqT 3 [] (some ctx0) 0 0 0x20 (some [0, 0, 0, 99]) 3 =
        some ⟨0, [Call.Start ctx0, hdr, Call.FastRead ctx0 2, Call.FastRead ctx0 1,
          Call.Stop ctx0], some mem', st⟩ ∧
      st = [(0, [20, 21]), (2, [30])] ∧ mem'.take 3 = [20, 21, 30] ∧ mem'.drop 3 = [99] := by
  obtain ⟨hdr, mem', st, h, hst, _, _, htake, _, hdrop, _⟩ :=
    C5_rb_fills_data consts2 seqT 3 [] ctx0 0 0 0x20 [0, 0, 0, 99] 3
      (by decide) (by decide) (by decide) (fun _ _ => rfl) (le_refl _)
  refine ⟨⟨by decide, by decide, by decide, fun _ _ => rfl, le_refl _⟩, hdr, mem', st,
    ?_, ?_, ?_, ?_⟩
  · rw [h]; rfl
  · rw [hst]; rfl
  · rw [htake]; rfl
  · rw [hdrop]; rfl

/-- C6: for a mux target `t` and data byte `d` in `0..255`, any mode and
address, and a transport whose Start succeeds, the second call of each
operation is the write of its frame: `lgw_spi_wb` writes `W`, which is
`[t, 0x80|(a&0x7F)]` in mode MODE1 and `[0x80|(a&0x7F)]` otherwise, and
`lgw_spi_w` writes `W` followed by the data byte; `lgw_spi_rb` and `lgw_spi_r`
both write `R`, which is `[t, a&0x7F]` in mode MODE1 and `[a&0x7F]`
otherwise. -/
theorem C6_burst_headers (K : Consts) (T : Transport) (fuel : Nat) (tr : List Call)
    (dev : mpsse_context) (m t a d old : Nat) (mem : List Nat) (S : Nat)
    (ht : t < 256) (hd : d < 256) (hC : 1 ≤ K.LGW_BURST_CHUNK) (hS : 1 ≤ S) (hfuel : S ≤ fuel)
    (hstart : (T tr (Call.Start dev)).status = K.MPSSE_OK) :
    ∃ (W R : List Nat) (rw : Int × List Call) (rr : RbRes),
      W = (if (m : Int) = K.LGW_SPI_MUX_MODE1 then [t, 0x80 ||| (a &&& 0x7F)]
        else [0x80 ||| (a &&& 0x7F)]) ∧
      R = (if (m : Int) = K.LGW_SPI_MUX_MODE1 then [t, a &&& 0x7F] else [a &&& 0x7F]) ∧
      lgw_spi_wb K T fuel tr (some dev) m t a (some mem) S = some rw ∧
      lgw_spi_rb K T fuel tr (some dev) m t a (some mem) S = some rr ∧
      (newCalls tr (lgw_spi_w K T tr (some dev) m t a d).2)[1]?
        = some (Call.FastWrite dev (W ++ [d]) ((W.length + 1 : Nat) : Int)) ∧
      (newCalls tr rw.2)[1]? = some (Call.FastWrite dev W ((W.length : Nat) : Int)) ∧
      (W ++ [d]).dropLast = W ∧
      (newCalls tr (lgw_spi_r K T tr (some dev) m t a (some old)).2.1)[1]?
        = some (Call.FastWrite dev R ((R.length : Nat) : Int)) ∧
      (newCalls tr rr.trace)[1]? = some (Call.FastWrite dev R ((R.length : Nat) : Int)) := by
  have hbw : toByte ((WRITE_ACCESS ||| (a &&& 0x7F) : Nat) : Int) = 0x80 ||| (a &&& 0x7F) :=
    toByte_of_lt (access_lt 0x80 a (by norm_num))
  have hbr : toByte ((READ_ACCESS ||| (a &&& 0x7F) : Nat) : Int) = a &&& 0x7F := by
    have := toByte_of_lt (access_lt 0x00 a (by norm_num))
    simpa [READ_ACCESS] using this
  have hrb1 := lgw_spi_rb_eq K T fuel tr dev m t a mem S hC hS hfuel
  have hrb2 := lgw_spi_rb_trace K T fuel tr dev m t a mem S hC hS hfuel
  rw [hrb1] at hrb2
  simp only [Option.map_some', Option.some.injEq, retOf, Prod.mk.injEq] at hrb2
  refine ⟨_, _, _, _, rfl, rfl, lgw_spi_wb_eq K T fuel tr dev m t a mem S hC hS hfuel, hrb1,
    ?_, ?_, by simp, ?_, ?_⟩
  · rw [lgw_spi_w_eq]
    simp only [retOf, w_calls]
    rw [runCalls_second K T tr _ _ _ hstart]
    by_cases hm : (m : Int) = K.LGW_SPI_MUX_MODE1 <;>
      simp [frameCall, w_frame, hm, hbw, toByte_of_lt ht, toByte_of_lt hd]
  · simp only [retOf, wb_calls]
    rw [runCalls_second K T tr _ _ _ hstart]
    by_cases hm : (m : Int) = K.LGW_SPI_MUX_MODE1 <;>
      simp [frameCall, wb_frame, hm, hbw, toByte_of_lt ht]
  · rw [lgw_spi_r_eq]
    simp only [r_calls]
    rw [runCalls_second K T tr _ _ _ hstart]
    by_cases hm : (m : Int) = K.LGW_SPI_MUX_MODE1 <;>
      simp [frameCall, r_frame, hm, hbr, toByte_of_lt ht]
  · rw [hrb2.2]
    simp only [rb_calls]
    rw [runCalls_second K T tr _ _ _ hstart]
    by_cases hm : (m : Int) = K.LGW_SPI_MUX_MODE1 <;>
      simp [frameCall, r_frame, hm, hbr, toByte_of_lt ht]

/-- C6 at concrete inputs: in mode NONE (0) with address 0x20 and data 0xAB,
`lgw_spi_w` writes `[0xA0, 0xAB]` and `lgw_spi_wb` the header `[0xA0]`;
`lgw_spi_r` and `lgw_spi_rb` both write `[0x20]`. -/
theorem C6_burst_headers_witness :
    (0 < 256 ∧ 0xAB < 256 ∧ 1 ≤ stdConsts.LGW_BURST_CHUNK ∧ 1 ≤ 3 ∧ 3 ≤ 5 ∧
      ((mockT 0) [] (Call.Start ctx0)).status = stdConsts.MPSSE_OK) ∧
    ∃ (rw : Int × List Call) (rr : RbRes),
      lgw_spi_wb stdConsts (mockT 0) 5 [] (some ctx0) 0 0 0x20 (some [1, 2, 3]) 3 = some rw ∧
      lgw_spi_rb stdConsts (mockT 0) 5 [] (some ctx0) 0 0 0x20 (some [1, 2, 3]) 3 = some rr ∧
      (lgw_spi_w stdConsts (mockT 0) [] (some ctx0) 0 0 0x20 0xAB).2[1]?
        = some (Call.FastWrite ctx0 [0xA0, 0xAB] 2) ∧
      rw.2[1]? = some (Call.FastWrite ctx0 [0xA0] 1) ∧
      (lgw_spi_r stdConsts (mockT 0) [] (some ctx0) 0 0 0x20 (some 0)).2.1[1]?
        = some (Call.FastWrite ctx0 [0x20] 1) ∧
      rr.trace[1]? = some (Call.FastWrite ctx0 [0x20] 1) := by
  obtain ⟨W, R, rw, rr, hW, hR, h1, h2, h3, h4, _, h5, h6⟩ :=
    C6_burst_headers stdConsts (mockT 0) 5 [] ctx0 0 0 0x20 0xAB 0 [1, 2, 3] 3
      (by decide) (by decide) (by decide) (by decide) (by decide) rfl
  have hW' : W = [0xA0] := by rw [hW]; decide
  have hR' : R = [0x20] := by rw [hR]; decide
  subst hW' hR'
  exact ⟨⟨by decide, by decide, by decide, by decide, by decide, rfl⟩, rw, rr, h1, h2,
    by simpa [newCalls] using h3, by simpa [newCalls] using h4,
    by simpa [newCalls] using h5, by simpa [newCalls] using h6⟩

/-- C7: for every address `a` and both mux modes (target and data in `0..255`,
Start succeeding), the access byte `bw` in the frame `lgw_spi_w` writes and the
access byte `br` in the frame `lgw_spi_r` writes have the low 7 bits of `a`;
bit 7 of `bw` is 1 and bit 7 of `br` is 0, whatever bit 7 of `a` is. -/
theorem C7_access_byte (K : Consts) (T : Transport) (tr : List Call) (dev : mpsse_context)
    (m t a d old : Nat) (ht : t < 256) (hd : d < 256)
    (hstart : (T tr (Call.Start dev)).status = K.MPSSE_OK) :
    ∃ bw br : Nat,
      (newCalls tr (lgw_spi_w K T tr (some dev) m t a d).2)[1]?
        = some (if (m : Int) = K.LGW_SPI_MUX_MODE1 then Call.FastWrite dev [t, bw, d] 3
          else Call.FastWrite dev [bw, d] 2) ∧
      (newCalls tr (lgw_spi_r K T tr (some dev) m t a (some old)).2.1)[1]?
        = some (if (m : Int) = K.LGW_SPI_MUX_MODE1 then Call.FastWrite dev [t, br] 2
          else Call.FastWrite dev [br] 1) ∧
      bw &&& 0x7F = a &&& 0x7F ∧ bw &&& 0x80 = 0x80 ∧
      br &&& 0x7F = a &&& 0x7F ∧ br &&& 0x80 = 0 := by
  have hbw : toByte ((WRITE_ACCESS ||| (a &&& 0x7F) : Nat) : Int) = 0x80 ||| (a &&& 0x7F) :=
    toByte_of_lt (access_lt 0x80 a (by norm_num))
  have hbr : toByte ((READ_ACCESS ||| (a &&& 0x7F) : Nat) : Int) = a &&& 0x7F := by
    have := toByte_of_lt (access_lt 0x00 a (by norm_num))
    simpa [READ_ACCESS] using this
  have hlt : a &&& 0x7F < 128 := by
    have : a &&& 0x7F < 2 ^ 7 := Nat.and_lt_two_pow a (by norm_num)
    simpa using this
  obtain ⟨h1, h2, h3, h4⟩ := access_bits (a &&& 0x7F) hlt
  refine ⟨0x80 ||| (a &&& 0x7F), a &&& 0x7F, ?_, ?_, h1, h2, h4, h3⟩
  · rw [lgw_spi_w_eq]
    simp only [retOf, w_calls]
    rw [runCalls_second K T tr _ _ _ hstart]
    by_cases hm : (m : Int) = K.LGW_SPI_MUX_MODE1 <;>
      simp [frameCall, w_frame, hm, hbw, toByte_of_lt ht, toByte_of_lt hd]
  · rw [lgw_spi_r_eq]
    simp only [r_calls]
    rw [runCalls_second K T tr _ _ _ hstart]
    by_cases hm : (m : Int) = K.LGW_SPI_MUX_MODE1 <;>
      simp [frameCall, r_frame, hm, hbr, toByte_of_lt ht]

/-- C7 at concrete inputs: the address 0x90, whose bit 7 is set, gives the
write access byte 0x90 and the read access byte 0x10. -/
theorem C7_access_byte_witness :
    (1 < 256 ∧ 0xAB < 256 ∧ ((mockT 0) [] (Call.Start ctx0)).status = stdConsts.MPSSE_OK) ∧
    (lgw_spi_w stdConsts (mockT 0) [] (some ctx0) 1 1 0x90 0xAB).2[1]?
      = some (Call.FastWrite ctx0 [1, 0x90, 0xAB] 3) ∧
    (lgw_spi_r stdConsts (mockT 0) [] (some ctx0) 1 1 0x90 (some 0)).2.1[1]?
      = some (Call.FastWrite ctx0 [1, 0x10] 2) ∧
    ∃ bw br : Nat,
      (lgw_spi_w stdConsts (mockT 0) [] (some ctx0) 1 1 0x90 0xAB).2[1]?
        = some (Call.FastWrite ctx0 [1, bw, 0xAB] 3) ∧
      (lgw_spi_r stdConsts (mockT 0) [] (some ctx0) 1 1 0x90 (some 0)).2.1[1]?
        = some (Call.FastWrite ctx0 [1, br] 2) ∧
      bw &&& 0x7F = 0x90 &&& 0x7F ∧ bw &&& 0x80 = 0x80 ∧
      br &&& 0x7F = 0x90 &&& 0x7F ∧ br &&& 0x80 = 0 := by
  obtain ⟨bw, br, h1, h2, h3⟩ :=
    C7_access_byte stdConsts (mockT 0) [] ctx0 1 1 0x90 0xAB 0 (by decide) (by decide) rfl
  exact ⟨⟨by decide, by decide, rfl⟩, by decide, by decide, bw, br,
    by simpa [newCalls, stdConsts] using h1, by simpa [newCalls, stdConsts] using h2, h3⟩

/-- C8: a transport failure before Stop aborts the call.  For each of
`lgw_spi_w`, `lgw_spi_r`, `lgw_spi_wb` and `lgw_spi_rb` (bursts with `S >= 1`
and chunk limit `C >= 1`), number the calls the operation makes when nothing
fails: 0 is Start, 1 the frame or header write, then the read or the chunk
transfers, and last Stop.  If call `i`, one before Stop, is the first to fail,
the operation returns `LGW_SPI_ERROR`, the calls it made are exactly calls
`0..i`, so the failing call is the last one, and no Stop is among them. -/
theorem C8_failure_aborts (K : Consts) (T : Transport) (tr : List Call)
    (dev : mpsse_context) (m t a : Nat) (hC : 1 ≤ K.LGW_BURST_CHUNK) :
    (∀ d i, i + 1 < (w_ideal K dev m t a d).length →
      FirstFail K T tr (w_ideal K dev m t a d) i →
      lgw_spi_w K T tr (some dev) m t a d
        = (K.LGW_SPI_ERROR, tr ++ (w_ideal K dev m t a d).take (i + 1)) ∧
      ∀ x, Call.Stop x ∉ (w_ideal K dev m t a d).take (i + 1)) ∧
    (∀ old i, i + 1 < (r_ideal K dev m t a).length →
      FirstFail K T tr (r_ideal K dev m t a) i →
      lgw_spi_r K T tr (some dev) m t a (some old)
        = (K.LGW_SPI_ERROR, tr ++ (r_ideal K dev m t a).take (i + 1), some old) ∧
      ∀ x, Call.Stop x ∉ (r_ideal K dev m t a).take (i + 1)) ∧
    (∀ fuel mem S i, 1 ≤ S → S ≤ fuel → i + 1 < (wb_ideal K fuel dev m t a mem S).length →
      FirstFail K T tr (wb_ideal K fuel dev m t a mem S) i →
      lgw_spi_wb K T fuel tr (some dev) m t a (some mem) S
        = some (K.LGW_SPI_ERROR, tr ++ (wb_ideal K fuel dev m t a mem S).take (i + 1)) ∧
      ∀ x, Call.Stop x ∉ (wb_ideal K fuel dev m t a mem S).take (i + 1)) ∧
    (∀ fuel mem S i, 1 ≤ S → S ≤ fuel → i + 1 < (rb_ideal K fuel dev m t a mem S).length →
      FirstFail K T tr (rb_ideal K fuel dev m t a mem S) i →
      (∃ mem' st, lgw_spi_rb K T fuel tr (some dev) m t a (some mem) S
        = some ⟨K.LGW_SPI_ERROR, tr ++ (rb_ideal K fuel dev m t a mem S).take (i + 1),
            some mem', st⟩) ∧
      ∀ x, Call.Stop x ∉ (rb_ideal K fuel dev m t a mem S).take (i + 1)) := by
  refine ⟨?_, ?_, ?_, ?_⟩
  · intro d i hi hff
    rw [w_ideal_eq] at hi hff ⊢
    refine ⟨?_, w_calls_no_stop K dev m t a d i hi⟩
    rw [lgw_spi_w_eq, runCalls_firstFail K T tr _ i hff]
    simp [retOf]
  · intro old i hi hff
    rw [r_ideal_eq] at hi hff ⊢
    refine ⟨?_, r_calls_no_stop K dev m t a i hi⟩
    rw [lgw_spi_r_eq, runCalls_firstFail K T tr _ i hff]
    simp [retOf]
  · intro fuel mem S i hS hfuel hi hff
    rw [wb_ideal_eq K fuel dev m t a mem S hC hS hfuel] at hi hff ⊢
    refine ⟨?_, wb_calls_no_stop K dev m t a mem S i hi⟩
    rw [lgw_spi_wb_eq K T fuel tr dev m t a mem S hC hS hfuel,
      runCalls_firstFail K T tr _ i hff]
    simp [retOf]
  · intro fuel mem S i hS hfuel hi hff
    rw [rb_ideal_eq K fuel dev m t a mem S hC hS hfuel] at hi hff ⊢
    refine ⟨?_, rb_calls_no_stop K dev m t a S i hi⟩
    have h1 := lgw_spi_rb_eq K T fuel tr dev m t a mem S hC hS hfuel
    have h2 := lgw_spi_rb_trace K T fuel tr dev m t a mem S hC hS hfuel
    rw [h1, runCalls_firstFail K T tr _ i hff] at h2
    simp only [Option.map_some', Option.some.injEq, retOf, Prod.mk.injEq] at h2
    have hdata : ∃ mem', (rb_run K T tr dev m t a mem S).data = some mem' := by
      unfold rb_run
      simp only []
      split
      · exact ⟨_, rfl⟩
      · split
        · exact ⟨_, rfl⟩
        · split
          · split <;> exact ⟨_, rfl⟩
          · exact ⟨_, rfl⟩
    obtain ⟨mem', hmem'⟩ := hdata
    refine ⟨mem', (rb_run K T tr dev m t a mem S).stores, ?_⟩
    rw [h1]
    congr 1
    generalize rb_run K T tr dev m t a mem S = r at h2 hmem'
    obtain ⟨ret, trace, data, stores⟩ := r
    simp only [Bool.false_eq_true, if_false] at h2 hmem'
    simp [h2.1, h2.2, hmem']

/-- C8 at concrete inputs: a single write whose frame write fails, a single
read whose read fails, a burst write of 3 bytes in chunks of 2 whose second
chunk fails, and a burst read whose first chunk fails; each returns -1 with the
failing call last and no Stop. -/
theorem C8_failure_aborts_witness :
    (1 ≤ stdConsts.LGW_BURST_CHUNK ∧ 1 ≤ consts2.LGW_BURST_CHUNK ∧
      FirstFail stdConsts (failAt 1) [] (w_ideal stdConsts ctx0 0 0 0x10 0xAB) 1 ∧
      FirstFail stdConsts (failAt 2) [] (r_ideal stdConsts ctx0 0 0 0x10) 2 ∧
      FirstFail consts2 (failAt 3) [] (wb_ideal consts2 3 ctx0 0 0 0x20 [10, 20, 30] 3) 3 ∧
      FirstFail consts2 (failAt 2) [] (rb_ideal consts2 3 ctx0 0 0 0x20 [0, 0, 0] 3) 2) ∧
    lgw_spi_w stdConsts (failAt 1) [] (some ctx0) 0 0 0x10 0xAB
      = (-1, [Call.Start ctx0, Call.FastWrite ctx0 [0x90, 0xAB] 2]) ∧
    lgw_spi_r stdConsts (failAt 2) [] (some ctx0) 0 0 0x10 (some 7)
      = (-1, [Call.Start ctx0, Call.FastWrite ctx0 [0x10] 1, Call.FastRead ctx0 1], some 7) ∧
    lgw_spi_wb consts2 (failAt 3) 3 [] (some ctx0) 0 0 0x20 (some [10, 20, 30]) 3
      = some (-1, [Call.Start ctx0, Call.FastWrite ctx0 [0xA0] 1,
          Call.FastWrite ctx0 [10, 20] 2, Call.FastWrite ctx0 [30] 1]) ∧
    (∃ mem' st, lgw_spi_rb consts2 (failAt 2) 3 [] (some ctx0) 0 0 0x20 (some [0, 0, 0]) 3
      = some ⟨-1, [Call.Start ctx0, Call.FastWrite ctx0 [0x20] 1, Call.FastRead ctx0 2],
          some mem', st⟩) :=
  ⟨⟨by decide, by decide,
      firstFail_failAt stdConsts rfl _ 1 (by decide),
      firstFail_failAt stdConsts rfl _ 2 (by decide),
      firstFail_failAt consts2 rfl _ 3 (by decide),
      firstFail_failAt consts2 rfl _ 2 (by decide)⟩,
    ((C8_failure_aborts stdConsts (failAt 1) [] ctx0 0 0 0x10 (by decide)).1 0xAB 1
      (by decide) (firstFail_failAt stdConsts rfl _ 1 (by decide))).1,
    ((C8_failure_aborts stdConsts (failAt 2) [] ctx0 0 0 0x10 (by decide)).2.1 7 2
      (by decide) (firstFail_failAt stdConsts rfl _ 2 (by decide))).1,
    ((C8_failure_aborts consts2 (failAt 3) [] ctx0 0 0 0x20 (by decide)).2.2.1 3 [10, 20, 30] 3 3
      (by decide) (by decide) (by decide) (firstFail_failAt consts2 rfl _ 3 (by decide))).1,
    ((C8_failure_aborts consts2 (failAt 2) [] ctx0 0 0 0x20 (by decide)).2.2.2 3 [0, 0, 0] 3 2
      (by decide) (by decide) (by decide) (firstFail_failAt consts2 rfl _ 2 (by decide))).1⟩

/-- C9: for a non-null handle, a non-null buffer and every mux mode, mux
target and address, `lgw_spi_wb` and `lgw_spi_rb` called with size 0 return
`LGW_SPI_ERROR` without any call to the transport (the trace is as before) and
with the buffer as it was (no store). -/
theorem C9_zero_length_burst (K : Consts) (T : Transport) (fuel : Nat) (tr : List Call)
    (dev : mpsse_context) (m t a : Nat) (mem : List Nat) :
    lgw_spi_wb K T fuel tr (some dev) m t a (some mem) 0 = some (K.LGW_SPI_ERROR, tr) ∧
    lgw_spi_rb K T fuel tr (some dev) m t a (some mem) 0
      = some ⟨K.LGW_SPI_ERROR, tr, some mem, []⟩ := by
  constructor
  · simp [lgw_spi_wb]
  · simp [lgw_spi_rb]

/-- C10: every operation given a null required pointer returns `LGW_SPI_ERROR`
with no call to the transport and nothing changed, whatever its other
arguments: `lgw_spi_close`, `lgw_spi_w`, `lgw_spi_r`, `lgw_spi_wb`, `lgw_spi_rb`
with a null handle, `lgw_spi_open` with a null slot pointer (no `MPSSE` call),
`lgw_spi_r` with a null output pointer, and `lgw_spi_wb`, `lgw_spi_rb` with a
null buffer. -/
theorem C10_null_pointers (K : Consts) (T : Transport) (fuel : Nat) (tr : List Call) :
    lgw_spi_close K tr none = (K.LGW_SPI_ERROR, tr) ∧
    (∀ m t a d, lgw_spi_w K T tr none m t a d = (K.LGW_SPI_ERROR, tr)) ∧
    (∀ m t a data, lgw_spi_r K T tr none m t a data = (K.LGW_SPI_ERROR, tr, data)) ∧
    (∀ m t a data S, lgw_spi_wb K T fuel tr none m t a data S = some (K.LGW_SPI_ERROR, tr)) ∧
    (∀ m t a data S,
      lgw_spi_rb K T fuel tr none m t a data S = some ⟨K.LGW_SPI_ERROR, tr, data, []⟩) ∧
    lgw_spi_open K T tr none = (K.LGW_SPI_ERROR, tr, none) ∧
    (∀ h m t a, lgw_spi_r K T tr h m t a none = (K.LGW_SPI_ERROR, tr, none)) ∧
    (∀ h m t a S, lgw_spi_wb K T fuel tr h m t a none S = some (K.LGW_SPI_ERROR, tr)) ∧
    (∀ h m t a S,
      lgw_spi_rb K T fuel tr h m t a none S = some ⟨K.LGW_SPI_ERROR, tr, none, []⟩) := by
  refine ⟨rfl, fun _ _ _ _ => rfl, fun _ _ _ _ => rfl, fun _ _ _ _ _ => rfl,
    fun _ _ _ _ _ => rfl, rfl, ?_, ?_, ?_⟩
  · intro h m t a
    cases h <;> rfl
  · intro h m t a S
    cases h <;> rfl
  · intro h m t a S
    cases h <;> rfl

/-- C11: every call of `lgw_spi_w`, `lgw_spi_r`, `lgw_spi_wb` or `lgw_spi_rb`
that returns `LGW_SPI_SUCCESS` (a status other than `LGW_SPI_ERROR`) makes
exactly one Start...Stop bracket: the calls it adds are Start, then only
transfers, then Stop, with no Start or Stop among the transfers.  The
transfers are the frame write for `lgw_spi_w`, the frame write and the read
for `lgw_spi_r`, and the header write and all the chunk transfers for a burst
(size `S >= 1`, chunk limit `C >= 1`). -/
theorem C11_single_bracket (K : Consts) (T : Transport) (tr : List Call)
    (h : Option mpsse_context) (m t a : Nat)
    (hne : K.LGW_SPI_SUCCESS ≠ K.LGW_SPI_ERROR) (hC : 1 ≤ K.LGW_BURST_CHUNK) :
    (∀ d tr', lgw_spi_w K T tr h m t a d = (K.LGW_SPI_SUCCESS, tr') →
      ∃ dev mid, h = some dev ∧ tr' = tr ++ Call.Start dev :: mid ++ [Call.Stop dev] ∧
        mid.length = 1 ∧ (∀ c ∈ mid, isTransfer c = true) ∧
        ∀ x, Call.Start x ∉ mid ∧ Call.Stop x ∉ mid) ∧
    (∀ data tr' out, lgw_spi_r K T tr h m t a data = (K.LGW_SPI_SUCCESS, tr', out) →
      ∃ dev mid, h = some dev ∧ tr' = tr ++ Call.Start dev :: mid ++ [Call.Stop dev] ∧
        mid.length = 2 ∧ (∀ c ∈ mid, isTransfer c = true) ∧
        ∀ x, Call.Start x ∉ mid ∧ Call.Stop x ∉ mid) ∧
    (∀ fuel data S tr', S ≤ fuel →
      lgw_spi_wb K T fuel tr h m t a data S = some (K.LGW_SPI_SUCCESS, tr') →
      ∃ dev mid, h = some dev ∧ tr' = tr ++ Call.Start dev :: mid ++ [Call.Stop dev] ∧
        1 ≤ S ∧ mid.length = 1 + nchunks K.LGW_BURST_CHUNK S ∧
        (∀ c ∈ mid, isTransfer c = true) ∧
        ∀ x, Call.Start x ∉ mid ∧ Call.Stop x ∉ mid) ∧
    (∀ fuel data S r, S ≤ fuel →
      lgw_spi_rb K T fuel tr h m t a data S = some r → r.ret = K.LGW_SPI_SUCCESS →
      ∃ dev mid, h = some dev ∧ r.trace = tr ++ Call.Start dev :: mid ++ [Call.Stop dev] ∧
        1 ≤ S ∧ mid.length = 1 + nchunks K.LGW_BURST_CHUNK S ∧
        (∀ c ∈ mid, isTransfer c = true) ∧
        ∀ x, Call.Start x ∉ mid ∧ Call.Stop x ∉ mid) := by
  have hne' : K.LGW_SPI_ERROR ≠ K.LGW_SPI_SUCCESS := Ne.symm hne
  refine ⟨?_, ?_, ?_, ?_⟩
  · intro d tr' hres
    cases h with
    | none => exact absurd (congrArg Prod.fst hres) hne'
    | some dev =>
      rw [lgw_spi_w_eq] at hres
      have htrue := retOf_success K hne _ (congrArg Prod.fst hres)
      have htr := runCalls_true K T _ tr htrue
      have h2 : (runCalls K T tr (w_calls K dev m t a d)).2 = tr' := congrArg Prod.snd hres
      have hmid : ∀ c ∈ [frameCall dev (w_frame K m t a d)], isTransfer c = true := by
        simp [frameCall, isTransfer]
      refine ⟨dev, [frameCall dev (w_frame K m t a d)], rfl, ?_, rfl, hmid,
        isTransfer_not_bracket _ hmid⟩
      rw [← h2, htr]
      simp [w_calls]
  · intro data tr' out hres
    cases h with
    | none => exact absurd (congrArg Prod.fst hres) hne'
    | some dev =>
      cases data with
      | none => exact absurd (congrArg Prod.fst hres) hne'
      | some old =>
        rw [lgw_spi_r_eq] at hres
        have htrue := retOf_success K hne _ (congrArg Prod.fst hres)
        have htr := runCalls_true K T _ tr htrue
        have h2 : (runCalls K T tr (r_calls K dev m t a)).2 = tr' :=
          congrArg (fun x => x.2.1) hres
        have hmid : ∀ c ∈ [frameCall dev (r_frame K m t a), Call.FastRead dev 1],
            isTransfer c = true := by
          simp [frameCall, isTransfer]
        refine ⟨dev, [frameCall dev (r_frame K m t a), Call.FastRead dev 1], rfl, ?_, rfl,
          hmid, isTransfer_not_bracket _ hmid⟩
        rw [← h2, htr]
        simp [r_calls]
  · intro fuel data S tr' hfuel hres
    cases h with
    | none => exact absurd (congrArg Prod.fst (Option.some.inj hres)) hne'
    | some dev =>
      cases data with
      | none => exact absurd (congrArg Prod.fst (Option.some.inj hres)) hne'
      | some mem =>
        by_cases hS0 : S = 0
        · subst hS0
          simp only [lgw_spi_wb, if_true] at hres
          exact absurd (congrArg Prod.fst (Option.some.inj hres)) hne'
        · have hS : 1 ≤ S := by omega
          rw [lgw_spi_wb_eq K T fuel tr dev m t a mem S hC hS hfuel] at hres
          have hres' := Option.some.inj hres
          have htrue := retOf_success K hne _ (congrArg Prod.fst hres')
          have htr := runCalls_true K T _ tr htrue
          have h2 : (runCalls K T tr (wb_calls K dev m t a mem S)).2 = tr' :=
            congrArg Prod.snd hres'
          have hmid : ∀ c ∈ frameCall dev (wb_frame K m t a) ::
              (List.range (nchunks K.LGW_BURST_CHUNK S)).map
                (wbChunk K.LGW_BURST_CHUNK dev mem S), isTransfer c = true := by
            intro c hc
            simp only [List.mem_cons, List.mem_map] at hc
            rcases hc with rfl | ⟨k, _, rfl⟩
            · rfl
            · rfl
          refine ⟨dev, _, rfl, ?_, hS, ?_, hmid, isTransfer_not_bracket _ hmid⟩
          · rw [← h2, htr]
            simp [wb_calls]
          · simp
            omega
  · intro fuel data S r hfuel hres hret
    cases h with
    | none =>
      simp only [lgw_spi_rb, Option.some.injEq] at hres
      rw [← hres] at hret
      exact absurd hret hne'
    | some dev =>
      cases data with
      | none =>
        simp only [lgw_spi_rb, Option.some.injEq] at hres
        rw [← hres] at hret
        exact absurd hret hne'
      | some mem =>
        by_cases hS0 : S = 0
        · subst hS0
          simp only [lgw_spi_rb, if_true, Option.some.injEq] at hres
          rw [← hres] at hret
          exact absurd hret hne'
        · have hS : 1 ≤ S := by omega
          have h1 := lgw_spi_rb_eq K T fuel tr dev m t a mem S hC hS hfuel
          have h2 := lgw_spi_rb_trace K T fuel tr dev m t a mem S hC hS hfuel
          rw [hres] at h2
          simp only [Option.map_some', Option.some.injEq] at h2
          have htrue := retOf_success K hne _ ((congrArg Prod.fst h2).symm.trans hret)
          have htr := runCalls_true K T _ tr htrue
          have h3 : r.trace = (runCalls K T tr (rb_calls K dev m t a S)).2 :=
            congrArg Prod.snd h2
          have hmid : ∀ c ∈ frameCall dev (r_frame K m t a) ::
              (List.range (nchunks K.LGW_BURST_CHUNK S)).map
                (rbChunk K.LGW_BURST_CHUNK dev S), isTransfer c = true := by
            intro c hc
            simp only [List.mem_cons, List.mem_map] at hc
            rcases hc with rfl | ⟨k, _, rfl⟩
            · rfl
            · rfl
          refine ⟨dev, _, rfl, ?_, hS, ?_, hmid, isTransfer_not_bracket _ hmid⟩
          · rw [h3, htr]
            simp [rb_calls]
          · simp
            omega

/-- C11 at concrete inputs: a successful single write, single read, burst write
and burst read of 3 bytes in chunks of 2 each add Start, transfers only, and
Stop. -/
theorem C11_single_bracket_witness :
    (stdConsts.LGW_SPI_SUCCESS ≠ stdConsts.LGW_SPI_ERROR ∧
      consts2.LGW_SPI_SUCCESS ≠ consts2.LGW_SPI_ERROR ∧
      1 ≤ stdConsts.LGW_BURST_CHUNK ∧ 1 ≤ consts2.LGW_BURST_CHUNK ∧ 3 ≤ 3) ∧
    (lgw_spi_w stdConsts (mockT 0) [] (some ctx0) 0 0 0x10 0xAB
        = (0, [Call.Start ctx0, Call.FastWrite ctx0 [0x90, 0xAB] 2, Call.Stop ctx0]) ∧
      ∃ dev mid, [Call.Start ctx0, Call.FastWrite ctx0 [0x90, 0xAB] 2, Call.Stop ctx0]
          = Call.Start dev :: mid ++ [Call.Stop dev] ∧
        mid.length = 1 ∧ ∀ c ∈ mid, isTransfer c = true) ∧
    (lgw_spi_r stdConsts (mockT 9) [] (some ctx0) 0 0 0x10 (some 0)
        = (0, [Call.Start ctx0, Call.FastWrite ctx0 [0x10] 1, Call.FastRead ctx0 1,
            Call.Stop ctx0], some 9) ∧
      ∃ dev mid, [Call.Start ctx0, Call.FastWrite ctx0 [0x10] 1, Call.FastRead ctx0 1,
            Call.Stop ctx0] = Call.Start dev :: mid ++ [Call.Stop dev] ∧
        mid.length = 2 ∧ ∀ c ∈ mid, isTransfer c = true) ∧
    (lgw_spi_wb consts2 (mockT 0) 3 [] (some ctx0) 0 0 0x20 (some [10, 20, 30]) 3
        = some (0, [Call.Start ctx0, Call.FastWrite ctx0 [0xA0] 1,
            Call.FastWrite ctx0 [10, 20] 2, Call.FastWrite ctx0 [30] 1, Call.Stop ctx0]) ∧
      ∃ dev mid, [Call.Start ctx0, Call.FastWrite ctx0 [0xA0] 1,
            Call.FastWrite ctx0 [10, 20] 2, Call.FastWrite ctx0 [30] 1, Call.Stop ctx0]
          = Call.Start dev :: mid ++ [Call.Stop dev] ∧
        mid.length = 1 + nchunks 2 3 ∧ ∀ c ∈ mid, isTransfer c = true) ∧
    (lgw_spi_rb consts2 (mockT 9) 3 [] (some ctx0) 0 0 0x20 (some [0, 0, 0]) 3
        = some ⟨0, [Call.Start ctx0, Call.FastWrite ctx0 [0x20] 1, Call.FastRead ctx0 2,
            Call.FastRead ctx0 1, Call.Stop ctx0], some [9, 9, 9], [(0, [9, 9]), (2, [9])]⟩ ∧
      ∃ dev mid, [Call.Start ctx0, Call.FastWrite ctx0 [0x20] 1, Call.FastRead ctx0 2,
            Call.FastRead ctx0 1, Call.Stop ctx0] = Call.Start dev :: mid ++ [Call.Stop dev] ∧
        mid.length = 1 + nchunks 2 3 ∧ ∀ c ∈ mid, isTransfer c = true) := by
  refine ⟨⟨by decide, by decide, by decide, by decide, le_refl _⟩, ⟨rfl, ?_⟩, ⟨rfl, ?_⟩,
    ⟨rfl, ?_⟩, ⟨rfl, ?_⟩⟩
  · obtain ⟨dev, mid, _, h2, h3, h4, _⟩ :=
      (C11_single_bracket stdConsts (mockT 0) [] (some ctx0) 0 0 0x10 (by decide)
        (by decide)).1 0xAB
        [Call.Start ctx0, Call.FastWrite ctx0 [0x90, 0xAB] 2, Call.Stop ctx0] rfl
    exact ⟨dev, mid, h2, h3, h4⟩
  · obtain ⟨dev, mid, _, h2, h3, h4, _⟩ :=
      (C11_single_bracket stdConsts (mockT 9) [] (some ctx0) 0 0 0x10 (by decide)
        (by decide)).2.1 (some 0)
        [Call.Start ctx0, Call.FastWrite ctx0 [0x10] 1, Call.FastRead ctx0 1, Call.Stop ctx0]
        (some 9) rfl
    exact ⟨dev, mid, h2, h3, h4⟩
  · obtain ⟨dev, mid, _, h2, _, h3, h4, _⟩ :=
      (C11_single_bracket consts2 (mockT 0) [] (some ctx0) 0 0 0x20 (by decide)
        (by decide)).2.2.1 3 (some [10, 20, 30]) 3
        [Call.Start ctx0, Call.FastWrite ctx0 [0xA0] 1, Call.FastWrite ctx0 [10, 20] 2,
          Call.FastWrite ctx0 [30] 1, Call.Stop ctx0] (le_refl _) rfl
    exact ⟨dev, mid, h2, h3, h4⟩
  · obtain ⟨dev, mid, _, h2, _, h3, h4, _⟩ :=
      (C11_single_bracket consts2 (mockT 9) [] (some ctx0) 0 0 0x20 (by decide)
        (by decide)).2.2.2 3 (some [0, 0, 0]) 3
        ⟨0, [Call.Start ctx0, Call.FastWrite ctx0 [0x20] 1, Call.FastRead ctx0 2,
          Call.FastRead ctx0 1, Call.Stop ctx0], some [9, 9, 9], [(0, [9, 9]), (2, [9])]⟩
        (le_refl _) rfl rfl
    exact ⟨dev, mid, h2, h3, h4⟩

/-- C12: `lgw_spi_r` leaves the byte behind `data` as it was whenever it fails.
With a null handle nothing changes.  With a handle, its calls when nothing
fails are Start, the frame write, the read of 1 byte and Stop; whichever of
the four is the first to fail, the call returns `LGW_SPI_ERROR` and the byte
keeps its value `old`.  In general the byte differs after the call only when
the status is `LGW_SPI_SUCCESS`. -/
theorem C12_r_keeps_data_on_failure (K : Consts) (T : Transport) (tr : List Call)
    (m t a : Nat) :
    (∀ data, lgw_spi_r K T tr none m t a data = (K.LGW_SPI_ERROR, tr, data)) ∧
    (∀ dev, ∃ f n, r_ideal K dev m t a
      = [Call.Start dev, Call.FastWrite dev f n, Call.FastRead dev 1, Call.Stop dev]) ∧
    (∀ dev old i, FirstFail K T tr (r_ideal K dev m t a) i →
      lgw_spi_r K T tr (some dev) m t a (some old)
        = (K.LGW_SPI_ERROR, tr ++ (r_ideal K dev m t a).take (i + 1), some old)) ∧
    (∀ h data, (lgw_spi_r K T tr h m t a data).1 ≠ K.LGW_SPI_SUCCESS →
      (lgw_spi_r K T tr h m t a data).2.2 = data) := by
  refine ⟨fun _ => rfl, ?_, ?_, ?_⟩
  · intro dev
    rw [r_ideal_eq]
    exact ⟨_, _, rfl⟩
  · intro dev old i hff
    rw [r_ideal_eq] at hff ⊢
    rw [lgw_spi_r_eq, runCalls_firstFail K T tr _ i hff]
    simp [retOf]
  · intro h data hst
    cases h with
    | none => rfl
    | some dev =>
      cases data with
      | none => rfl
      | some old =>
        rw [lgw_spi_r_eq] at hst ⊢
        cases hrun : (runCalls K T tr (r_calls K dev m t a)).1
        · simp
        · simp [retOf, hrun] at hst

/-- C12 at concrete inputs: the read delivers 0 but Stop fails, so the call
returns -1 and the byte keeps its value 7; the same when Start fails. -/
theorem C12_r_keeps_data_on_failure_witness :
    (FirstFail stdConsts (failAt 3) [] (r_ideal stdConsts ctx0 0 0 0x10) 3 ∧
      (lgw_spi_r stdConsts (failAt 0) [] (some ctx0) 0 0 0x10 (some 7)).1
        ≠ stdConsts.LGW_SPI_SUCCESS) ∧
    lgw_spi_r stdConsts (failAt 3) [] (some ctx0) 0 0 0x10 (some 7)
      = (-1, [Call.Start ctx0, Call.FastWrite ctx0 [0x10] 1, Call.FastRead ctx0 1,
          Call.Stop ctx0], some 7) ∧
    (lgw_spi_r stdConsts (failAt 0) [] (some ctx0) 0 0 0x10 (some 7)).2.2 = some 7 :=
  ⟨⟨firstFail_failAt stdConsts rfl _ 3 (by decide), by decide⟩,
    (C12_r_keeps_data_on_failure stdConsts (failAt 3) [] 0 0 0x10).2.2.1 ctx0 7 3
      (firstFail_failAt stdConsts rfl _ 3 (by decide)),
    (C12_r_keeps_data_on_failure stdConsts (failAt 0) [] 0 0 0x10).2.2.2 (some ctx0) (some 7)
      (by decide)⟩

/-- C13: a failure inside the loop of `lgw_spi_rb` keeps the chunks read before
it.  For a size `S >= 1`, a buffer `mem` of at least `S` bytes, chunk limit
`C >= 1` and `k` less than `S / C` rounded up: if Start, the header write and
the chunk reads `0 .. k-1` succeed and chunk read `k` (call `k + 2` of the
operation) is the first call to fail, the operation returns `LGW_SPI_ERROR`
after Start, the header write and `k + 1` chunk reads; the `k` successful
reads delivered `C` bytes each, `mem'[0 .. k*C)` holds them in order, and the
bytes from index `min((k+1)*C, S)` on are as before the call. -/
theorem C13_rb_partial_fill (K : Consts) (T : Transport) (fuel : Nat) (tr : List Call)
    (dev : mpsse_context) (m t a : Nat) (mem : List Nat) (S k : Nat)
    (hC : 1 ≤ K.LGW_BURST_CHUNK) (hS : 1 ≤ S) (hlen : S ≤ mem.length) (hfuel : S ≤ fuel)
    (hk : k < nchunks K.LGW_BURST_CHUNK S)
    (hff : FirstFail K T tr (rb_ideal K fuel dev m t a mem S) (k + 2)) :
    ∃ (hdr : Call) (mem' : List Nat) (st : List (Nat × List Nat)),
      lgw_spi_rb K T fuel tr (some dev) m t a (some mem) S =
        some ⟨K.LGW_SPI_ERROR,
          tr ++ [Call.Start dev, hdr]
            ++ (List.range (k + 1)).map
                (fun j => Call.FastRead dev
                  ((min (S - j * K.LGW_BURST_CHUNK) K.LGW_BURST_CHUNK : Nat) : Int)),
          some mem', st⟩ ∧
      mem'.length = mem.length ∧
      (∀ j, j < k →
        (rbBytes K T dev S (tr ++ [Call.Start dev, hdr]) j).length = K.LGW_BURST_CHUNK) ∧
      mem'.take (k * K.LGW_BURST_CHUNK)
        = ((List.range k).map (rbBytes K T dev S (tr ++ [Call.Start dev, hdr]))).flatten ∧
      mem'.drop (min ((k + 1) * K.LGW_BURST_CHUNK) S)
        = mem.drop (min ((k + 1) * K.LGW_BURST_CHUNK) S) := by
  rw [rb_ideal_eq K fuel dev m t a mem S hC hS hfuel] at hff
  obtain ⟨hrun, hreads⟩ := rb_run_failAt K T tr dev m t a mem S k hk hff
  have hklt : k * K.LGW_BURST_CHUNK < S := (lt_nchunks_iff hC S k).mp hk
  have hB : ∀ j, j < k →
      (rbBytes K T dev S (tr ++ [Call.Start dev, frameCall dev (r_frame K m t a)]) j).length
        = K.LGW_BURST_CHUNK := by
    intro j hj
    rw [rbBytes_length_of_ok K T dev S _ j (hreads j hj)]
    have h1 : (j + 1) * K.LGW_BURST_CHUNK ≤ k * K.LGW_BURST_CHUNK :=
      Nat.mul_le_mul_right _ (by omega)
    rw [Nat.add_mul, Nat.one_mul] at h1
    unfold chunkLen
    omega
  obtain ⟨hm1, hm2, hm3⟩ := partial_stores S k mem
    (rbBytes K T dev S (tr ++ [Call.Start dev, frameCall dev (r_frame K m t a)]))
    hklt hlen hB (rbBytes_length_le K T dev S _ k)
  refine ⟨frameCall dev (r_frame K m t a), _,
    (List.range' 0 k).map (fun j => (j * K.LGW_BURST_CHUNK,
        rbBytes K T dev S (tr ++ [Call.Start dev, frameCall dev (r_frame K m t a)]) j))
      ++ [(k * K.LGW_BURST_CHUNK,
        rbBytes K T dev S (tr ++ [Call.Start dev, frameCall dev (r_frame K m t a)]) k)],
    ?_, hm1, hB, hm2, hm3⟩
  rw [lgw_spi_rb_eq K T fuel tr dev m t a mem S hC hS hfuel, hrun]
  have hmap : (List.range (k + 1)).map (rbChunk K.LGW_BURST_CHUNK dev S)
      = (List.range (k + 1)).map
        (fun j => Call.FastRead dev
          ((min (S - j * K.LGW_BURST_CHUNK) K.LGW_BURST_CHUNK : Nat) : Int)) := by
    apply List.map_congr_left
    intro j _
    unfold rbChunk chunkLen
    rw [Nat.min_comm]
  rw [hmap]

/-- C13 at concrete inputs: 5 bytes in chunks of 2 into a 6-byte buffer; the
first chunk read delivers `[20, 21]`, the second fails after storing one byte.
The call returns -1, the buffer starts with `[20, 21]` and its bytes from index
4 on are still `[0, 99]`. -/
theorem C13_rb_partial_fill_witness :
    (1 ≤ consts2.LGW_BURST_CHUNK ∧ 1 ≤ 5 ∧ 5 ≤ [0, 0, 0, 0, 0, 99].length ∧ 5 ≤ 5 ∧
      1 < nchunks consts2.LGW_BURST_CHUNK 5 ∧
      FirstFail consts2 (seqFailT 3) []
        (rb_ideal consts2 5 ctx0 0 0 0x20 [0, 0, 0, 0, 0, 99] 5) (1 + 2)) ∧
    ∃ (hdr : Call) (mem' : List Nat) (st : List (Nat × List Nat)),
      lgw_spi_rb consts2 (seqFailT 3) 5 [] (some ctx0) 0 0 0x20 (some [0, 0, 0, 0, 0, 99]) 5 =
        some ⟨-1, [Call.Start ctx0, hdr, Call.FastRead ctx0 2, Call.FastRead ctx0 2],
          some mem', st⟩ ∧
      mem'.take 2 = [20, 21] ∧ mem'.drop 4 = [0, 99] := by
  obtain ⟨hdr, mem', st, h, _, _, htake, hdrop⟩ :=
    C13_rb_partial_fill consts2 (seqFailT 3) 5 [] ctx0 0 0 0x20 [0, 0, 0, 0, 0, 99] 5 1
      (by decide) (by decide) (by decide) (le_refl _) (by decide)
      (firstFail_seqFailT consts2 rfl _ 3 (by decide))
  refine ⟨⟨by decide, by decide, by decide, le_refl _, by decide,
    firstFail_seqFailT consts2 rfl _ 3 (by decide)⟩, hdr, mem', st, ?_, ?_, ?_⟩
  · rw [h]; rfl
  · have : mem'.take 2 = mem'.take (1 * consts2.LGW_BURST_CHUNK) := rfl
    rw [this, htake]; rfl
  · have : mem'.drop 4 = mem'.drop (min ((1 + 1) * consts2.LGW_BURST_CHUNK) 5) := rfl
    rw [this, hdrop]; rfl

/-- C14, as stated, fails: a burst write of size 0 and a burst write whose
Start fails return the same status, and so do a burst read of size 0 and a
burst read whose first chunk read fails. -/
theorem C14_counterexample :
    ¬ ((lgw_spi_wb stdConsts (failAt 0) 3 [] (some ctx0) 0 0 0x20 (some [1, 2, 3]) 0).map Prod.fst
        ≠ (lgw_spi_wb stdConsts (failAt 0) 3 [] (some ctx0) 0 0 0x20 (some [1, 2, 3]) 3).map
            Prod.fst) ∧
    ¬ ((lgw_spi_rb stdConsts (failAt 2) 3 [] (some ctx0) 0 0 0x20 (some [1, 2, 3]) 0).map
          RbRes.ret
        ≠ (lgw_spi_rb stdConsts (failAt 2) 3 [] (some ctx0) 0 0 0x20 (some [1, 2, 3]) 3).map
            RbRes.ret) := by
  decide

/-- C14, amended: for `lgw_spi_wb` and `lgw_spi_rb`, size 0 is a failure found
before any call to the transport, and it returns the same status
`LGW_SPI_ERROR` as the operation does when one of its bus calls (Start, a
write, a read or Stop) is the first to fail.  The two differ in the calls
made: none for size 0, the calls up to the failing one otherwise. -/
theorem C14_same_error_status (K : Consts) (T : Transport) (fuel : Nat) (tr : List Call)
    (dev : mpsse_context) (m t a : Nat) (mem : List Nat) (S : Nat)
    (hC : 1 ≤ K.LGW_BURST_CHUNK) (hS : 1 ≤ S) (hfuel : S ≤ fuel) :
    (∀ i, FirstFail K T tr (wb_ideal K fuel dev m t a mem S) i →
      lgw_spi_wb K T fuel tr (some dev) m t a (some mem) 0 = some (K.LGW_SPI_ERROR, tr) ∧
      lgw_spi_wb K T fuel tr (some dev) m t a (some mem) S
        = some (K.LGW_SPI_ERROR, tr ++ (wb_ideal K fuel dev m t a mem S).take (i + 1))) ∧
    (∀ i, FirstFail K T tr (rb_ideal K fuel dev m t a mem S) i →
      (lgw_spi_rb K T fuel tr (some dev) m t a (some mem) 0).map (fun r => (r.ret, r.trace))
        = some (K.LGW_SPI_ERROR, tr) ∧
      (lgw_spi_rb K T fuel tr (some dev) m t a (some mem) S).map (fun r => (r.ret, r.trace))
        = some (K.LGW_SPI_ERROR, tr ++ (rb_ideal K fuel dev m t a mem S).take (i + 1))) := by
  constructor
  · intro i hff
    rw [wb_ideal_eq K fuel dev m t a mem S hC hS hfuel] at hff ⊢
    refine ⟨by simp [lgw_spi_wb], ?_⟩
    rw [lgw_spi_wb_eq K T fuel tr dev m t a mem S hC hS hfuel,
      runCalls_firstFail K T tr _ i hff]
    simp [retOf]
  · intro i hff
    rw [rb_ideal_eq K fuel dev m t a mem S hC hS hfuel] at hff ⊢
    refine ⟨by simp [lgw_spi_rb], ?_⟩
    rw [lgw_spi_rb_trace K T fuel tr dev m t a mem S hC hS hfuel,
      runCalls_firstFail K T tr _ i hff]
    simp [retOf]

/-- C14 (amended) at concrete inputs: a burst of 3 bytes in chunks of 2 whose
Stop fails returns -1, as the burst of size 0 does. -/
theorem C14_same_error_status_witness :
    (1 ≤ consts2.LGW_BURST_CHUNK ∧ 1 ≤ 3 ∧ 3 ≤ 3 ∧
      FirstFail consts2 (failAt 4) [] (wb_ideal consts2 3 ctx0 0 0 0x20 [10, 20, 30] 3) 4 ∧
      FirstFail consts2 (failAt 4) [] (rb_ideal consts2 3 ctx0 0 0 0x20 [10, 20, 30] 3) 4) ∧
    (lgw_spi_wb consts2 (failAt 4) 3 [] (some ctx0) 0 0 0x20 (some [10, 20, 30]) 0
        = some (-1, []) ∧
      lgw_spi_wb consts2 (failAt 4) 3 [] (some ctx0) 0 0 0x20 (some [10, 20, 30]) 3
        = some (-1, [Call.Start ctx0, Call.FastWrite ctx0 [0xA0] 1,
            Call.FastWrite ctx0 [10, 20] 2, Call.FastWrite ctx0 [30] 1, Call.Stop ctx0])) ∧
    ((lgw_spi_rb consts2 (failAt 4) 3 [] (some ctx0) 0 0 0x20 (some [10, 20, 30]) 0).map
          (fun r => (r.ret, r.trace)) = some (-1, []) ∧
      (lgw_spi_rb consts2 (failAt 4) 3 [] (some ctx0) 0 0 0x20 (some [10, 20, 30]) 3).map
          (fun r => (r.ret, r.trace))
        = some (-1, [Call.Start ctx0, Call.FastWrite ctx0 [0x20] 1, Call.FastRead ctx0 2,
            Call.FastRead ctx0 1, Call.Stop ctx0])) :=
  ⟨⟨by decide, by decide, le_refl _, firstFail_failAt consts2 rfl _ 4 (by decide),
      firstFail_failAt consts2 rfl _ 4 (by decide)⟩,
    (C14_same_error_status consts2 (failAt 4) 3 [] ctx0 0 0 0x20 [10, 20, 30] 3
      (by decide) (by decide) (le_refl _)).1 4 (firstFail_failAt consts2 rfl _ 4 (by decide)),
    (C14_same_error_status consts2 (failAt 4) 3 [] ctx0 0 0 0x20 [10, 20, 30] 3
      (by decide) (by decide) (le_refl _)).2 4 (firstFail_failAt consts2 rfl _ 4 (by decide))⟩

/-- C15: for a non-null slot pointer, `lgw_spi_open` calls `MPSSE(SPI0, TEN_MHZ,
MSB)`.  If that returns no context, or a context whose `open` field is false,
the call returns `LGW_SPI_ERROR`, makes no further call (neither `SetCSIdle`
nor `FlushAfterRead`) and leaves the slot as it was.  If it returns a context
`d` that is open, the call returns `LGW_SPI_SUCCESS` after
`SetCSIdle(d, HIGH)` and `FlushAfterRead(d, TRUE)`, and the slot holds `d`.
With the two statuses distinct, the call fails exactly in the first case. -/
theorem C15_open (K : Consts) (T : Transport) (tr : List Call)
    (slot : Option mpsse_context) :
    (((T tr (Call.MPSSE Sym.SPI0 Sym.TEN_MHZ Sym.MSB)).ctx = none ∨
        ∃ d, (T tr (Call.MPSSE Sym.SPI0 Sym.TEN_MHZ Sym.MSB)).ctx = some d ∧ d.opened = false) →
      lgw_spi_open K T tr (some slot)
        = (K.LGW_SPI_ERROR, tr ++ [Call.MPSSE Sym.SPI0 Sym.TEN_MHZ Sym.MSB], some slot)) ∧
    (∀ d, (T tr (Call.MPSSE Sym.SPI0 Sym.TEN_MHZ Sym.MSB)).ctx = some d → d.opened = true →
      lgw_spi_open K T tr (some slot)
        = (K.LGW_SPI_SUCCESS,
            tr ++ [Call.MPSSE Sym.SPI0 Sym.TEN_MHZ Sym.MSB, Call.SetCSIdle d Sym.HIGH,
              Call.FlushAfterRead d 1],
            some (some d))) ∧
    (K.LGW_SPI_SUCCESS ≠ K.LGW_SPI_ERROR →
      ((lgw_spi_open K T tr (some slot)).1 = K.LGW_SPI_ERROR ↔
        ((T tr (Call.MPSSE Sym.SPI0 Sym.TEN_MHZ Sym.MSB)).ctx = none ∨
          ∃ d, (T tr (Call.MPSSE Sym.SPI0 Sym.TEN_MHZ Sym.MSB)).ctx = some d
            ∧ d.opened = false))) := by
  have hfail : ((T tr (Call.MPSSE Sym.SPI0 Sym.TEN_MHZ Sym.MSB)).ctx = none ∨
        ∃ d, (T tr (Call.MPSSE Sym.SPI0 Sym.TEN_MHZ Sym.MSB)).ctx = some d ∧ d.opened = false) →
      lgw_spi_open K T tr (some slot)
        = (K.LGW_SPI_ERROR, tr ++ [Call.MPSSE Sym.SPI0 Sym.TEN_MHZ Sym.MSB], some slot) := by
    rintro (h | ⟨d, h, hd⟩)
    · simp [lgw_spi_open, MPSSE, SPI_SPEED, h]
    · simp [lgw_spi_open, MPSSE, SPI_SPEED, h, hd]
  have hsucc : ∀ d, (T tr (Call.MPSSE Sym.SPI0 Sym.TEN_MHZ Sym.MSB)).ctx = some d →
      d.opened = true →
      lgw_spi_open K T tr (some slot)
        = (K.LGW_SPI_SUCCESS,
            tr ++ [Call.MPSSE Sym.SPI0 Sym.TEN_MHZ Sym.MSB, Call.SetCSIdle d Sym.HIGH,
              Call.FlushAfterRead d 1],
            some (some d)) := by
    intro d h hd
    simp [lgw_spi_open, MPSSE, SPI_SPEED, h, hd, SetCSIdle, FlushAfterRead, TRUE]
  refine ⟨hfail, hsucc, ?_⟩
  intro hne
  constructor
  · intro hst
    cases hc : (T tr (Call.MPSSE Sym.SPI0 Sym.TEN_MHZ Sym.MSB)).ctx with
    | none => exact Or.inl rfl
    | some d =>
      cases hd : d.opened
      · exact Or.inr ⟨d, rfl, hd⟩
      · rw [hsucc d hc hd] at hst
        exact absurd hst hne
  · intro h
    rw [hfail h]

/-- C15 at concrete inputs: an open context 5 is stored in the slot after the
two configuration calls; no context, or a context that is not open, gives -1
with the slot still holding context 9. -/
theorem C15_open_witness :
    (((openT none) [] (Call.MPSSE Sym.SPI0 Sym.TEN_MHZ Sym.MSB)).ctx = none ∧
      ((openT (some ⟨5, true⟩)) [] (Call.MPSSE Sym.SPI0 Sym.TEN_MHZ Sym.MSB)).ctx
        = some ⟨5, true⟩ ∧
      stdConsts.LGW_SPI_SUCCESS ≠ stdConsts.LGW_SPI_ERROR) ∧
    lgw_spi_open stdConsts (openT none) [] (some (some ⟨9, true⟩))
      = (-1, [Call.MPSSE Sym.SPI0 Sym.TEN_MHZ Sym.MSB], some (some ⟨9, true⟩)) ∧
    lgw_spi_open stdConsts (openT (some ⟨5, false⟩)) [] (some (some ⟨9, true⟩))
      = (-1, [Call.MPSSE Sym.SPI0 Sym.TEN_MHZ Sym.MSB], some (some ⟨9, true⟩)) ∧
    lgw_spi_open stdConsts (openT (some ⟨5, true⟩)) [] (some (some ⟨9, true⟩))
      = (0, [Call.MPSSE Sym.SPI0 Sym.TEN_MHZ Sym.MSB, Call.SetCSIdle ⟨5, true⟩ Sym.HIGH,
          Call.FlushAfterRead ⟨5, true⟩ 1], some (some ⟨5, true⟩)) ∧
    ((lgw_spi_open stdConsts (openT (some ⟨5, false⟩)) [] (some none)).1
        = stdConsts.LGW_SPI_ERROR ↔
      (((openT (some ⟨5, false⟩)) [] (Call.MPSSE Sym.SPI0 Sym.TEN_MHZ Sym.MSB)).ctx = none ∨
        ∃ d, ((openT (some ⟨5, false⟩)) [] (Call.MPSSE Sym.SPI0 Sym.TEN_MHZ Sym.MSB)).ctx
          = some d ∧ d.opened = false)) :=
  ⟨⟨rfl, rfl, by decide⟩,
    (C15_open stdConsts (openT none) [] (some ⟨9, true⟩)).1 (Or.inl rfl),
    (C15_open stdConsts (openT (some ⟨5, false⟩)) [] (some ⟨9, true⟩)).1
      (Or.inr ⟨⟨5, false⟩, rfl, rfl⟩),
    (C15_open stdConsts (openT (some ⟨5, true⟩)) [] (some ⟨9, true⟩)).2.1 ⟨5, true⟩ rfl rfl,
    (C15_open stdConsts (openT (some ⟨5, false⟩)) [] none).2.2 (by decide)⟩

/-- C16: `lgw_spi_close` with a null handle returns `LGW_SPI_ERROR` without
calling `Close`; with a handle `dev` it calls `Close(dev)` exactly once and
returns `LGW_SPI_SUCCESS`.  `Close` returns nothing, so nothing it does can
change the status.  With the two statuses distinct, the call fails exactly
when the handle is null. -/
theorem C16_close (K : Consts) (tr : List Call) :
    lgw_spi_close K tr none = (K.LGW_SPI_ERROR, tr) ∧
    (∀ dev, lgw_spi_close K tr (some dev) = (K.LGW_SPI_SUCCESS, tr ++ [Call.Close dev])) ∧
    (K.LGW_SPI_SUCCESS ≠ K.LGW_SPI_ERROR →
      ∀ h, ((lgw_spi_close K tr h).1 = K.LGW_SPI_ERROR ↔ h = none)) := by
  refine ⟨rfl, fun _ => rfl, ?_⟩
  intro hne h
  cases h with
  | none => simp [lgw_spi_close]
  | some dev => simp [lgw_spi_close, hne]

/-- C16 at concrete inputs: closing context `ctx0` adds one `Close` call and
returns 0, and that status is not the error status. -/
theorem C16_close_witness :
    stdConsts.LGW_SPI_SUCCESS ≠ stdConsts.LGW_SPI_ERROR ∧
    lgw_spi_close stdConsts [] (some ctx0) = (0, [Call.Close ctx0]) ∧
    ((lgw_spi_close stdConsts [] (some ctx0)).1 = stdConsts.LGW_SPI_ERROR ↔
      some ctx0 = none) :=
  ⟨by decide, (C16_close stdConsts []).2.1 ctx0,
    (C16_close stdConsts []).2.2 (by decide) (some ctx0)⟩

/-- C17: the address enters each operation only as `a & 0x7F`.  For every
address `a` (so also for `128..255`) and all other arguments and the transport
the same, `lgw_spi_w`, `lgw_spi_r`, `lgw_spi_wb` and `lgw_spi_rb` called with
`a` give the same status, the same trace and the same data as called with
`a & 0x7F`; and on a transport on which every call succeeds they return
`LGW_SPI_SUCCESS`, whatever bit 7 of `a` is. -/
theorem C17_top_bit_masked (K : Consts) (T : Transport) (fuel : Nat) (tr : List Call)
    (h : Option mpsse_context) (m t a : Nat) :
    (∀ d, lgw_spi_w K T tr h m t a d = lgw_spi_w K T tr h m t (a &&& 0x7F) d) ∧
    (∀ data, lgw_spi_r K T tr h m t a data = lgw_spi_r K T tr h m t (a &&& 0x7F) data) ∧
    (∀ data S, lgw_spi_wb K T fuel tr h m t a data S
      = lgw_spi_wb K T fuel tr h m t (a &&& 0x7F) data S) ∧
    (∀ data S, lgw_spi_rb K T fuel tr h m t a data S
      = lgw_spi_rb K T fuel tr h m t (a &&& 0x7F) data S) ∧
    (AllOk K T → ∀ dev,
      (∀ d, (lgw_spi_w K T tr (some dev) m t a d).1 = K.LGW_SPI_SUCCESS) ∧
      (∀ old, (lgw_spi_r K T tr (some dev) m t a (some old)).1 = K.LGW_SPI_SUCCESS) ∧
      (∀ mem S, 1 ≤ K.LGW_BURST_CHUNK → 1 ≤ S → S ≤ fuel →
        (lgw_spi_wb K T fuel tr (some dev) m t a (some mem) S).map Prod.fst
          = some K.LGW_SPI_SUCCESS ∧
        (lgw_spi_rb K T fuel tr (some dev) m t a (some mem) S).map RbRes.ret
          = some K.LGW_SPI_SUCCESS)) := by
  have hm := mask_mask a
  refine ⟨?_, ?_, ?_, ?_, ?_⟩
  · intro d
    simp only [lgw_spi_w, hm]
  · intro data
    simp only [lgw_spi_r, hm]
  · intro data S
    simp only [lgw_spi_wb, hm]
  · intro data S
    simp only [lgw_spi_rb, hm]
  · intro hok dev
    refine ⟨?_, ?_, ?_⟩
    · intro d
      rw [lgw_spi_w_eq, runCalls_allOk K T hok]
      rfl
    · intro old
      rw [lgw_spi_r_eq, runCalls_allOk K T hok]
      rfl
    · intro mem S hC hS hfuel
      constructor
      · rw [lgw_spi_wb_allOk K T fuel tr dev m t a mem S hC hS hfuel hok]
        rfl
      · obtain ⟨h1, h2, _⟩ := lgw_spi_rb_allOk_trace K T fuel tr dev m t a mem S hC hS hfuel hok
        rw [h1]
        simp [h2]

/-- C17 at concrete inputs: with address 0x90 a write, a read and both bursts
succeed on a mock on which every call succeeds, exactly as with address
0x10. -/
theorem C17_top_bit_masked_witness :
    (AllOk consts2 (mockT 9) ∧ 1 ≤ consts2.LGW_BURST_CHUNK ∧ 1 ≤ 3 ∧ 3 ≤ 3) ∧
    lgw_spi_w consts2 (mockT 9) [] (some ctx0) 0 0 0x90 0xAB
      = lgw_spi_w consts2 (mockT 9) [] (some ctx0) 0 0 0x10 0xAB ∧
    (lgw_spi_w consts2 (mockT 9) [] (some ctx0) 0 0 0x90 0xAB).1 = 0 ∧
    (lgw_spi_r consts2 (mockT 9) [] (some ctx0) 0 0 0x90 (some 0)).1 = 0 ∧
    (lgw_spi_wb consts2 (mockT 9) 3 [] (some ctx0) 0 0 0x90 (some [1, 2, 3]) 3).map Prod.fst
      = some 0 ∧
    (lgw_spi_rb consts2 (mockT 9) 3 [] (some ctx0) 0 0 0x90 (some [1, 2, 3]) 3).map RbRes.ret
      = some 0 :=
  ⟨⟨fun _ _ => rfl, by decide, by decide, le_refl _⟩,
    (C17_top_bit_masked consts2 (mockT 9) 3 [] (some ctx0) 0 0 0x90).1 0xAB,
    ((C17_top_bit_masked consts2 (mockT 9) 3 [] (some ctx0) 0 0 0x90).2.2.2.2
      (fun _ _ => rfl) ctx0).1 0xAB,
    ((C17_top_bit_masked consts2 (mockT 9) 3 [] (some ctx0) 0 0 0x90).2.2.2.2
      (fun _ _ => rfl) ctx0).2.1 0,
    (((C17_top_bit_masked consts2 (mockT 9) 3 [] (some ctx0) 0 0 0x90).2.2.2.2
      (fun _ _ => rfl) ctx0).2.2 [1, 2, 3] 3 (by decide) (by decide) (le_refl _)).1,
    (((C17_top_bit_masked consts2 (mockT 9) 3 [] (some ctx0) 0 0 0x90).2.2.2.2
      (fun _ _ => rfl) ctx0).2.2 [1, 2, 3] 3 (by decide) (by decide) (le_refl _)).2⟩

/-- C18: on a transport on which every call succeeds and every read delivers
the byte `r` (in `0..255`), `lgw_spi_r` with a given handle, mux mode, mux
target and address returns `LGW_SPI_SUCCESS` and the value `r` and adds the
same calls `calls`, whatever calls were made before it and whatever `data`
held; so `n` such calls in a row give `n` times the same status, calls and
value. -/
theorem C18_read_repeatable (K : Consts) (T : Transport) (dev : mpsse_context)
    (m t a r : Nat) (hr : r < 256) (hok : AllOk K T)
    (hrd : ∀ (h : List Call) (n : Int), (T h (Call.FastRead dev n)).bytes 0 = r) :
    ∃ calls : List Call,
      (∀ tr old, lgw_spi_r K T tr (some dev) m t a (some old)
        = (K.LGW_SPI_SUCCESS, tr ++ calls, some r)) ∧
      (∀ n tr old, r_seq K T dev m t a n tr (some old)
        = List.replicate n (K.LGW_SPI_SUCCESS, calls, some r)) := by
  have h1 : ∀ tr old, lgw_spi_r K T tr (some dev) m t a (some old)
      = (K.LGW_SPI_SUCCESS, tr ++ r_calls K dev m t a, some r) :=
    fun tr old => lgw_spi_r_fixed K T tr dev m t a r old hr hok hrd
  refine ⟨r_calls K dev m t a, h1, ?_⟩
  intro n
  induction n with
  | zero => intro tr old; rfl
  | succ n ih =>
    intro tr old
    simp only [r_seq, h1, List.replicate_succ, newCalls, List.drop_left]
    rw [ih]

/-- C18 at concrete inputs: three reads in a row in mode MODE1, target 0x01,
address 0x05, on a mock delivering 0x7F each return 0 and 0x7F and add the same
four calls. -/
theorem C18_read_repeatable_witness :
    (0x7F < 256 ∧ AllOk stdConsts (mockT 0x7F) ∧
      ∀ (h : List Call) (n : Int), ((mockT 0x7F) h (Call.FastRead ctx0 n)).bytes 0 = 0x7F) ∧
    ∃ calls : List Call,
      calls = [Call.Start ctx0, Call.FastWrite ctx0 [0x01, 0x05] 2, Call.FastRead ctx0 1,
        Call.Stop ctx0] ∧
      r_seq stdConsts (mockT 0x7F) ctx0 1 1 0x05 3 [] (some 0)
        = [(0, calls, some 0x7F), (0, calls, some 0x7F), (0, calls, some 0x7F)] := by
  obtain ⟨calls, h1, h2⟩ := C18_read_repeatable stdConsts (mockT 0x7F) ctx0 1 1 0x05 0x7F
    (by decide) (fun _ _ => rfl) (fun _ _ => rfl)
  refine ⟨⟨by decide, fun _ _ => rfl, fun _ _ => rfl⟩, calls, ?_, ?_⟩
  · have h3 := h1 [] 0
    have h4 : lgw_spi_r stdConsts (mockT 0x7F) [] (some ctx0) 1 1 0x05 (some 0)
        = (0, [Call.Start ctx0, Call.FastWrite ctx0 [0x01, 0x05] 2, Call.FastRead ctx0 1,
            Call.Stop ctx0], some 0x7F) := by decide
    rw [h4] at h3
    simpa using (congrArg (fun x => x.2.1) h3).symm
  · rw [h2 3 [] 0]
    rfl

/-- C19: the chunk loops of `lgw_spi_wb` and `lgw_spi_rb` are safe.  For a size
`S` in `1..65535` and chunk limit `C >= 1`, the loop runs `S / C` rounded up
iterations, at most `S`.  It starts with `i = 0` and `size_to_do = S`, and each
iteration is followed by one with `i + 1` and `size_to_do - chunk_size`.  At
every iteration `offset = i * C = S - size_to_do`, `1 <= chunk_size <=
min(size_to_do, C)`, `0 <= offset` and `offset + chunk_size <= S`, and the new
count `size_to_do - chunk_size` is at least 0 and less than `size_to_do`; after
the last iteration it is 0.  For `C <= 32767` every value computed fits a
32-bit `int`.  The real loops make exactly the transfers of these iterations,
at these offsets and of these sizes, until one fails. -/
theorem C19_loop_safety (K : Consts) (fuel S : Nat) (hC : 1 ≤ K.LGW_BURST_CHUNK)
    (hS1 : 1 ≤ S) (hS2 : S ≤ 65535) (hfuel : S ≤ fuel) :
    (loop_iters K fuel 0 (S : Int)).length = nchunks K.LGW_BURST_CHUNK S ∧
    (loop_iters K fuel 0 (S : Int)).length ≤ S ∧
    (∀ x, (loop_iters K fuel 0 (S : Int))[0]? = some x → x.i = 0 ∧ x.size_to_do = (S : Int)) ∧
    (∀ p x y, (loop_iters K fuel 0 (S : Int))[p]? = some x →
      (loop_iters K fuel 0 (S : Int))[p + 1]? = some y →
      y.i = x.i + 1 ∧ y.size_to_do = x.size_to_do - x.chunk_size) ∧
    (∀ x ∈ loop_iters K fuel 0 (S : Int),
      x.offset = x.i * (K.LGW_BURST_CHUNK : Int) ∧ x.offset = (S : Int) - x.size_to_do ∧
      1 ≤ x.chunk_size ∧ x.chunk_size ≤ x.size_to_do ∧
      x.chunk_size ≤ (K.LGW_BURST_CHUNK : Int) ∧
      0 ≤ x.offset ∧ x.offset + x.chunk_size ≤ (S : Int) ∧
      0 ≤ x.size_to_do - x.chunk_size ∧ x.size_to_do - x.chunk_size < x.size_to_do) ∧
    (∀ x, (loop_iters K fuel 0 (S : Int))[(loop_iters K fuel 0 (S : Int)).length - 1]? = some x →
      x.size_to_do - x.chunk_size = 0) ∧
    (K.LGW_BURST_CHUNK ≤ 32767 → ∀ x ∈ loop_iters K fuel 0 (S : Int),
      inInt32 x.i ∧ inInt32 (x.i + 1) ∧ inInt32 x.size_to_do ∧ inInt32 x.chunk_size ∧
      inInt32 x.offset ∧ inInt32 (x.size_to_do - x.chunk_size) ∧
      inInt32 (K.LGW_BURST_CHUNK : Int)) ∧
    (∀ (T : Transport) (dev : mpsse_context) (mem : List Nat) (tr : List Call),
      wb_loop K T dev mem fuel 0 (S : Int) tr = some (runCalls K T tr
        ((loop_iters K fuel 0 (S : Int)).map
          (fun x => Call.FastWrite dev ((mem.drop x.offset.toNat).take x.chunk_size.toNat)
            x.chunk_size)))) ∧
    (∀ (T : Transport) (dev : mpsse_context) (tr : List Call) (mem : List Nat)
        (st : List (Nat × List Nat)),
      rb_loop K T dev fuel 0 (S : Int) tr mem st = some (runReads K T dev
        ((loop_iters K fuel 0 (S : Int)).map (fun x => (x.offset.toNat, x.chunk_size)))
        tr mem st)) := by
  rw [loop_iters_all K fuel S hC hfuel]
  refine ⟨by simp, by simpa using nchunks_le hC S, ?_, ?_, ?_, ?_, ?_, ?_, ?_⟩
  · intro x hx
    obtain ⟨_, rfl⟩ := iters_get _ _ _ _ hx
    simp [iterAt]
  · intro p x y hx hy
    obtain ⟨_, rfl⟩ := iters_get _ _ _ _ hx
    obtain ⟨hp, rfl⟩ := iters_get _ _ _ _ hy
    have hlt := (lt_nchunks_iff hC S (p + 1)).mp hp
    rw [Nat.add_mul, Nat.one_mul] at hlt
    simp only [iterAt, chunkLen]
    constructor
    · push_cast; rfl
    · rw [Nat.add_mul, Nat.one_mul]
      omega
  · intro x hx
    obtain ⟨j, hj, rfl⟩ := iters_mem _ _ _ hx
    obtain ⟨h1, h2, h3, h4, h5, h6, h7, h8, h9, _, _⟩ := iterAt_props hC S j hj
    exact ⟨h1, h2, h3, h4, h5, h6, h7, h8, h9⟩
  · intro x hx
    simp only [List.length_map, List.length_range] at hx
    obtain ⟨hp, rfl⟩ := iters_get _ _ _ _ hx
    have hceil := (nchunks_ceil hC S).1
    have hmul : nchunks K.LGW_BURST_CHUNK S * K.LGW_BURST_CHUNK
        = (nchunks K.LGW_BURST_CHUNK S - 1) * K.LGW_BURST_CHUNK + K.LGW_BURST_CHUNK := by
      conv_lhs => rw [show nchunks K.LGW_BURST_CHUNK S
        = (nchunks K.LGW_BURST_CHUNK S - 1) + 1 by omega]
      rw [Nat.add_mul, Nat.one_mul]
    simp only [iterAt, chunkLen]
    omega
  · intro hC2 x hx
    obtain ⟨j, hj, rfl⟩ := iters_mem _ _ _ hx
    obtain ⟨_, h2, h3, h4, h5, h6, h7, h8, h9, h10, h11⟩ := iterAt_props hC S j hj
    unfold inInt32
    refine ⟨⟨?_, ?_⟩, ⟨?_, ?_⟩, ⟨?_, ?_⟩, ⟨?_, ?_⟩, ⟨?_, ?_⟩, ⟨?_, ?_⟩, ⟨?_, ?_⟩⟩ <;> omega
  · intro T dev mem tr
    have h := wb_loop_eq K T dev mem S hC fuel 0 tr (by simpa using hfuel)
    simp only [Nat.cast_zero, Nat.zero_mul, Nat.sub_zero, ← List.range_eq_range'] at h
    rw [h, List.map_map]
    congr 2
  · intro T dev tr mem st
    have h := rb_loop_eq K T dev S hC fuel 0 tr mem st (by simpa using hfuel)
    simp only [Nat.cast_zero, Nat.zero_mul, Nat.sub_zero, ← List.range_eq_range'] at h
    rw [h, List.map_map]
    congr 2

/-- C19 at concrete inputs: 5 bytes in chunks of 2 take the three iterations
`(i, size_to_do, chunk_size, offset)` = `(0, 5, 2, 0)`, `(1, 3, 2, 2)` and
`(2, 1, 1, 4)`, after which nothing is left to do. -/
theorem C19_loop_safety_witness :
    (1 ≤ consts2.LGW_BURST_CHUNK ∧ 1 ≤ 5 ∧ 5 ≤ 65535 ∧ 5 ≤ 5 ∧
      consts2.LGW_BURST_CHUNK ≤ 32767 ∧
      loop_iters consts2 5 0 ((5 : Nat) : Int) = [⟨0, 5, 2, 0⟩, ⟨1, 3, 2, 2⟩, ⟨2, 1, 1, 4⟩]) ∧
    (loop_iters consts2 5 0 ((5 : Nat) : Int)).length = nchunks consts2.LGW_BURST_CHUNK 5 ∧
    ((⟨0, 5, 2, 0⟩ : LoopIter).i = 0 ∧ (⟨0, 5, 2, 0⟩ : LoopIter).size_to_do = ((5 : Nat) : Int)) ∧
    ((⟨1, 3, 2, 2⟩ : LoopIter).i = (⟨0, 5, 2, 0⟩ : LoopIter).i + 1 ∧
      (⟨1, 3, 2, 2⟩ : LoopIter).size_to_do
        = (⟨0, 5, 2, 0⟩ : LoopIter).size_to_do - (⟨0, 5, 2, 0⟩ : LoopIter).chunk_size) ∧
    (⟨2, 1, 1, 4⟩ : LoopIter).size_to_do - (⟨2, 1, 1, 4⟩ : LoopIter).chunk_size = 0 ∧
    (∀ x ∈ loop_iters consts2 5 0 ((5 : Nat) : Int),
      inInt32 x.i ∧ inInt32 (x.i + 1) ∧ inInt32 x.size_to_do ∧ inInt32 x.chunk_size ∧
      inInt32 x.offset ∧ inInt32 (x.size_to_do - x.chunk_size) ∧
      inInt32 (consts2.LGW_BURST_CHUNK : Int)) :=
  ⟨⟨by decide, by decide, by decide, le_refl _, by decide, by decide⟩,
    (C19_loop_safety consts2 5 5 (by decide) (by decide) (by decide) (le_refl _)).1,
    (C19_loop_safety consts2 5 5 (by decide) (by decide) (by decide) (le_refl _)).2.2.1
      ⟨0, 5, 2, 0⟩ (by decide),
    (C19_loop_safety consts2 5 5 (by decide) (by decide) (by decide) (le_refl _)).2.2.2.1
      0 ⟨0, 5, 2, 0⟩ ⟨1, 3, 2, 2⟩ (by decide) (by decide),
    (C19_loop_safety consts2 5 5 (by decide) (by decide) (by decide) (le_refl _)).2.2.2.2.2.1
      ⟨2, 1, 1, 4⟩ (by decide),
    (C19_loop_safety consts2 5 5 (by decide) (by decide) (by decide) (le_refl _)).2.2.2.2.2.2.1
      (by decide)⟩

/-- C20: only `LGW_SPI_MUX_MODE1` selects the mux byte.  For any two mux modes
`m1`, `m2` other than `LGW_SPI_MUX_MODE1` (so for any such mode and NONE) and
any two mux targets `t1`, `t2`, each of `lgw_spi_w`, `lgw_spi_r`, `lgw_spi_wb`
and `lgw_spi_rb` gives the same status, trace and data with `m1`, `t1` as with
`m2`, `t2`; and when Start succeeds the frame written holds no mux byte: the
access byte and the data byte for `lgw_spi_w`, the access byte alone for the
other three. -/
theorem C20_only_mode1_selects_mux (K : Consts) (T : Transport) (fuel : Nat) (tr : List Call)
    (h : Option mpsse_context) (m1 m2 t1 t2 a : Nat)
    (h1 : (m1 : Int) ≠ K.LGW_SPI_MUX_MODE1) (h2 : (m2 : Int) ≠ K.LGW_SPI_MUX_MODE1) :
    (∀ d, lgw_spi_w K T tr h m1 t1 a d = lgw_spi_w K T tr h m2 t2 a d) ∧
    (∀ data, lgw_spi_r K T tr h m1 t1 a data = lgw_spi_r K T tr h m2 t2 a data) ∧
    (∀ data S, lgw_spi_wb K T fuel tr h m1 t1 a data S
      = lgw_spi_wb K T fuel tr h m2 t2 a data S) ∧
    (∀ data S, lgw_spi_rb K T fuel tr h m1 t1 a data S
      = lgw_spi_rb K T fuel tr h m2 t2 a data S) ∧
    (∀ dev, (T tr (Call.Start dev)).status = K.MPSSE_OK →
      (∀ d, d < 256 → (newCalls tr (lgw_spi_w K T tr (some dev) m1 t1 a d).2)[1]?
        = some (Call.FastWrite dev [0x80 ||| (a &&& 0x7F), d] 2)) ∧
      (∀ old, (newCalls tr (lgw_spi_r K T tr (some dev) m1 t1 a (some old)).2.1)[1]?
        = some (Call.FastWrite dev [a &&& 0x7F] 1)) ∧
      (∀ mem S, 1 ≤ K.LGW_BURST_CHUNK → 1 ≤ S → S ≤ fuel →
        ((lgw_spi_wb K T fuel tr (some dev) m1 t1 a (some mem) S).map
            (fun r => (newCalls tr r.2)[1]?)
          = some (some (Call.FastWrite dev [0x80 ||| (a &&& 0x7F)] 1))) ∧
        ((lgw_spi_rb K T fuel tr (some dev) m1 t1 a (some mem) S).map
            (fun r => (newCalls tr r.trace)[1]?)
          = some (some (Call.FastWrite dev [a &&& 0x7F] 1))))) := by
  have hbw : toByte ((WRITE_ACCESS ||| (a &&& 0x7F) : Nat) : Int) = 0x80 ||| (a &&& 0x7F) :=
    toByte_of_lt (access_lt 0x80 a (by norm_num))
  have hbr : toByte ((READ_ACCESS ||| (a &&& 0x7F) : Nat) : Int) = a &&& 0x7F := by
    have := toByte_of_lt (access_lt 0x00 a (by norm_num))
    simpa [READ_ACCESS] using this
  refine ⟨?_, ?_, ?_, ?_, ?_⟩
  · intro d
    simp only [lgw_spi_w, h1, h2, if_false]
  · intro data
    simp only [lgw_spi_r, h1, h2, if_false]
  · intro data S
    simp only [lgw_spi_wb, h1, h2, if_false]
  · intro data S
    simp only [lgw_spi_rb, h1, h2, if_false]
  · intro dev hstart
    refine ⟨?_, ?_, ?_⟩
    · intro d hd
      rw [lgw_spi_w_eq]
      simp only [retOf, w_calls]
      rw [runCalls_second K T tr _ _ _ hstart]
      simp [frameCall, w_frame, h1, hbw, toByte_of_lt hd]
    · intro old
      rw [lgw_spi_r_eq]
      simp only [r_calls]
      rw [runCalls_second K T tr _ _ _ hstart]
      simp [frameCall, r_frame, h1, hbr]
    · intro mem S hC hS hfuel
      constructor
      · rw [lgw_spi_wb_eq K T fuel tr dev m1 t1 a mem S hC hS hfuel]
        simp only [Option.map_some', retOf, wb_calls]
        rw [runCalls_second K T tr _ _ _ hstart]
        simp [frameCall, wb_frame, h1, hbw]
      · have hrb1 := lgw_spi_rb_eq K T fuel tr dev m1 t1 a mem S hC hS hfuel
        have hrb2 := lgw_spi_rb_trace K T fuel tr dev m1 t1 a mem S hC hS hfuel
        rw [hrb1] at hrb2 ⊢
        simp only [Option.map_some', Option.some.injEq, retOf, Prod.mk.injEq] at hrb2
        simp only [Option.map_some', hrb2.2, rb_calls]
        rw [runCalls_second K T tr _ _ _ hstart]
        simp [frameCall, r_frame, h1, hbr]

/-- C20 at concrete inputs: mode 7 with target 5 behaves as mode NONE (0) with
target 0, and in mode 7 the single write puts `[0x90, 0xAB]` on the bus. -/
theorem C20_only_mode1_selects_mux_witness :
    (((7 : Nat) : Int) ≠ stdConsts.LGW_SPI_MUX_MODE1 ∧
      ((0 : Nat) : Int) ≠ stdConsts.LGW_SPI_MUX_MODE1 ∧
      ((mockT 9) [] (Call.Start ctx0)).status = stdConsts.MPSSE_OK ∧ 0xAB < 256) ∧
    lgw_spi_w stdConsts (mockT 9) [] (some ctx0) 7 5 0x10 0xAB
      = lgw_spi_w stdConsts (mockT 9) [] (some ctx0) 0 0 0x10 0xAB ∧
    lgw_spi_r stdConsts (mockT 9) [] (some ctx0) 7 5 0x10 (some 0)
      = lgw_spi_r stdConsts (mockT 9) [] (some ctx0) 0 0 0x10 (some 0) ∧
    (newCalls [] (lgw_spi_w stdConsts (mockT 9) [] (some ctx0) 7 5 0x10 0xAB).2)[1]?
      = some (Call.FastWrite ctx0 [0x90, 0xAB] 2) ∧
    ((1 ≤ stdConsts.LGW_BURST_CHUNK ∧ 1 ≤ 3 ∧ 3 ≤ 3) ∧
      (lgw_spi_wb stdConsts (mockT 9) 3 [] (some ctx0) 7 5 0x10 (some [1, 2, 3]) 3).map
          (fun r => (newCalls [] r.2)[1]?)
        = some (some (Call.FastWrite ctx0 [0x90] 1)) ∧
      (lgw_spi_rb stdConsts (mockT 9) 3 [] (some ctx0) 7 5 0x10 (some [1, 2, 3]) 3).map
          (fun r => (newCalls [] r.trace)[1]?)
        = some (some (Call.FastWrite ctx0 [0x10] 1))) :=
  ⟨⟨by decide, by decide, rfl, by decide⟩,
    (C20_only_mode1_selects_mux stdConsts (mockT 9) 3 [] (some ctx0) 7 0 5 0 0x10
      (by decide) (by decide)).1 0xAB,
    (C20_only_mode1_selects_mux stdConsts (mockT 9) 3 [] (some ctx0) 7 0 5 0 0x10
      (by decide) (by decide)).2.1 (some 0),
    ((C20_only_mode1_selects_mux stdConsts (mockT 9) 3 [] (some ctx0) 7 0 5 0 0x10
      (by decide) (by decide)).2.2.2.2 ctx0 rfl).1 0xAB (by decide),
    ⟨by decide, by decide, le_refl _⟩,
    ((C20_only_mode1_selects_mux stdConsts (mockT 9) 3 [] (some ctx0) 7 0 5 0 0x10
      (by decide) (by decide)).2.2.2.2 ctx0 rfl).2.2 [1, 2, 3] 3 (by decide) (by decide)
      (le_refl _)⟩

end LoraSpi
